import Mathlib

/-!
# Verification of the SQL WHERE-clause extractor/reconstructor

Shallow embedding of `sql_parser.py` (functions `parse_sql_query`,
`extract_conditions`, `parse_condition`, `detect_value_type`,
`reconstruct_sql_query`, `construct_where_clause`, `format_value`).

Strings are modelled as `List Char` internally (ASCII; the repository's
inputs are ASCII SQL text).  Python regular expressions are embedded as
deterministic functional matchers that mirror the backtracking behaviour
of the concrete patterns appearing in the source, as analysed pattern by
pattern.  Python exceptions are modelled with `Except`; external library
calls (`sqlparse.format`, the `sqlparse` token walk) are modelled from the
spec where noted, since the library is not part of the repository.
-/

namespace SqlRQ

/-- Python's `\s` / `str.strip()` whitespace, ASCII range. -/
def pyWs (c : Char) : Bool :=
  c = ' ' || c = '\t' || c = '\n' || c = '\r' || c = '\x0b' || c = '\x0c'

/-- ASCII lower-casing, as Python `str.lower()` acts on ASCII text
(written as an explicit table so case analyses stay elementary). -/
def lcChar (c : Char) : Char :=
  match c with
  | 'A' => 'a' | 'B' => 'b' | 'C' => 'c' | 'D' => 'd' | 'E' => 'e'
  | 'F' => 'f' | 'G' => 'g' | 'H' => 'h' | 'I' => 'i' | 'J' => 'j'
  | 'K' => 'k' | 'L' => 'l' | 'M' => 'm' | 'N' => 'n' | 'O' => 'o'
  | 'P' => 'p' | 'Q' => 'q' | 'R' => 'r' | 'S' => 's' | 'T' => 't'
  | 'U' => 'u' | 'V' => 'v' | 'W' => 'w' | 'X' => 'x' | 'Y' => 'y'
  | 'Z' => 'z' | c => c

/-- ASCII upper-casing, as Python `str.upper()` acts on ASCII text. -/
def ucChar (c : Char) : Char :=
  match c with
  | 'a' => 'A' | 'b' => 'B' | 'c' => 'C' | 'd' => 'D' | 'e' => 'E'
  | 'f' => 'F' | 'g' => 'G' | 'h' => 'H' | 'i' => 'I' | 'j' => 'J'
  | 'k' => 'K' | 'l' => 'L' | 'm' => 'M' | 'n' => 'N' | 'o' => 'O'
  | 'p' => 'P' | 'q' => 'Q' | 'r' => 'R' | 's' => 'S' | 't' => 'T'
  | 'u' => 'U' | 'v' => 'V' | 'w' => 'W' | 'x' => 'X' | 'y' => 'Y'
  | 'z' => 'Z' | c => c

def lcStr (cs : List Char) : List Char := cs.map lcChar

def ucStr (cs : List Char) : List Char := cs.map ucChar

/-- Case-insensitive character comparison (ASCII). -/
def ciEq (a b : Char) : Bool := lcChar a = lcChar b

/-- Consume the literal `pat` at the head of `cs` (case sensitively),
returning the rest. -/
def dropLit : List Char → List Char → Option (List Char)
  | [], cs => some cs
  | _ :: _, [] => none
  | p :: ps, c :: cs => if p = c then dropLit ps cs else none

/-- Consume the literal `pat` at the head of `cs` case-insensitively. -/
def dropLitCI : List Char → List Char → Option (List Char)
  | [], cs => some cs
  | _ :: _, [] => none
  | p :: ps, c :: cs => if ciEq p c then dropLitCI ps cs else none

/-- `pat` occurs at the head of `cs`. -/
def isPrefixOfB (pat cs : List Char) : Bool := (dropLit pat cs).isSome

/-- Substring occurrence, Python's `pat in s`. -/
def containsSub : List Char → List Char → Bool
  | _, [] => false
  | pat, c :: cs => isPrefixOfB pat (c :: cs) || containsSub pat cs

/-- `containsSub` also finding the empty-suffix position (Python `"" in s` is
`True`, and `pat in s` also checks the position at the very end). -/
def pyContains (s pat : List Char) : Bool :=
  pat.isEmpty || containsSub pat s

/-- Python `str.strip()` (no argument): strip whitespace on both ends. -/
def pyStrip (cs : List Char) : List Char :=
  ((cs.dropWhile pyWs).reverse.dropWhile pyWs).reverse

/-- Python `str.strip("'\"")`: strip single/double quote characters on both
ends. -/
def stripQuotes (cs : List Char) : List Char :=
  let q := fun c => c = '\'' || c = '"'
  ((cs.dropWhile q).reverse.dropWhile q).reverse

/-! ## Python `float()` acceptance (the `try: float(value)` tests) -/

/-- A digit run in which single underscores may appear between digits
(Python numeric literal rule), consuming as much as possible. -/
def digitsUAux : List Char → List Char
  | [] => []
  | c :: cs =>
    if c.isDigit then digitsUAux cs
    else if c = '_' then
      match cs with
      | d :: ds => if d.isDigit then digitsUAux ds else c :: cs
      | [] => c :: cs
  else c :: cs

/-- Nonempty underscore-grouped digit run; `none` if no leading digit. -/
def digitsU : List Char → Option (List Char)
  | [] => none
  | c :: cs => if c.isDigit then some (digitsUAux cs) else none

/-- Decimal significand: `digits [. [digits]]` or `. digits`. -/
def parseSig (cs : List Char) : Option (List Char) :=
  match digitsU cs with
  | some r =>
    match r with
    | '.' :: r2 =>
      match digitsU r2 with
      | some r3 => some r3
      | none => some r2
    | _ => some r
  | none =>
    match cs with
    | '.' :: r2 =>
      match digitsU r2 with
      | some r3 => some r3
      | none => none
    | _ => none

/-- Optional exponent `('e'|'E') [sign] digits`; an incomplete exponent is
simply not consumed. -/
def parseExp (r : List Char) : List Char :=
  match r with
  | e :: r2 =>
    if e = 'e' || e = 'E' then
      match r2 with
      | s :: r3 =>
        if s = '+' || s = '-' then
          match digitsU r3 with
          | some r4 => r4
          | none => e :: r2
        else
          match digitsU r2 with
          | some r4 => r4
          | none => e :: r2
      | [] => e :: r2
    else e :: r2
  | [] => []

/-- The part of `float()` input after an optional sign: `inf`, `infinity`,
`nan` (case-insensitive) or a decimal significand with optional exponent. -/
def floatBody (cs : List Char) : Option (List Char) :=
  match dropLitCI ['i','n','f','i','n','i','t','y'] cs with
  | some r => some r
  | none =>
  match dropLitCI ['i','n','f'] cs with
  | some r => some r
  | none =>
  match dropLitCI ['n','a','n'] cs with
  | some r => some r
  | none =>
  match parseSig cs with
  | some r => some (parseExp r)
  | none => none

/-- Optional leading sign. -/
def dropSign : List Char → List Char
  | c :: r => if c = '+' || c = '-' then r else c :: r
  | [] => []

/-- Python `float(s)` succeeds: optional whitespace, optional sign, body,
optional whitespace, end of string. -/
def isPyFloatL (cs : List Char) : Bool :=
  match floatBody (dropSign (cs.dropWhile pyWs)) with
  | some r => (r.dropWhile pyWs).isEmpty
  | none => false

def isPyFloat (s : String) : Bool := isPyFloatL s.toList

/-! ## `datetime.strptime` on the six formats used by `detect_value_type` -/

def digitVal (c : Char) : Nat := c.toNat - '0'.toNat

/-- `%Y`: exactly four digits; `datetime` additionally requires year ≥ 1. -/
def parseY4 : List Char → Option (Nat × List Char)
  | a :: b :: c :: d :: r =>
    if a.isDigit && b.isDigit && c.isDigit && d.isDigit then
      let y := ((digitVal a * 10 + digitVal b) * 10 + digitVal c) * 10 + digitVal d
      if y ≥ 1 then some (y, r) else none
    else none
  | _ => none

/-- One- or two-digit numeric field: two digits are consumed when available
(the following literal separators are never digits, so the 1-digit
alternative cannot rescue a failed 2-digit parse); the value must lie in
`[lo2, hi2]` when two digits are read, or be a single digit in
`[lo1, hi1]`. This mirrors the `_strptime` alternations such as
`1[0-2]|0[1-9]|[1-9]` for `%m`. -/
def parse2or1 (lo2 hi2 lo1 hi1 : Nat) : List Char → Option (Nat × List Char)
  | a :: b :: r =>
    if a.isDigit && b.isDigit then
      let v := digitVal a * 10 + digitVal b
      if lo2 ≤ v && v ≤ hi2 then some (v, r) else none
    else if a.isDigit then
      let v := digitVal a
      if lo1 ≤ v && v ≤ hi1 then some (v, b :: r) else none
    else none
  | [a] =>
    if a.isDigit then
      let v := digitVal a
      if lo1 ≤ v && v ≤ hi1 then some (v, []) else none
    else none
  | [] => none

def parseMonth : List Char → Option (Nat × List Char) := parse2or1 1 12 1 9

def parseDayRaw : List Char → Option (Nat × List Char) := parse2or1 1 31 1 9

def parseHour : List Char → Option (Nat × List Char) := parse2or1 0 23 0 9

def parseMinSec : List Char → Option (Nat × List Char) := parse2or1 0 59 0 9

/-- Literal separator character in a format. -/
def parseSep (sep : Char) : List Char → Option (List Char)
  | c :: r => if c = sep then some r else none
  | [] => none

/-- Whitespace in a `strptime` format matches one or more input whitespace
characters (`_strptime` rewrites format whitespace to `\s+`). -/
def parseWsPlus : List Char → Option (List Char)
  | c :: r => if pyWs c then some (r.dropWhile pyWs) else none
  | [] => none

def isLeapYear (y : Nat) : Bool := y % 4 = 0 && (y % 100 ≠ 0 || y % 400 = 0)

def daysInMonth (y m : Nat) : Nat :=
  if m = 2 then (if isLeapYear y then 29 else 28)
  else if m = 4 || m = 6 || m = 9 || m = 11 then 30
  else 31

/-- Day-of-month with the calendar validation `datetime` performs. -/
def validYMD (y m d : Nat) : Bool := 1 ≤ d && d ≤ daysInMonth y m

/-- A date format shape: year/month/day order plus the separator. -/
inductive DOrder | ymd | dmy

/-- Parse `Y sep M sep D` or `D sep M sep Y`, returning `(y, m, d, rest)`. -/
def parseDatePart (ord : DOrder) (sep : Char) (cs : List Char) :
    Option (Nat × Nat × Nat × List Char) :=
  match ord with
  | DOrder.ymd =>
    match parseY4 cs with
    | none => none
    | some (y, r1) =>
      match parseSep sep r1 with
      | none => none
      | some r2 =>
        match parseMonth r2 with
        | none => none
        | some (m, r3) =>
          match parseSep sep r3 with
          | none => none
          | some r4 =>
            match parseDayRaw r4 with
            | none => none
            | some (d, r5) => some (y, m, d, r5)
  | DOrder.dmy =>
    match parseDayRaw cs with
    | none => none
    | some (d, r1) =>
      match parseSep sep r1 with
      | none => none
      | some r2 =>
        match parseMonth r2 with
        | none => none
        | some (m, r3) =>
          match parseSep sep r3 with
          | none => none
          | some r4 =>
            match parseY4 r4 with
            | none => none
            | some (y, r5) => some (y, m, d, r5)

/-- Parse ` H:M:S` (the time tail of the two datetime formats). -/
def parseTimePart (cs : List Char) : Option (List Char) :=
  match parseWsPlus cs with
  | none => none
  | some r0 =>
    match parseHour r0 with
    | none => none
    | some (_, r1) =>
      match parseSep ':' r1 with
      | none => none
      | some r2 =>
        match parseMinSec r2 with
        | none => none
        | some (_, r3) =>
          match parseSep ':' r3 with
          | none => none
          | some r4 =>
            match parseMinSec r4 with
            | none => none
            | some (_, r5) => some r5

/-- `datetime.strptime(s, fmt)` succeeds for a date-only format: full match
and a valid calendar date. -/
def matchesDate (ord : DOrder) (sep : Char) (cs : List Char) : Bool :=
  match parseDatePart ord sep cs with
  | some (y, m, d, rest) => rest.isEmpty && validYMD y m d
  | none => false

/-- `datetime.strptime(s, fmt)` succeeds for a datetime format. -/
def matchesDateTime (ord : DOrder) (sep : Char) (cs : List Char) : Bool :=
  match parseDatePart ord sep cs with
  | some (y, m, d, rest) =>
    match parseTimePart rest with
    | some r => r.isEmpty && validYMD y m d
    | none => false
  | none => false

/-- The ordered format list of `detect_value_type`:
`['%Y-%m-%d', '%d/%m/%Y', '%Y/%m/%d', '%d-%m-%Y',
  '%Y-%m-%d %H:%M:%S', '%d/%m/%Y %H:%M:%S']`. -/
def matchesAnyDateFormat (cs : List Char) : Bool :=
  matchesDate DOrder.ymd '-' cs ||
  matchesDate DOrder.dmy '/' cs ||
  matchesDate DOrder.ymd '/' cs ||
  matchesDate DOrder.dmy '-' cs ||
  matchesDateTime DOrder.ymd '-' cs ||
  matchesDateTime DOrder.dmy '/' cs

/-- `detect_value_type` from `sql_parser.py`: `null` for an absent value,
else `number` if `float()` accepts, else `date` if any of the six formats
parses, else `text`. -/
def detect_value_type (v : Option String) : String :=
  match v with
  | none => "null"
  | some s =>
    if isPyFloatL s.toList then "number"
    else if matchesAnyDateFormat s.toList then "date"
    else "text"

/-! ## Python values flowing through `format_value` / `construct_where_clause`

`modified_conditions` arrive from JSON, so a condition's `value` can be
`None`, a string, a number, or a (nested) list.  `format_value` branches on
`isinstance`, and raises `TypeError` for a number under the `date` type
(`"'" not in value`); `', '.join` raises for non-string items. -/

inductive PyVal where
  | vnone : PyVal
  | str (s : String) : PyVal
  | num (n : Int) : PyVal
  | list (xs : List PyVal) : PyVal
deriving Repr

mutual
/-- Decidable equality for `PyVal` (written out because of the nested
`List`). -/
def PyVal.beq : PyVal → PyVal → Bool
  | .vnone, .vnone => true
  | .str a, .str b => a = b
  | .num a, .num b => a = b
  | .list a, .list b => PyVal.beqList a b
  | _, _ => false
def PyVal.beqList : List PyVal → List PyVal → Bool
  | [], [] => true
  | x :: xs, y :: ys => PyVal.beq x y && PyVal.beqList xs ys
  | _, _ => false
end

mutual
theorem PyVal.beq_iff : ∀ a b : PyVal, PyVal.beq a b = true ↔ a = b
  | .vnone, b => by cases b <;> simp [PyVal.beq]
  | .str s, b => by cases b <;> simp [PyVal.beq]
  | .num n, b => by cases b <;> simp [PyVal.beq]
  | .list xs, b => by
      cases b <;> simp [PyVal.beq]
      case list ys => exact PyVal.beqList_iff xs ys
theorem PyVal.beqList_iff : ∀ xs ys : List PyVal, PyVal.beqList xs ys = true ↔ xs = ys
  | [], ys => by cases ys <;> simp [PyVal.beqList]
  | x :: xs, ys => by
      cases ys with
      | nil => simp [PyVal.beqList]
      | cons y ys => simp [PyVal.beqList, PyVal.beq_iff x y, PyVal.beqList_iff xs ys]
end

instance : DecidableEq PyVal := fun a b =>
  decidable_of_iff (PyVal.beq a b = true) (PyVal.beq_iff a b)

/-- Escaping of one character inside a Python `repr` of a string quoted
with `q` (printable-ASCII fragment of CPython's rules). -/
def pyReprChar (q : Char) (c : Char) : List Char :=
  if c = '\\' then ['\\', '\\']
  else if c = q then ['\\', q]
  else if c = '\n' then ['\\', 'n']
  else if c = '\r' then ['\\', 'r']
  else if c = '\t' then ['\\', 't']
  else [c]

/-- Python `repr` of a string: single quotes unless the text contains a
single quote but no double quote. -/
def pyReprStr (s : String) : String :=
  let cs := s.toList
  let q : Char :=
    if containsSub ['\''] cs && !containsSub ['"'] cs then '"' else '\''
  ⟨q :: (cs.flatMap (pyReprChar q)) ++ [q]⟩

mutual
/-- Python `repr` of a value. -/
def pyRepr : PyVal → String
  | .vnone => "None"
  | .str s => pyReprStr s
  | .num n => toString n
  | .list xs => "[" ++ String.intercalate ", " (pyReprList xs) ++ "]"
def pyReprList : List PyVal → List String
  | [] => []
  | v :: vs => pyRepr v :: pyReprList vs
end

/-- Python `str()` of a value, as applied by f-string interpolation. -/
def pyStrTop : PyVal → String
  | .vnone => "None"
  | .str s => s
  | .num n => toString n
  | .list xs => pyRepr (.list xs)

/-- Whether `float(value)` succeeds (`TypeError` for lists/None is caught by
the same `except` clause as `ValueError`). -/
def pyFloatable : PyVal → Bool
  | .str s => isPyFloatL s.toList
  | .num _ => true
  | _ => false

/-- Python `"'" not in value`: substring test on strings, membership test on
lists, `TypeError` on numbers. -/
def pyQuoteNotIn : PyVal → Except String Bool
  | .str s => Except.ok (!containsSub ['\''] s.toList)
  | .list xs => Except.ok (!xs.contains (.str "'"))
  | _ => Except.error "TypeError: argument is not iterable"

/-- `value.replace("'", "''")`. -/
def doubleSingleQuotes (s : String) : String :=
  ⟨s.toList.flatMap fun c => if c = '\'' then ['\'', '\''] else [c]⟩

/-- `format_value` from `sql_parser.py`.  Returns the Python value produced
(the `date` branch can return the unmodified non-string value); errors are
the uncaught `TypeError` of `"'" not in value` on a number. -/
def format_value (value : PyVal) (value_type : String) : Except String PyVal :=
  if value = PyVal.vnone then Except.ok (PyVal.str "NULL")
  else if (match value with
           | PyVal.str s => pyContains (lcStr s.toList) "to_date(".toList
           | _ => false) then
    Except.ok value
  else if value_type = "number" then
    if value = PyVal.str "" then Except.ok (PyVal.str "NULL")
    else if pyFloatable value then Except.ok (PyVal.str (pyStrTop value))
    else Except.ok (PyVal.str ("'" ++ pyStrTop value ++ "'"))
  else if value_type = "date" then
    if value = PyVal.str "" then Except.ok (PyVal.str "NULL")
    else
      match pyQuoteNotIn value with
      | Except.error e => Except.error e
      | Except.ok b =>
        if b then Except.ok (PyVal.str ("'" ++ pyStrTop value ++ "'"))
        else Except.ok value
  else
    let v2 := match value with
      | PyVal.str s => PyVal.str (doubleSingleQuotes s)
      | v => v
    Except.ok (PyVal.str ("'" ++ pyStrTop v2 ++ "'"))

/-! ## Conditions and `construct_where_clause` -/

/-- A parsed condition (the dict built by `parse_condition` /
`extract_conditions`; `construct_where_clause` reads the keys with
`.get` defaults, which the record defaults mirror). -/
structure Condition where
  id : Nat
  field : String := ""
  operator : String := ""
  operator_desc : Option String := Option.none
  value : PyVal := PyVal.vnone
  type : String := "text"
  is_function : Bool := false
  function_name : Option String := Option.none
  original_value : Option (List String) := Option.none
  format : Option String := Option.none
deriving DecidableEq, Repr

/-- `', '.join(parts)`: every item must be a string, else `TypeError`. -/
def joinPyStrs : List PyVal → Except String String
  | [] => Except.ok ""
  | [PyVal.str s] => Except.ok s
  | PyVal.str s :: v :: vs => do
    let rest ← joinPyStrs (v :: vs)
    Except.ok (s ++ ", " ++ rest)
  | _ => Except.error "TypeError: sequence item: expected str instance"

/-- The body of `construct_where_clause`'s per-condition branch. -/
def renderCondition (c : Condition) : Except String String :=
  let opU := (⟨ucStr c.operator.toList⟩ : String)
  if opU = "IS NULL" || opU = "IS NOT NULL" then
    Except.ok (c.field ++ " " ++ c.operator)
  else if (opU = "BETWEEN" || opU = "NOT BETWEEN") &&
      (match c.value with | PyVal.list xs => xs.length = 2 | _ => false) then
    match c.value with
    | PyVal.list [v0, v1] =>
      if c.is_function then
        Except.ok (c.field ++ " " ++ c.operator ++ " " ++ pyStrTop v0 ++
          " AND " ++ pyStrTop v1)
      else do
        let f0 ← format_value v0 c.type
        let f1 ← format_value v1 c.type
        Except.ok (c.field ++ " " ++ c.operator ++ " " ++ pyStrTop f0 ++
          " AND " ++ pyStrTop f1)
    | _ => Except.error "unreachable: length checked"
  else if (opU = "IN" || opU = "NOT IN") &&
      (match c.value with | PyVal.list _ => true | _ => false) then
    match c.value with
    | PyVal.list xs => do
      let fs ← xs.mapM (fun v => format_value v c.type)
      let inner ← joinPyStrs fs
      Except.ok (c.field ++ " " ++ c.operator ++ " (" ++ inner ++ ")")
    | _ => Except.error "unreachable: shape checked"
  else do
    let fv ← format_value c.value c.type
    Except.ok (c.field ++ " " ++ c.operator ++ " " ++ pyStrTop fv)

/-- `construct_where_clause` from `sql_parser.py`: render each condition and
join with `" AND "`. -/
def construct_where_clause (conds : List Condition) : Except String String := do
  let parts ← conds.mapM renderCondition
  Except.ok (String.intercalate " AND " parts)

/-! ## The condition regexes of `parse_condition` / `extract_conditions`

Each Python pattern is embedded as a deterministic matcher.  Determinism
is justified pattern by pattern: greedy runs (`[^\s]+`, `\s+`, `[^,\)]+`,
`[^']+`) are followed by characters that cannot extend or shrink them
usefully, the optional `(?:NOT\s+)?` groups commit (the fallback re-reads
`N..` where `BETWEEN`/`IN`/`NULL` is required, failing anyway), and the
lazy/greedy `.*` groups are enumerated in the engine's preference order
where the outcome is not forced. -/

def notWs (c : Char) : Bool := !pyWs c

/-- Groups and matched text of the `to_date` BETWEEN idiom pattern
`([^\s]+)\s+(?:NOT\s+)?BETWEEN\s+to_date\s*\(\s*([^,\)]+)\s*,\s*\'([^\']+)\'
\s*\)\s+AND\s+to_date\s*\(\s*([^,\)]+)\s*,\s*\'([^\']+)\'\s*\)`
(IGNORECASE). -/
structure ToDateMatch where
  matched : List Char
  field : List Char
  p1 : List Char
  f1 : List Char
  p2 : List Char
  f2 : List Char
deriving DecidableEq, Repr

/-- One `to_date\s*\(\s*([^,\)]+)\s*,\s*\'([^\']+)\'\s*\)` call
(case-insensitive), returning `(param, fmt, rest)`. -/
def matchToDateCall (cs : List Char) : Option (List Char × List Char × List Char) :=
  match dropLitCI ['t','o','_','d','a','t','e'] cs with
  | Option.none => Option.none
  | some r1 =>
  match dropLit ['('] (r1.dropWhile pyWs) with
  | Option.none => Option.none
  | some r2 =>
  let r3 := r2.dropWhile pyWs
  let param := r3.takeWhile (fun c => c ≠ ',' && c ≠ ')')
  if param.isEmpty then Option.none else
  match dropLit [','] (r3.dropWhile (fun c => c ≠ ',' && c ≠ ')')) with
  | Option.none => Option.none
  | some r4 =>
  match dropLit ['\''] (r4.dropWhile pyWs) with
  | Option.none => Option.none
  | some r5 =>
  let fmt := r5.takeWhile (· ≠ '\'')
  if fmt.isEmpty then Option.none else
  match dropLit ['\''] (r5.dropWhile (· ≠ '\'')) with
  | Option.none => Option.none
  | some r6 =>
  match dropLit [')'] (r6.dropWhile pyWs) with
  | Option.none => Option.none
  | some r7 => some (param, fmt, r7)

/-- The idiom pattern anchored at the current position (`re.match`). -/
def matchToDateAt (cs : List Char) : Option ToDateMatch :=
  let field := cs.takeWhile notWs
  if field.isEmpty then Option.none else
  match parseWsPlus (cs.dropWhile notWs) with
  | Option.none => Option.none
  | some r1 =>
  let r2 :=
    match dropLitCI ['n','o','t'] r1 with
    | some rn =>
      match parseWsPlus rn with
      | some rn2 => rn2
      | Option.none => r1
    | Option.none => r1
  match dropLitCI ['b','e','t','w','e','e','n'] r2 with
  | Option.none => Option.none
  | some r3 =>
  match parseWsPlus r3 with
  | Option.none => Option.none
  | some r4 =>
  match matchToDateCall r4 with
  | Option.none => Option.none
  | some (p1, f1, r5) =>
  match parseWsPlus r5 with
  | Option.none => Option.none
  | some r6 =>
  match dropLitCI ['a','n','d'] r6 with
  | Option.none => Option.none
  | some r7 =>
  match parseWsPlus r7 with
  | Option.none => Option.none
  | some r8 =>
  match matchToDateCall r8 with
  | Option.none => Option.none
  | some (p2, f2, r9) =>
  some { matched := cs.take (cs.length - r9.length),
         field := field, p1 := p1, f1 := f1, p2 := p2, f2 := f2 }

/-- `re.search` of the idiom pattern: leftmost match. -/
def searchToDate : List Char → Option ToDateMatch
  | [] => Option.none
  | c :: cs =>
    match matchToDateAt (c :: cs) with
    | some m => some m
    | Option.none => searchToDate cs

/-- Prefix of `cs` before the first occurrence of `pat`
(`cs.split(pat)[0]`; the whole string when `pat` is absent). -/
def takeBeforeLit (pat : List Char) : List Char → List Char
  | [] => []
  | c :: cs =>
    if isPrefixOfB pat (c :: cs) then []
    else c :: takeBeforeLit pat cs

/-- `'NOT' in text.upper().split('BETWEEN')[0]` — the NOT-detection used by
both to_date branches. -/
def notBeforeBetween (cs : List Char) : Bool :=
  containsSub ['N','O','T'] (takeBeforeLit ['B','E','T','W','E','E','N'] (ucStr cs))

/-- Candidate rests after consuming a `\s+` run, in the engine's greedy
order (longest first, at least one character). -/
def wsPlusCandidates (cs : List Char) : List (List Char) :=
  let n := (cs.takeWhile pyWs).length
  (List.range n).map (fun i => cs.drop (n - i))

/-- Lazy `(.*?)` candidates: prefixes of the current line, shortest first,
paired with the corresponding rest. -/
def lazyCandidates (cs : List Char) : List (List Char × List Char) :=
  let line := cs.takeWhile (· ≠ '\n')
  (List.range (line.length + 1)).map (fun i => (line.take i, cs.drop i))

/-- First successful candidate. -/
def firstSome {α β : Type} (f : α → Option β) : List α → Option β
  | [] => Option.none
  | x :: xs =>
    match f x with
    | some r => some r
    | Option.none => firstSome f xs

/-- The `(.*?)\s+AND\s+(.*)` tail of the plain-BETWEEN pattern
(case-sensitive `AND`), from a position after `BETWEEN\s+`:
returns `(lo, hi, restAfterMatch)`. -/
def matchBetweenTail (cs : List Char) :
    Option (List Char × List Char × List Char) :=
  firstSome
    (fun lr =>
      match wsPlusCandidates lr.2 with
      | [] => Option.none
      | rest1 :: _ =>
        match dropLit ['A','N','D'] rest1 with
        | Option.none => Option.none
        | some r2 =>
          match parseWsPlus r2 with
          | Option.none => Option.none
          | some r3 =>
            some (lr.1, r3.takeWhile (· ≠ '\n'), r3.dropWhile (· ≠ '\n')))
    (lazyCandidates cs)

/-- Pattern 2, `([^\s]+)\s+(?:NOT\s+)?BETWEEN\s+(.*?)\s+AND\s+(.*)`
(case-sensitive), anchored: returns `(matched, field, lo, hi)`; `matched`
is `m.group(0)` (used by the handler's `'NOT' in m.group(0).upper()`). -/
def matchBetweenPat (cs : List Char) :
    Option (List Char × List Char × List Char × List Char) :=
  let field := cs.takeWhile notWs
  if field.isEmpty then Option.none else
  match parseWsPlus (cs.dropWhile notWs) with
  | Option.none => Option.none
  | some r1 =>
  let r2 :=
    match dropLit ['N','O','T'] r1 with
    | some rn =>
      match parseWsPlus rn with
      | some rn2 => rn2
      | Option.none => r1
    | Option.none => r1
  match dropLit ['B','E','T','W','E','E','N'] r2 with
  | Option.none => Option.none
  | some r3 =>
  match firstSome (fun rest => matchBetweenTail rest) (wsPlusCandidates r3) with
  | Option.none => Option.none
  | some (lo, hi, restAfter) =>
    some (cs.take (cs.length - restAfter.length), field, lo, hi)

/-- Pattern 3, `([^\s]+)\s+(?:NOT\s+)?IN\s*\((.*)\)` (case-sensitive),
anchored: returns `(matched, field, inner)` where `inner` is the greedy
group up to the last `)` of the first line. -/
def matchInPat (cs : List Char) : Option (List Char × List Char × List Char) :=
  let field := cs.takeWhile notWs
  if field.isEmpty then Option.none else
  match parseWsPlus (cs.dropWhile notWs) with
  | Option.none => Option.none
  | some r1 =>
  let r2 :=
    match dropLit ['N','O','T'] r1 with
    | some rn =>
      match parseWsPlus rn with
      | some rn2 => rn2
      | Option.none => r1
    | Option.none => r1
  match dropLit ['I','N'] r2 with
  | Option.none => Option.none
  | some r3 =>
  match dropLit ['('] (r3.dropWhile pyWs) with
  | Option.none => Option.none
  | some r4 =>
  let line := r4.takeWhile (· ≠ '\n')
  match line.reverse.findIdx? (· = ')') with
  | Option.none => Option.none
  | some i =>
    let inner := line.take (line.length - 1 - i)
    let consumed := cs.length - r4.length + (line.length - i)
    some (cs.take consumed, field, inner)

/-- Pattern 4, `([^\s]+)\s+IS\s+(?:NOT\s+)?NULL` (case-sensitive),
anchored: returns the matched text and the field. -/
def matchIsNullPat (cs : List Char) : Option (List Char × List Char) :=
  let field := cs.takeWhile notWs
  if field.isEmpty then Option.none else
  match parseWsPlus (cs.dropWhile notWs) with
  | Option.none => Option.none
  | some r1 =>
  match dropLit ['I','S'] r1 with
  | Option.none => Option.none
  | some r2 =>
  match parseWsPlus r2 with
  | Option.none => Option.none
  | some r3 =>
  let r4 :=
    match dropLit ['N','O','T'] r3 with
    | some rn =>
      match parseWsPlus rn with
      | some rn2 => rn2
      | Option.none => r3
    | Option.none => r3
  match dropLit ['N','U','L','L'] r4 with
  | Option.none => Option.none
  | some r5 => some (cs.take (cs.length - r5.length), field)

/-- The operator alternation of pattern 5, in the pattern's order
`=|!=|<>|>|<|>=|<=|LIKE|NOT\s+LIKE` (IGNORECASE), with the `\s+`
continuation required after the operator (this is what makes `>=` win over
`>` by backtracking).  Returns `(operatorText, rest)`. -/
def matchOpAlt (cs : List Char) : Option (List Char × List Char) :=
  let tryAlt : (List Char → Option (List Char × List Char)) →
      Option (List Char × List Char) → Option (List Char × List Char) :=
    fun alt fallback =>
      match alt cs with
      | some (opText, r) =>
        (match parseWsPlus r with
         | some r2 => some (opText, r2)
         | Option.none => fallback)
      | Option.none => fallback
  let lit : List Char → List Char → Option (List Char × List Char) :=
    fun pat s => (dropLitCI pat s).map (fun r => (s.take pat.length, r))
  let notLike : List Char → Option (List Char × List Char) := fun s =>
    match dropLitCI ['n','o','t'] s with
    | Option.none => Option.none
    | some r1 =>
      match parseWsPlus r1 with
      | Option.none => Option.none
      | some r2 =>
        match dropLitCI ['l','i','k','e'] r2 with
        | Option.none => Option.none
        | some r3 => some (s.take (s.length - r3.length), r3)
  tryAlt (lit ['=']) <|
  tryAlt (lit ['!','=']) <|
  tryAlt (lit ['<','>']) <|
  tryAlt (lit ['>']) <|
  tryAlt (lit ['<']) <|
  tryAlt (lit ['>','=']) <|
  tryAlt (lit ['<','=']) <|
  tryAlt (lit ['l','i','k','e']) <|
  tryAlt notLike Option.none

/-- Pattern 5, `([^\s]+)\s+(=|!=|<>|>|<|>=|<=|LIKE|NOT\s+LIKE)\s+(.*)`
(IGNORECASE), anchored: returns `(field, operatorText, value)`. -/
def matchOpPat (cs : List Char) : Option (List Char × List Char × List Char) :=
  let field := cs.takeWhile notWs
  if field.isEmpty then Option.none else
  match parseWsPlus (cs.dropWhile notWs) with
  | Option.none => Option.none
  | some r1 =>
  match matchOpAlt r1 with
  | Option.none => Option.none
  | some (opText, r2) => some (field, opText, r2.takeWhile (· ≠ '\n'))

/-- The `operators` lookup table of `parse_condition`. -/
def operatorsTable : List (String × String) :=
  [("=", "igual"), ("!=", "diferente"), ("<>", "diferente"),
   (">", "maior"), ("<", "menor"), (">=", "maior ou igual"),
   ("<=", "menor ou igual"), ("LIKE", "contém"), ("NOT LIKE", "não contém"),
   ("IN", "em"), ("NOT IN", "não em"), ("BETWEEN", "entre"),
   ("NOT BETWEEN", "não entre"), ("IS NULL", "é nulo"),
   ("IS NOT NULL", "não é nulo")]

/-- `operators.get(op.upper(), op)`. -/
def operatorDesc (op : String) : String :=
  ((operatorsTable.find? (fun p => p.1 = (⟨ucStr op.toList⟩ : String))).map
    Prod.snd).getD op

/-- The condition built for the `to_date` idiom (identical in
`extract_conditions` and `parse_condition`). -/
def toDateCondition (cid : Nat) (notFlag : Bool) (m : ToDateMatch) : Condition :=
  let p1s : String := ⟨pyStrip m.p1⟩
  let f1s : String := ⟨pyStrip m.f1⟩
  let p2s : String := ⟨pyStrip m.p2⟩
  let f2s : String := ⟨pyStrip m.f2⟩
  { id := cid,
    field := ⟨pyStrip m.field⟩,
    operator := if notFlag then "NOT BETWEEN" else "BETWEEN",
    operator_desc := some (if notFlag then "não entre" else "entre"),
    value := PyVal.list
      [PyVal.str ("to_date(" ++ p1s ++ ", '" ++ f1s ++ "')"),
       PyVal.str ("to_date(" ++ p2s ++ ", '" ++ f2s ++ "')")],
    original_value := some [p1s, p2s],
    type := "date",
    is_function := true,
    function_name := some "to_date",
    format := some f1s }

/-- Python `s.split(',')`. -/
def splitComma : List Char → List (List Char)
  | [] => [[]]
  | c :: cs =>
    if c = ',' then [] :: splitComma cs
    else
      match splitComma cs with
      | p :: ps => (c :: p) :: ps
      | [] => [[c]]

/-- `parse_condition` from `sql_parser.py`: the special idiom then the four
patterns in order; `none` models the logged-and-dropped fragment. -/
def parse_condition (condition : String) (condition_id : Nat) : Option Condition :=
  let cs := condition.toList
  match matchToDateAt cs with
  | some m => some (toDateCondition condition_id (notBeforeBetween cs) m)
  | Option.none =>
  match matchBetweenPat cs with
  | some (matched, field, lo, hi) =>
    let clean := fun (v : List Char) => stripQuotes (pyStrip v)
    let op : String :=
      if containsSub ['N','O','T'] (ucStr matched) then "NOT BETWEEN" else "BETWEEN"
    some { id := condition_id,
           field := ⟨pyStrip field⟩,
           operator := op,
           operator_desc := some (operatorDesc op),
           value := PyVal.list [PyVal.str ⟨clean lo⟩, PyVal.str ⟨clean hi⟩],
           type := detect_value_type (some ⟨clean lo⟩) }
  | Option.none =>
  match matchInPat cs with
  | some (matched, field, inner) =>
    let clean := fun (v : List Char) => stripQuotes (pyStrip v)
    let op : String :=
      if containsSub ['N','O','T'] (ucStr matched) then "NOT IN" else "IN"
    let parts := splitComma inner
    some { id := condition_id,
           field := ⟨pyStrip field⟩,
           operator := op,
           operator_desc := some (operatorDesc op),
           value := PyVal.list (parts.map (fun p => PyVal.str ⟨clean p⟩)),
           type := detect_value_type (some ⟨clean (parts.headI)⟩) }
  | Option.none =>
  match matchIsNullPat cs with
  | some (matched, field) =>
    let op : String :=
      if containsSub ['N','O','T'] (ucStr matched) then "IS NOT NULL" else "IS NULL"
    some { id := condition_id,
           field := ⟨pyStrip field⟩,
           operator := op,
           operator_desc := some (operatorDesc op),
           value := PyVal.vnone,
           type := "null" }
  | Option.none =>
  match matchOpPat cs with
  | some (field, opText, v) =>
    let op : String := ⟨ucStr (pyStrip opText)⟩
    some { id := condition_id,
           field := ⟨pyStrip field⟩,
           operator := op,
           operator_desc := some (operatorDesc op),
           value := PyVal.str ⟨stripQuotes (pyStrip v)⟩,
           type := detect_value_type (some ⟨stripQuotes (pyStrip v)⟩) }
  | Option.none => Option.none

/-! ## `extract_conditions` -/

/-- `re.sub(r'^\s*WHERE\s+', '', wc, flags=IGNORECASE)`. -/
def stripWherePrefix (cs : List Char) : List Char :=
  let r := cs.dropWhile pyWs
  match dropLitCI ['w','h','e','r','e'] r with
  | some (c :: r2) => if pyWs c then r2.dropWhile pyWs else cs
  | _ => cs

/-- A `\s WORD \s` window (the fixed-width match of `re.split(r'\sAND\s')`
and `re.split(r'\sOR\s')`, IGNORECASE), returning the rest after the
window. -/
def winAt (word : List Char) (cs : List Char) : Option (List Char) :=
  match cs with
  | c :: r =>
    if pyWs c then
      match dropLitCI word r with
      | some (d :: r2) => if pyWs d then some r2 else Option.none
      | _ => Option.none
    else Option.none
  | [] => Option.none

def splitTokGo (word : List Char) : Nat → List Char → List Char → List (List Char)
  | 0, acc, _ => [acc.reverse]
  | _ + 1, acc, [] => [acc.reverse]
  | fuel + 1, acc, c :: cs =>
    match winAt word (c :: cs) with
    | some rest => acc.reverse :: splitTokGo word fuel [] rest
    | Option.none => splitTokGo word fuel (c :: acc) cs

/-- `re.split(r'\sWORD\s', cs, flags=IGNORECASE)`, left-to-right
non-overlapping. -/
def splitTok (word : List Char) (cs : List Char) : List (List Char) :=
  splitTokGo word (cs.length + 1) [] cs

/-- `str.replace(pat, '')`: remove all non-overlapping occurrences. -/
def removeAllGo (pat : List Char) : Nat → List Char → List Char
  | 0, cs => cs
  | _ + 1, [] => []
  | fuel + 1, c :: cs =>
    match dropLit pat (c :: cs) with
    | some rest => removeAllGo pat fuel rest
    | Option.none => c :: removeAllGo pat fuel cs

def removeAll (pat cs : List Char) : List Char :=
  removeAllGo pat (cs.length + 1) cs

/-- The inner double loop of `extract_conditions`' generic branch:
`condition_id` advances only on successfully parsed fragments. -/
def parseFrags : List (List Char) → Nat → List Condition
  | [], _ => []
  | f :: fs, cid =>
    let c := pyStrip f
    if c.isEmpty then parseFrags fs cid
    else
      match parse_condition ⟨c⟩ cid with
      | some pc => pc :: parseFrags fs (cid + 1)
      | Option.none => parseFrags fs cid

def wAND : List Char := ['A', 'N', 'D']

def wOR : List Char := ['O', 'R']

/-- Fueled body of `extract_conditions` (the recursion of the `to_date`
branch shortens the clause at every step, so `length + 1` fuel always
suffices; see `extractGo_fuel_irrel`). -/
def extractGo : Nat → List Char → List Condition
  | 0, _ => []
  | fuel + 1, wc0 =>
    let wc := stripWherePrefix wc0
    match searchToDate wc with
    | some m =>
      let cond0 := toDateCondition 0 (notBeforeBetween m.matched) m
      let remaining := removeAll m.matched wc
      if (pyStrip remaining).isEmpty then [cond0]
      else
        let rem2 :=
          if isPrefixOfB ['A','N','D',' '] (pyStrip remaining) then
            (pyStrip remaining).drop 4
          else if isPrefixOfB ['O','R',' '] (pyStrip remaining) then
            (pyStrip remaining).drop 3
          else remaining
        cond0 :: (extractGo fuel rem2).mapIdx (fun i c => { c with id := i + 1 })
    | Option.none =>
      parseFrags ((splitTok wAND wc).flatMap (splitTok wOR)) 0

/-- `extract_conditions` from `sql_parser.py` (the unused `full_query`
argument is kept for signature fidelity). -/
def extract_conditions (where_clause : String) (_full_query : String) : List Condition :=
  extractGo (where_clause.toList.length + 1) where_clause.toList

/-- Window test for a whitespace-delimited case-insensitive `WHERE` at
position `k`. -/
def whereWinAt (cs : List Char) (k : Nat) : Bool :=
  (winAt ['w','h','e','r','e'] (cs.drop k)).isSome

/-- Modelled from the spec: the sqlparse-based Clause Locator used by
`parse_sql_query` (the `sqlparse` tokenization is a third-party library,
not part of the repository).  Per §4.1 the locator returns the substring
after the first WHERE keyword encountered (whitespace-delimited,
case-insensitive), excluding the keyword itself — `where_token.tokens[1:]`
keeps the whitespace that follows the keyword — or a no-WHERE signal. -/
def locate_where_clause (q : String) : Option String :=
  let cs := q.toList
  match (List.range cs.length).find? (whereWinAt cs) with
  | some k => some ⟨cs.drop (k + 6)⟩
  | Option.none => Option.none

/-- `parse_sql_query` from `sql_parser.py`: locate the WHERE clause then
extract conditions; any failure (no WHERE clause, tokenizer error) yields
`[]` through the `try/except` and early returns. -/
def parse_sql_query (query : String) : List Condition :=
  match locate_where_clause query with
  | some wc => extract_conditions wc query
  | Option.none => []

/-! ## `reconstruct_sql_query`

The primary path searches `(?i)(.*)\s+WHERE\s+(.*)` with DOTALL: the
greedy leading `(.*)` maximises `group(1)`, so the statement is split at
the **last** whitespace-delimited WHERE; the minimal-whitespace argument
shows the `\s+` before WHERE then matches exactly one character, so
`group(1)` is the prefix before the last window position. -/

/-- The split position of the primary regex: the last `k` such that a
whitespace-delimited case-insensitive `WHERE` window starts at `k`. -/
def whereSplitPrimary (cs : List Char) : Option Nat :=
  ((List.range cs.length).filter (fun k => whereWinAt cs k)).getLast?

/-- The `try:` body of `reconstruct_sql_query`: sqlparse formatting (its
outcome abstracted as `fmtRes`, the library not being part of the
repository), the WHERE split — no match returns the original, a normal
return, not an exception — then the new clause spliced after the prefix. -/
def primary_path (fmtRes : Except String String) (original_query : String)
    (conds : List Condition) : Except String String := do
  let fmt ← fmtRes
  match whereSplitPrimary fmt.toList with
  | Option.none => Except.ok original_query
  | some k => do
    let w ← construct_where_clause conds
    Except.ok ((⟨fmt.toList.take k⟩ : String) ++ " WHERE " ++ w)

/-! The fallback regex
`(?i)(.*\s+WHERE\s+).*?(\s+GROUP BY.*|\s+ORDER BY.*|\s+HAVING.*|\s+LIMIT.*|;|$)`
without DOTALL: `.` stops at newlines while `\s+` crosses them.  Greedy
quantifiers enumerate candidates longest-first, the lazy `.*?`
shortest-first, alternatives in written order. -/

/-- Greedy `.*` candidates (rests, longest-consumed first). -/
def dotCandidatesDesc (cs : List Char) : List (List Char) :=
  let n := (cs.takeWhile (· ≠ '\n')).length
  (List.range (n + 1)).map (fun i => cs.drop (n - i))

/-- One `\s+WORD.*` alternative (`WORD` case-insensitive, containing its
literal space where present): returns `(group2Text, restAfter)`. -/
def fbKw (word : List Char) (cs : List Char) : Option (List Char × List Char) :=
  match parseWsPlus cs with
  | Option.none => Option.none
  | some r1 =>
    match dropLitCI word r1 with
    | Option.none => Option.none
    | some r2 =>
      let rest := r2.dropWhile (· ≠ '\n')
      some (cs.take (cs.length - rest.length), rest)

/-- The `$` alternative: end of string, or just before a final newline. -/
def fbDollar (cs : List Char) : Option (List Char × List Char) :=
  if cs.isEmpty || cs = ['\n'] then some ([], cs) else Option.none

/-- The terminator alternation of the first fallback pattern, in written
order. -/
def fbAlt (cs : List Char) : Option (List Char × List Char) :=
  match fbKw ['g','r','o','u','p',' ','b','y'] cs with
  | some r => some r
  | Option.none =>
  match fbKw ['o','r','d','e','r',' ','b','y'] cs with
  | some r => some r
  | Option.none =>
  match fbKw ['h','a','v','i','n','g'] cs with
  | some r => some r
  | Option.none =>
  match fbKw ['l','i','m','i','t'] cs with
  | some r => some r
  | Option.none =>
  match cs with
  | ';' :: rest => some ([';'], rest)
  | _ => fbDollar cs

/-- `.*?` then the terminator alternation (lazy: shortest gap first). -/
def fbLazyAlt (cs : List Char) : Option (List Char × List Char) :=
  firstSome (fun lr => fbAlt lr.2) (lazyCandidates cs)

/-- `.*?($)` for the second fallback pattern. -/
def fbLazyDollar (cs : List Char) : Option (List Char × List Char) :=
  firstSome (fun lr => fbDollar lr.2) (lazyCandidates cs)

/-- A match of a fallback pattern at the current position: the leading
`(.*\s+WHERE\s+)` (greedy parts longest-first) followed by `tail`;
returns `(group1, group2, restAfterMatch)`. -/
def fbMatchAtWith (tail : List Char → Option (List Char × List Char))
    (cs : List Char) : Option (List Char × List Char × List Char) :=
  firstSome
    (fun rDot =>
      firstSome
        (fun rWs1 =>
          match dropLitCI ['w','h','e','r','e'] rWs1 with
          | Option.none => Option.none
          | some r2 =>
            firstSome
              (fun rWs2 =>
                match tail rWs2 with
                | some (g2, restAfter) =>
                  some (cs.take (cs.length - rWs2.length), g2, restAfter)
                | Option.none => Option.none)
              (wsPlusCandidates r2))
        (wsPlusCandidates rDot))
    (dotCandidatesDesc cs)

def fbMatchAt1 : List Char → Option (List Char × List Char × List Char) :=
  fbMatchAtWith fbLazyAlt

def fbMatchAt2 : List Char → Option (List Char × List Char × List Char) :=
  fbMatchAtWith fbLazyDollar

/-- `re.search` of a fallback pattern: leftmost matching position. -/
def fbSearch (cs : List Char) : Option (List Char × List Char × List Char) :=
  firstSome fbMatchAt1 ((List.range (cs.length + 1)).map (cs.drop ·))

def isOctalDigit (c : Char) : Bool := '0' ≤ c && c ≤ '7'

/-- Processing of the `re.sub` replacement template (here always
`\1 ++ new ++ \2`): group references, octal and control escapes; unknown
ASCII-letter escapes raise, other escapes stay verbatim. -/
def tmplGo (g1 g2 : List Char) : Nat → List Char → Except String (List Char)
  | 0, rest => Except.ok rest
  | _ + 1, [] => Except.ok []
  | fuel + 1, '\\' :: rest =>
    match rest with
    | [] => Except.error "bad escape (end of pattern)"
    | 'g' :: '<' :: r2 =>
      let name := r2.takeWhile (· ≠ '>')
      match r2.dropWhile (· ≠ '>') with
      | '>' :: r3 =>
        if name = ['1'] then do
          let t ← tmplGo g1 g2 fuel r3
          Except.ok (g1 ++ t)
        else if name = ['2'] then do
          let t ← tmplGo g1 g2 fuel r3
          Except.ok (g2 ++ t)
        else Except.error "unknown group name"
      | _ => Except.error "missing >, unterminated name"
    | '0' :: r2 =>
      let oct := (r2.takeWhile isOctalDigit).take 2
      let r3 := r2.drop oct.length
      let v := oct.foldl (fun a c => a * 8 + (c.toNat - '0'.toNat)) 0
      do
        let t ← tmplGo g1 g2 fuel r3
        Except.ok (Char.ofNat v :: t)
    | d :: r2 =>
      if d.isDigit then
        let ds := (d :: r2.takeWhile Char.isDigit).take 2
        let r3 := (d :: r2).drop ds.length
        let v := ds.foldl (fun a c => a * 10 + (c.toNat - '0'.toNat)) 0
        if v = 1 then do
          let t ← tmplGo g1 g2 fuel r3
          Except.ok (g1 ++ t)
        else if v = 2 then do
          let t ← tmplGo g1 g2 fuel r3
          Except.ok (g2 ++ t)
        else Except.error "invalid group reference"
      else if d = '\\' then do
        let t ← tmplGo g1 g2 fuel r2
        Except.ok ('\\' :: t)
      else if d = 'n' then do
        let t ← tmplGo g1 g2 fuel r2
        Except.ok ('\n' :: t)
      else if d = 'r' then do
        let t ← tmplGo g1 g2 fuel r2
        Except.ok ('\r' :: t)
      else if d = 't' then do
        let t ← tmplGo g1 g2 fuel r2
        Except.ok ('\t' :: t)
      else if d = 'a' then do
        let t ← tmplGo g1 g2 fuel r2
        Except.ok ('\x07' :: t)
      else if d = 'b' then do
        let t ← tmplGo g1 g2 fuel r2
        Except.ok ('\x08' :: t)
      else if d = 'f' then do
        let t ← tmplGo g1 g2 fuel r2
        Except.ok ('\x0c' :: t)
      else if d = 'v' then do
        let t ← tmplGo g1 g2 fuel r2
        Except.ok ('\x0b' :: t)
      else if ('A' ≤ d && d ≤ 'Z') || ('a' ≤ d && d ≤ 'z') then
        Except.error "bad escape"
      else do
        let t ← tmplGo g1 g2 fuel r2
        Except.ok ('\\' :: d :: t)
  | fuel + 1, c :: rest => do
    let t ← tmplGo g1 g2 fuel rest
    Except.ok (c :: t)

/-- Apply the template `\1{new}\2` for one match. -/
def applyTemplate (new g1 g2 : List Char) : Except String (List Char) :=
  let tmpl := '\\' :: '1' :: new ++ ['\\', '2']
  tmplGo g1 g2 (tmpl.length + 1) tmpl

/-- `re.sub` scan: replace every non-overlapping match, left to right. -/
def fbSubGo (matchAt : List Char → Option (List Char × List Char × List Char))
    (new : List Char) : Nat → List Char → Except String (List Char)
  | 0, cs => Except.ok cs
  | _ + 1, [] => Except.ok []
  | fuel + 1, c :: cs =>
    match matchAt (c :: cs) with
    | some (g1, g2, rest) => do
      let repl ← applyTemplate new g1 g2
      let t ← fbSubGo matchAt new fuel rest
      Except.ok (repl ++ t)
    | Option.none => do
      let t ← fbSubGo matchAt new fuel cs
      Except.ok (c :: t)

def fbSub (matchAt : List Char → Option (List Char × List Char × List Char))
    (new cs : List Char) : Except String (List Char) :=
  fbSubGo matchAt new (cs.length + 1) cs

/-- The `except:` body of `reconstruct_sql_query`: rebuild the clause (the
same `construct_where_clause` call, so it re-raises when the primary path
raised there), then substitute after the WHERE with the terminator-aware
pattern when it matches anywhere, else with the end-anchored pattern. -/
def fallback_path (original_query : String) (conds : List Condition) :
    Except String String := do
  let w ← construct_where_clause conds
  let cs := original_query.toList
  if (fbSearch cs).isSome then do
    let r ← fbSub fbMatchAt1 w.toList cs
    Except.ok (⟨r⟩ : String)
  else do
    let r ← fbSub fbMatchAt2 w.toList cs
    Except.ok (⟨r⟩ : String)

/-- `reconstruct_sql_query` from `sql_parser.py`: the primary path inside
`try`, the fallback inside the `except`, and the original statement when
both raise. -/
def reconstruct_sql_query (fmtRes : Except String String)
    (original_query : String) (modified_conditions : List Condition) : String :=
  match primary_path fmtRes original_query modified_conditions with
  | Except.ok s => s
  | Except.error _ =>
    match fallback_path original_query modified_conditions with
    | Except.ok s => s
    | Except.error _ => original_query

/-! ## Derived definitions used by the theorems -/

/-- Characters that can be consumed by the body of a successful
`float()` parse (digits, sign, underscore grouping, exponent letters and
the letters of `inf`/`infinity`/`nan` in either case). -/
def floatChar (c : Char) : Bool :=
  c.isDigit || c = '_' || c = '.' || c = '+' || c = '-' ||
  (let l := lcChar c
   l = 'e' || l = 'i' || l = 'n' || l = 'f' || l = 't' || l = 'y' || l = 'a')

instance {e a : Type} [DecidableEq e] [DecidableEq a] : DecidableEq (Except e a) := fun x y =>
  match x, y with
  | Except.ok u, Except.ok v =>
    if h : u = v then Decidable.isTrue (by rw [h]) else Decidable.isFalse (by simp [h])
  | Except.error u, Except.error v =>
    if h : u = v then Decidable.isTrue (by rw [h]) else Decidable.isFalse (by simp [h])
  | Except.ok _, Except.error _ => Decidable.isFalse (by simp)
  | Except.error _, Except.ok _ => Decidable.isFalse (by simp)

def toPyScalar : Option String → PyVal
  | Option.none => PyVal.vnone
  | some s => PyVal.str s

/-- The Typer-then-Formatter pipeline on one scalar:
`format_value(v, detect_value_type(v))`; on scalars `format_value` always
returns a string, so the result is read back as one. -/
def typeThenFormat (v : Option String) : String :=
  match format_value (toPyScalar v) (detect_value_type v) with
  | Except.ok r => pyStrTop r
  | Except.error _ => ""



/-! ## The rendered `to_date` BETWEEN idiom and its expected Condition -/

def toDateCall (p f tail : List Char) : List Char :=
  't':: 'o':: '_':: 'd':: 'a':: 't':: 'e':: '('::
    (p ++ ',' :: ' ' :: '\'' :: (f ++ '\'' :: ')' :: tail))

def renderToDateT (neg : Bool) (field p1 f1 p2 f2 tail : List Char) : List Char :=
  field ++ ' ' ::
    ((if neg then ['N','O','T',' '] else []) ++
      ('B':: 'E':: 'T':: 'W':: 'E':: 'E':: 'N':: ' '::
        toDateCall p1 f1 (' ':: 'A':: 'N':: 'D':: ' ':: toDateCall p2 f2 tail)))

def renderToDate (neg : Bool) (field p1 f1 p2 f2 : List Char) : List Char :=
  renderToDateT neg field p1 f1 p2 f2 []

def toDateIdiomCondition (cid : Nat) (neg : Bool) (field p1 f1 p2 f2 : List Char) :
    Condition :=
  { id := cid,
    field := ⟨field⟩,
    operator := if neg then "NOT BETWEEN" else "BETWEEN",
    operator_desc := some (if neg then "não entre" else "entre"),
    value := PyVal.list
      [PyVal.str ("to_date(" ++ (⟨p1⟩ : String) ++ ", '" ++ (⟨f1⟩ : String) ++ "')"),
       PyVal.str ("to_date(" ++ (⟨p2⟩ : String) ++ ", '" ++ (⟨f2⟩ : String) ++ "')")],
    original_value := some [⟨p1⟩, ⟨p2⟩],
    type := "date",
    is_function := true,
    function_name := some "to_date",
    format := some ⟨f1⟩ }

/-! ## The supported-shape fragment family of the round-trip property -/

def plainChar (c : Char) : Bool :=
  !pyWs c && !(c = '(') && !(c = ')') && !(c = ',') && !(c = '\'') && !(c = '"')

inductive SOp
  | eq | ne | ne2 | gt | lt | ge | le | like | notLike
deriving DecidableEq, Repr

def renderOp : SOp → List Char
  | .eq => ['=']
  | .ne => ['!','=']
  | .ne2 => ['<','>']
  | .gt => ['>']
  | .lt => ['<']
  | .ge => ['>','=']
  | .le => ['<','=']
  | .like => ['L','I','K','E']
  | .notLike => ['N','O','T',' ','L','I','K','E']

inductive SLit
  | num (v : List Char)
  | txt (v : List Char)
deriving DecidableEq, Repr

def renderLit : SLit → List Char
  | .num v => v
  | .txt v => '\'' :: v ++ ['\'']

def litVal : SLit → List Char
  | .num v => v
  | .txt v => v

inductive SFrag
  | cmp (f : List Char) (op : SOp) (v : SLit)
  | isNull (f : List Char) (neg : Bool)
  | inList (f : List Char) (neg : Bool) (v0 : SLit) (vrest : List SLit)
deriving DecidableEq, Repr

def renderInner (v0 : SLit) (vrest : List SLit) : List Char :=
  renderLit v0 ++ (vrest.flatMap (fun l => ',' :: ' ' :: renderLit l))

def renderFrag : SFrag → List Char
  | .cmp f op v => f ++ ' ' :: (renderOp op ++ ' ' :: renderLit v)
  | .isNull f neg =>
    f ++ ' ' :: (if neg then ['I','S',' ','N','O','T',' ','N','U','L','L']
                 else ['I','S',' ','N','U','L','L'])
  | .inList f neg v0 vrest =>
    f ++ ' ' :: ((if neg then ['N','O','T',' '] else []) ++
      'I':: 'N':: ' ':: '(':: (renderInner v0 vrest ++ [')']))

def renderClause : List SFrag → List Char
  | [] => []
  | [fr] => renderFrag fr
  | fr :: fr2 :: frs => renderFrag fr ++ ' ':: 'A':: 'N':: 'D':: ' ':: renderClause (fr2 :: frs)

/-- Well-formedness of a single token of the fragment family: non-empty,
plain characters only, not an `AND`/`OR`/`WHERE` keyword, and free of the
`NOT` / `between` letter sequences that the handlers sniff for. -/
def goodTok (t : List Char) : Prop :=
  t ≠ [] ∧ (∀ c ∈ t, plainChar c = true) ∧
  lcStr t ≠ ['a','n','d'] ∧ lcStr t ≠ ['o','r'] ∧ lcStr t ≠ ['w','h','e','r','e'] ∧
  containsSub ['N','O','T'] (ucStr t) = false ∧
  containsSub ['b','e','t','w','e','e','n'] (lcStr t) = false

/-- Well-formedness of a literal: a good token whose detected type agrees
with its rendering (bare literals type as numbers, quoted ones do not). -/
def goodLit : SLit → Prop
  | .num v => goodTok v ∧ detect_value_type (some ⟨v⟩) = "number"
  | .txt v => goodTok v ∧ detect_value_type (some ⟨v⟩) ≠ "number"

/-- A quoted-list element: like `goodLit .txt` but typing is governed by the
first element of the list, so only the token condition is kept here. -/
def goodFrag : SFrag → Prop
  | .cmp f _ v => goodTok f ∧ goodLit v
  | .isNull f _ => goodTok f
  | .inList f _ v0 vrest =>
    goodTok f ∧ goodLit v0 ∧
    ((∃ w, v0 = SLit.num w) → ∀ l ∈ vrest, ∃ w, l = SLit.num w ∧ goodTok w ∧
        detect_value_type (some ⟨w⟩) = "number") ∧
    ((∃ w, v0 = SLit.txt w) → ∀ l ∈ vrest, ∃ w, l = SLit.txt w ∧ goodTok w)

def opStr (op : SOp) : String := ⟨renderOp op⟩

/-- The Condition that `parse_condition` produces for each fragment shape. -/
def fragCondition (cid : Nat) : SFrag → Condition
  | .cmp f op v =>
    { id := cid, field := ⟨f⟩, operator := opStr op,
      operator_desc := some (operatorDesc (opStr op)),
      value := PyVal.str ⟨litVal v⟩,
      type := detect_value_type (some ⟨litVal v⟩) }
  | .isNull f neg =>
    { id := cid, field := ⟨f⟩,
      operator := if neg then "IS NOT NULL" else "IS NULL",
      operator_desc := some (operatorDesc (if neg then "IS NOT NULL" else "IS NULL")),
      value := PyVal.vnone, type := "null" }
  | .inList f neg v0 vrest =>
    { id := cid, field := ⟨f⟩,
      operator := if neg then "NOT IN" else "IN",
      operator_desc := some (operatorDesc (if neg then "NOT IN" else "IN")),
      value := PyVal.list ((v0 :: vrest).map (fun l => PyVal.str ⟨litVal l⟩)),
      type := detect_value_type (some ⟨litVal v0⟩) }

/-- The Condition list the parser produces for a fragment list, ids
starting at `cid`. -/
def fragConds : Nat → List SFrag → List Condition
  | _, [] => []
  | cid, fr :: frs => fragCondition cid fr :: fragConds (cid + 1) frs

/-- The `" AND "`-prefixed rendering of a non-first group of fragments
(empty for no fragments). -/
def sepAndClause : List SFrag → List Char
  | [] => []
  | fr :: frs => ' ':: 'A':: 'N':: 'D':: ' ':: renderClause (fr :: frs)

/-! ## Window and boundary predicates of the fragment family -/

/-- No `\s WORD \s` window starts inside `x` when `x` is followed by
`rest`. -/
def noWin (w x rest : List Char) : Prop :=
  ∀ i, i < x.length → winAt w (x.drop i ++ rest) = Option.none

/-- The facts about a split word (`AND` / `OR`) used by the window-freedom
proofs. -/
structure WordFacts (word : List Char) : Prop where
  sp : lcChar ' ' ∉ lcStr word
  comma : lcChar ',' ∉ lcStr word
  par : lcChar ')' ∉ lcStr word
  quo : '\'' ∉ word
  bnot : lcStr ['N','O','T'] ≠ lcStr word
  blike : lcStr ['L','I','K','E'] ≠ lcStr word
  bis : lcStr ['I','S'] ≠ lcStr word
  bnull : lcStr ['N','U','L','L'] ≠ lcStr word
  bin : lcStr ['I','N'] ≠ lcStr word
  bop : ∀ op : SOp, op ≠ SOp.notLike → lcStr (renderOp op) ≠ lcStr word

def fragField : SFrag → List Char
  | .cmp f _ _ => f
  | .isNull f _ => f
  | .inList f _ _ _ => f

def fragTail : SFrag → List Char
  | .cmp _ op v => renderOp op ++ ' ' :: renderLit v
  | .isNull _ neg => if neg then ['I','S',' ','N','O','T',' ','N','U','L','L']
      else ['I','S',' ','N','U','L','L']
  | .inList _ neg v0 vrest => (if neg then ['N','O','T',' '] else []) ++
      'I':: 'N':: ' ':: '(':: (renderInner v0 vrest ++ [')'])

def boundCh (c : Char) : Prop := c = ' ' ∨ c = ',' ∨ c = ')'

/-! ## Supporting lemmas: characters of `float()`-accepted strings -/

theorem dropLit_eq_append {pat cs r : List Char} (h : dropLit pat cs = some r) :
    cs = pat ++ r := by
  induction pat generalizing cs with
  | nil => simpa [dropLit] using h
  | cons p ps ih =>
    cases cs with
    | nil => simp [dropLit] at h
    | cons c cs =>
      simp only [dropLit] at h
      split at h
      · next heq => simpa [heq] using ih h
      · exact absurd h (by simp)

theorem dropLitCI_mem {pat cs r : List Char} (h : dropLitCI pat cs = some r)
    {c : Char} (hc : c ∈ cs) : c ∈ r ∨ ∃ p ∈ pat, ciEq p c = true := by
  induction pat generalizing cs with
  | nil =>
    simp only [dropLitCI] at h
    cases h; exact Or.inl hc
  | cons p ps ih =>
    cases cs with
    | nil => simp [dropLitCI] at h
    | cons a cs =>
      simp only [dropLitCI] at h
      split at h
      · next heq =>
        rcases List.mem_cons.mp hc with hc | hc
        · exact Or.inr (Exists.intro p (And.intro (List.mem_cons_self p ps) (by rw [hc]; exact heq)))
        · rcases ih h hc with h1 | h2
          · exact Or.inl h1
          · rcases h2 with ⟨q, hq, hq2⟩
            exact Or.inr (Exists.intro q (And.intro (List.mem_cons_of_mem _ hq) hq2))
      · exact absurd h (by simp)

theorem digitsUAux_mem :
    ∀ (cs : List Char), ∀ c ∈ cs, c ∈ digitsUAux cs ∨ floatChar c = true := by
  intro cs
  induction cs using digitsUAux.induct with
  | case1 => simp
  | case2 a cs hd ih =>
    intro c hc
    have hrw : digitsUAux (a :: cs) = digitsUAux cs := by
      rw [digitsUAux.eq_def]; simp [hd]
    rcases List.mem_cons.mp hc with rfl | hc
    · exact Or.inr (by simp [floatChar, hd])
    · rw [hrw]; exact ih c hc
  | case3 d ds hdd hunder ih =>
    intro c hc
    have hrw : digitsUAux ('_' :: d :: ds) = digitsUAux ds := by
      rw [digitsUAux.eq_def]; simp [hdd]
    rcases List.mem_cons.mp hc with rfl | hc
    · exact Or.inr (by simp [floatChar])
    · rcases List.mem_cons.mp hc with rfl | hc
      · exact Or.inr (by simp [floatChar, hdd])
      · rw [hrw]; exact ih c hc
  | case4 d ds hdd hunder =>
    intro c hc
    have hrw : digitsUAux ('_' :: d :: ds) = '_' :: d :: ds := by
      rw [digitsUAux.eq_def]; simp [hdd]
    rw [hrw]; exact Or.inl hc
  | case5 hunder =>
    intro c hc
    have hrw : digitsUAux ['_'] = ['_'] := by
      rw [digitsUAux.eq_def]; simp
    rw [hrw]; exact Or.inl hc
  | case6 a cs hd hu =>
    intro c hc
    have hrw : digitsUAux (a :: cs) = a :: cs := by
      rw [digitsUAux.eq_def]; simp [hd, hu]
    rw [hrw]; exact Or.inl hc

theorem digitsU_mem {cs r : List Char} (h : digitsU cs = some r) :
    ∀ c ∈ cs, c ∈ r ∨ floatChar c = true := by
  cases cs with
  | nil => simp [digitsU] at h
  | cons a cs =>
    intro c hc
    simp only [digitsU] at h
    split at h
    · next hd =>
      cases h
      rcases List.mem_cons.mp hc with rfl | hc
      · exact Or.inr (by simp [floatChar, hd])
      · exact digitsUAux_mem cs c hc
    · exact absurd h (by simp)

theorem parseSig_mem {cs r : List Char} (h : parseSig cs = some r) :
    ∀ c ∈ cs, c ∈ r ∨ floatChar c = true := by
  intro c hc
  simp only [parseSig] at h
  split at h
  case h_1 r0 hd =>
    split at h
    case h_1 r2 =>
      split at h
      case h_1 r3 hd2 =>
        cases h
        rcases digitsU_mem hd c hc with h1 | h1
        · rcases List.mem_cons.mp h1 with rfl | h1
          · exact Or.inr (by simp [floatChar])
          · rcases digitsU_mem hd2 c h1 with h2 | h2
            · exact Or.inl h2
            · exact Or.inr h2
        · exact Or.inr h1
      case h_2 hd2 =>
        cases h
        rcases digitsU_mem hd c hc with h1 | h1
        · rcases List.mem_cons.mp h1 with rfl | h1
          · exact Or.inr (by simp [floatChar])
          · exact Or.inl h1
        · exact Or.inr h1
    case h_2 hne =>
      cases h
      rcases digitsU_mem hd c hc with h1 | h1
      · exact Or.inl h1
      · exact Or.inr h1
  case h_2 hd =>
    split at h
    case h_1 r2 =>
      split at h
      case h_1 r3 hd2 =>
        cases h
        rcases List.mem_cons.mp hc with rfl | hc
        · exact Or.inr (by simp [floatChar])
        · rcases digitsU_mem hd2 c hc with h2 | h2
          · exact Or.inl h2
          · exact Or.inr h2
      case h_2 hd2 => exact absurd h (by simp)
    case h_2 hne => exact absurd h (by simp)

theorem parseExp_mem (r : List Char) :
    ∀ c ∈ r, c ∈ parseExp r ∨ floatChar c = true := by
  intro c hc
  cases r with
  | nil => simp at hc
  | cons e r2 =>
    by_cases he : (e = 'e' || e = 'E') = true
    · have hechar : floatChar e = true := by
        rcases Bool.or_eq_true_iff.mp he with h1 | h1 <;>
          (have h2 := of_decide_eq_true h1; subst h2; decide)
      cases r2 with
      | nil =>
        have hrw : parseExp [e] = [e] := by
          rw [parseExp.eq_def]; simp [he]
        rw [hrw]; exact Or.inl hc
      | cons s r3 =>
        by_cases hs : (s = '+' || s = '-') = true
        · have hschar : floatChar s = true := by
            rcases Bool.or_eq_true_iff.mp hs with h1 | h1 <;>
              (have h2 := of_decide_eq_true h1; subst h2; decide)
          rcases h4 : digitsU r3 with _ | r4
          · have hrw : parseExp (e :: s :: r3) = e :: s :: r3 := by
              rw [parseExp.eq_def]; simp [he, hs, h4]
            rw [hrw]; exact Or.inl hc
          · have hrw : parseExp (e :: s :: r3) = r4 := by
              rw [parseExp.eq_def]; simp [he, hs, h4]
            rw [hrw]
            rcases List.mem_cons.mp hc with rfl | hc2
            · exact Or.inr hechar
            · rcases List.mem_cons.mp hc2 with rfl | hc3
              · exact Or.inr hschar
              · rcases digitsU_mem h4 c hc3 with h5 | h5
                · exact Or.inl h5
                · exact Or.inr h5
        · rcases h4 : digitsU (s :: r3) with _ | r4
          · have hrw : parseExp (e :: s :: r3) = e :: s :: r3 := by
              rw [parseExp.eq_def]; simp [he, hs, h4]
            rw [hrw]; exact Or.inl hc
          · have hrw : parseExp (e :: s :: r3) = r4 := by
              rw [parseExp.eq_def]; simp [he, hs, h4]
            rw [hrw]
            rcases List.mem_cons.mp hc with rfl | hc2
            · exact Or.inr hechar
            · rcases digitsU_mem h4 c hc2 with h5 | h5
              · exact Or.inl h5
              · exact Or.inr h5
    · have hrw : parseExp (e :: r2) = e :: r2 := by
        rw [parseExp.eq_def]; simp [he]
      rw [hrw]; exact Or.inl hc

theorem ciEq_lc {p a : Char} (h : ciEq p a = true) : lcChar a = lcChar p := by
  have := of_decide_eq_true h
  exact this.symm

theorem floatChar_of_lc {a : Char} {l : Char} (hl : lcChar a = l)
    (hmem : l = 'e' ∨ l = 'i' ∨ l = 'n' ∨ l = 'f' ∨ l = 't' ∨ l = 'y' ∨ l = 'a') :
    floatChar a = true := by
  rcases hmem with rfl|rfl|rfl|rfl|rfl|rfl|rfl <;> simp [floatChar, hl]

theorem floatBody_mem {cs r : List Char} (h : floatBody cs = some r) :
    ∀ c ∈ cs, c ∈ r ∨ floatChar c = true := by
  intro c hc
  have hword : ∀ (w : List Char), (∀ p ∈ w, lcChar p = 'e' ∨ lcChar p = 'i' ∨
      lcChar p = 'n' ∨ lcChar p = 'f' ∨ lcChar p = 't' ∨ lcChar p = 'y' ∨
      lcChar p = 'a') →
      ∀ {rr : List Char}, dropLitCI w cs = some rr → c ∈ rr ∨ floatChar c = true := by
    intro w hw rr hdrop
    rcases dropLitCI_mem hdrop hc with h1 | ⟨p, hp, hp2⟩
    · exact Or.inl h1
    · refine Or.inr (floatChar_of_lc (ciEq_lc hp2) ?_)
      simpa using hw p hp
  simp only [floatBody] at h
  split at h
  · next hd =>
    cases h
    exact hword _ (by decide) hd
  · split at h
    · next hd =>
      cases h
      exact hword _ (by decide) hd
    · split at h
      · next hd =>
        cases h
        exact hword _ (by decide) hd
      · split at h
        · next r0 hsig =>
          cases h
          rcases parseSig_mem hsig c hc with h1 | h1
          · exact parseExp_mem r0 c h1
          · exact Or.inr h1
        · exact absurd h (by simp)

theorem isPyFloatL_chars {cs : List Char} (h : isPyFloatL cs = true) :
    ∀ c ∈ cs, pyWs c = true ∨ floatChar c = true := by
  intro c hc
  simp only [isPyFloatL] at h
  rw [← List.takeWhile_append_dropWhile (p := pyWs) (l := cs)] at hc
  rcases List.mem_append.mp hc with hc | hc
  · exact Or.inl (List.mem_takeWhile_imp hc)
  · rcases hx : cs.dropWhile pyWs with _ | ⟨a, rs⟩
    · rw [hx] at hc; simp at hc
    · rw [hx] at hc h
      by_cases hsign : (a = '+' || a = '-') = true
      · rw [show dropSign (a :: rs) = rs by simp [dropSign, hsign]] at h
        rcases List.mem_cons.mp hc with rfl | hc2
        · rcases Bool.or_eq_true_iff.mp hsign with hs | hs <;>
            (have h2 := of_decide_eq_true hs; subst h2;
             exact Or.inr (by decide))
        · rcases hb : floatBody rs with _ | r
          · rw [hb] at h; simp at h
          · rw [hb] at h
            rcases floatBody_mem hb c hc2 with h1 | h1
            · refine Or.inl (List.dropWhile_eq_nil_iff.mp (by simpa using h) c h1)
            · exact Or.inr h1
      · rw [show dropSign (a :: rs) = a :: rs by simp [dropSign, hsign]] at h
        rcases hb : floatBody (a :: rs) with _ | r
        · rw [hb] at h; simp at h
        · rw [hb] at h
          rcases floatBody_mem hb c hc with h1 | h1
          · refine Or.inl (List.dropWhile_eq_nil_iff.mp (by simpa using h) c h1)
          · exact Or.inr h1

theorem containsSub_mem {pat cs : List Char} (h : containsSub pat cs = true) :
    ∀ c ∈ pat, c ∈ cs := by
  induction cs with
  | nil => simp [containsSub] at h
  | cons a rest ih =>
    intro c hc
    simp only [containsSub, Bool.or_eq_true] at h
    rcases h with h | h
    · simp only [isPrefixOfB] at h
      rcases hx : dropLit pat (a :: rest) with _ | r
      · rw [hx] at h; simp at h
      · rw [dropLit_eq_append hx]
        exact List.mem_append.mpr (Or.inl hc)
    · exact List.mem_cons_of_mem _ (ih h c hc)

theorem lcChar_eq_paren {a : Char} (h : lcChar a = '(') : a = '(' := by
  unfold lcChar at h
  split at h <;> simp_all

theorem isPyFloat_not_toDate {s : String} (h : isPyFloatL s.toList = true) :
    pyContains (lcStr s.toList) "to_date(".toList = false := by
  by_contra hne
  have hcc : containsSub "to_date(".toList (lcStr s.toList) = true := by
    have h2 := Bool.of_not_eq_false hne
    simpa [pyContains] using h2
  have hmem : '(' ∈ lcStr s.toList :=
    containsSub_mem hcc '(' (by decide)
  rcases List.mem_map.mp hmem with ⟨a, ha, ha2⟩
  have ha3 : a = '(' := lcChar_eq_paren ha2
  subst ha3
  rcases isPyFloatL_chars h '(' ha with h1 | h1 <;> revert h1 <;> decide

/-- C6: the Value Typer classifies in the fixed order null, number (Python
`float()` acceptance), date (the six formats `%Y-%m-%d`, `%d/%m/%Y`,
`%Y/%m/%d`, `%d-%m-%Y` and the first two with `%H:%M:%S`, tried in order),
then text; the numeric-looking date string `20240101` is a number. -/
theorem detect_value_type_spec :
    detect_value_type Option.none = "null" ∧
    (∀ s : String, isPyFloatL s.toList = true → detect_value_type (some s) = "number") ∧
    (∀ s : String, isPyFloatL s.toList = false → matchesAnyDateFormat s.toList = true →
      detect_value_type (some s) = "date") ∧
    (∀ s : String, isPyFloatL s.toList = false → matchesAnyDateFormat s.toList = false →
      detect_value_type (some s) = "text") ∧
    detect_value_type (some "20240101") = "number" := by
  refine ⟨rfl, ?_, ?_, ?_, by decide⟩
  · intro s h; simp only [String.toList] at h; simp [detect_value_type, h]
  · intro s h1 h2
    simp only [String.toList] at h1 h2
    simp [detect_value_type, h1, h2]
  · intro s h1 h2
    simp only [String.toList] at h1 h2
    simp [detect_value_type, h1, h2]

theorem detect_value_type_spec_witness :
    detect_value_type (some "12.5") = "number" ∧
    detect_value_type (some "05-01-2024") = "date" ∧
    detect_value_type (some "O'Brien") = "text" :=
  ⟨detect_value_type_spec.2.1 "12.5" (by decide),
   detect_value_type_spec.2.2.1 "05-01-2024" (by decide) (by decide),
   detect_value_type_spec.2.2.2.1 "O'Brien" (by decide) (by decide)⟩

/-- C10: an empty string under the `number` or `date` type renders as the
literal `NULL`; under every other declared type it renders as the quoted
empty literal `''`. -/
theorem format_value_empty_to_null :
    format_value (PyVal.str "") "number" = Except.ok (PyVal.str "NULL") ∧
    format_value (PyVal.str "") "date" = Except.ok (PyVal.str "NULL") ∧
    (∀ t : String, t ≠ "number" → t ≠ "date" →
      format_value (PyVal.str "") t = Except.ok (PyVal.str "''")) := by
  refine ⟨by decide, by decide, ?_⟩
  intro t h1 h2
  unfold format_value
  rw [if_neg (by decide), if_neg (by decide), if_neg h1, if_neg h2]
  rfl

theorem format_value_empty_to_null_witness :
    format_value (PyVal.str "") "text" = Except.ok (PyVal.str "''") :=
  format_value_empty_to_null.2.2 "text" (by decide) (by decide)

/-- C7 counterexample: a text value containing `to_date(` is passed through
verbatim, not quote-doubled-and-wrapped as the claim states for every
text value. -/
theorem format_value_text_passthrough_cex :
    format_value (PyVal.str "to_date(x)") "text" = Except.ok (PyVal.str "to_date(x)") ∧
    ("to_date(x)" : String) ≠ "'to_date(x)'" := by decide

/-- C7 (amended): `None` renders as `NULL` for every declared type, and a
`text` value without the `to_date(` marker is rendered by doubling each
single quote and wrapping in single quotes; `O'Brien` becomes
`'O''Brien'`, and that literal re-types as text. -/
theorem format_value_null_and_text_quoting :
    (∀ t : String, format_value PyVal.vnone t = Except.ok (PyVal.str "NULL")) ∧
    (∀ s : String, pyContains (lcStr s.toList) "to_date(".toList = false →
      format_value (PyVal.str s) "text" =
        Except.ok (PyVal.str ("'" ++ doubleSingleQuotes s ++ "'"))) ∧
    format_value (PyVal.str "O'Brien") "text" = Except.ok (PyVal.str "'O''Brien'") ∧
    detect_value_type (some "'O''Brien'") = "text" := by
  refine ⟨?_, ?_, by decide, by decide⟩
  · intro t; unfold format_value; rw [if_pos rfl]
  · intro s h
    unfold format_value
    rw [if_neg (by simp), if_neg (by simpa using h), if_neg (by decide), if_neg (by decide)]
    rfl

theorem format_value_null_and_text_quoting_witness :
    format_value (PyVal.str "a'b") "text" =
      Except.ok (PyVal.str ("'" ++ doubleSingleQuotes "a'b" ++ "'")) :=
  format_value_null_and_text_quoting.2.1 "a'b" (by decide)

/-- C8 counterexample: formatting is not idempotent — a text scalar is
re-quoted by the second pass. -/
theorem formatting_idempotence_cex :
    typeThenFormat (some "abc") = "'abc'" ∧
    typeThenFormat (some (typeThenFormat (some "abc"))) = "'''abc'''" ∧
    ("'''abc'''" : String) ≠ "'abc'" := by decide

/-- C8 (amended): the Typer-then-Formatter pipeline is idempotent on
scalars classified as numbers (they render as themselves); text-, date-
and null-classified scalars are re-quoted by a second pass. -/
theorem formatting_idempotent_on_numbers (s : String)
    (h : detect_value_type (some s) = "number") :
    typeThenFormat (some (typeThenFormat (some s))) = typeThenFormat (some s) := by
  have hf : isPyFloatL s.toList = true := by
    by_contra hne
    have hff : isPyFloatL s.toList = false := by
      cases hx : isPyFloatL s.toList
      · rfl
      · exact absurd hx hne
    simp only [detect_value_type, hff, Bool.false_eq_true, if_false] at h
    split at h <;> simp_all
  have hnp := isPyFloat_not_toDate (s := s) hf
  have hse : ¬ (PyVal.str s = PyVal.str "") := by
    intro he
    have he2 : s = "" := by injection he
    subst he2; revert hf; decide
  have h1 : typeThenFormat (some s) = s := by
    simp only [typeThenFormat, toPyScalar, h]
    unfold format_value
    rw [if_neg (by simp), if_neg (by simpa using hnp), if_pos rfl,
        if_neg hse, if_pos (by simpa [pyFloatable] using hf)]
    rfl
  rw [h1]
  exact h1

theorem formatting_idempotent_on_numbers_witness :
    typeThenFormat (some (typeThenFormat (some "12.5"))) = typeThenFormat (some "12.5") :=
  formatting_idempotent_on_numbers "12.5" (by decide)

/-! ## C9: id contiguity -/

theorem parse_condition_id {s : String} {cid : Nat} {c : Condition}
    (h : parse_condition s cid = some c) : c.id = cid := by
  simp only [parse_condition] at h
  split at h
  · cases h; rfl
  · split at h
    · cases h; rfl
    · split at h
      · cases h; rfl
      · split at h
        · cases h; rfl
        · split at h
          · cases h; rfl
          · exact absurd h (by simp)

theorem renumber_map_ids (l : List Condition) :
    ((List.mapIdx (fun i c => { c with id := i + 1 }) l).map (fun c => c.id)) =
      (List.range l.length).map Nat.succ := by
  rw [List.mapIdx_eq_enum_map, List.map_map]
  have h2 : List.map
      ((fun c => c.id) ∘ Function.uncurry (fun i c => ({ c with id := i + 1 } : Condition)))
      l.enum = List.map (Nat.succ ∘ Prod.fst) l.enum := by
    apply List.map_congr_left
    intro p hp
    rfl
  rw [h2, ← List.map_map, List.enum_map_fst]

theorem parseFrags_ids : ∀ (fs : List (List Char)) (k : Nat),
    (parseFrags fs k).map (fun c => c.id) =
      List.range' k (parseFrags fs k).length := by
  intro fs
  induction fs with
  | nil => intro k; rfl
  | cons f fs ih =>
    intro k
    simp only [parseFrags]
    by_cases he : (pyStrip f).isEmpty
    · simp only [he, if_true]
      exact ih k
    · simp only [he, Bool.false_eq_true, if_false]
      cases hp : parse_condition ⟨pyStrip f⟩ k with
      | none => exact ih k
      | some pc =>
        simp only [List.map_cons, List.length_cons, List.range'_succ]
        rw [parse_condition_id hp, ih (k + 1)]

theorem extractGo_ids : ∀ (fuel : Nat) (wc : List Char),
    (extractGo fuel wc).map (fun c => c.id) =
      List.range (extractGo fuel wc).length := by
  intro fuel
  induction fuel with
  | zero => intro wc; rfl
  | succ fuel ih =>
    intro wc
    simp only [extractGo]
    cases hs : searchToDate (stripWherePrefix wc) with
    | none =>
      rw [List.range_eq_range']
      exact parseFrags_ids _ 0
    | some m =>
      by_cases hrem :
          (pyStrip (removeAll m.matched (stripWherePrefix wc))).isEmpty
      · simp only [hrem, if_true]
        rfl
      · simp only [hrem, Bool.false_eq_true, if_false, List.map_cons,
          List.length_cons]
        have h0 : (toDateCondition 0 (notBeforeBetween m.matched) m).id = 0 := rfl
        rw [h0, List.range_succ_eq_map]
        congr 1
        rw [List.length_mapIdx]
        exact renumber_map_ids _

/-- C9: every ConditionList produced by the parser has contiguous ids
starting at 0 in list order — through the generic split path (ids advance
only on parsed fragments), the `to_date` special case's recursive
renumbering, and `parse_sql_query` itself. -/
theorem parser_ids_contiguous :
    (∀ wc fq : String, (extract_conditions wc fq).map (fun c => c.id) =
      List.range (extract_conditions wc fq).length) ∧
    (∀ q : String, (parse_sql_query q).map (fun c => c.id) =
      List.range (parse_sql_query q).length) := by
  constructor
  · intro wc fq
    unfold extract_conditions
    exact extractGo_ids _ _
  · intro q
    unfold parse_sql_query
    cases locate_where_clause q with
    | none => rfl
    | some wc =>
      unfold extract_conditions
      exact extractGo_ids _ _

/-! ## C2: no WHERE clause means an empty result, never an exception -/

/-- C2: `parse_sql_query` is a total function (never throws), and a
statement with no whitespace-delimited WHERE keyword yields the empty
ConditionList. -/
theorem parse_sql_query_no_where (q : String)
    (h : ∀ k, k < q.toList.length → whereWinAt q.toList k = false) :
    parse_sql_query q = [] := by
  have hf : (List.range q.toList.length).find? (whereWinAt q.toList) = Option.none := by
    apply List.find?_eq_none.mpr
    intro k hk
    have h2 := h k (List.mem_range.mp hk)
    simp only [Bool.not_eq_true]
    exact h2
  simp only [parse_sql_query, locate_where_clause]
  rw [hf]

theorem parse_sql_query_no_where_witness :
    parse_sql_query "SELECT * FROM t" = [] :=
  parse_sql_query_no_where "SELECT * FROM t" (by decide)

/-! ## C3: reconstruction never throws -/

/-- C3: `reconstruct_sql_query` is a total function on every original
statement and ConditionList (it always returns a string): when the primary
path succeeds its result is returned; when the primary path raises the
fallback is tried and its result returned; when the fallback also raises
the original statement is returned unchanged. -/
theorem reconstruct_never_throws (fmtRes : Except String String)
    (orig : String) (conds : List Condition) :
    (∀ s, primary_path fmtRes orig conds = Except.ok s →
      reconstruct_sql_query fmtRes orig conds = s) ∧
    (∀ e s, primary_path fmtRes orig conds = Except.error e →
      fallback_path orig conds = Except.ok s →
      reconstruct_sql_query fmtRes orig conds = s) ∧
    (∀ e e2, primary_path fmtRes orig conds = Except.error e →
      fallback_path orig conds = Except.error e2 →
      reconstruct_sql_query fmtRes orig conds = orig) := by
  refine ⟨?_, ?_, ?_⟩
  · intro s h1
    unfold reconstruct_sql_query
    rw [h1]
  · intro e s h1 h2
    unfold reconstruct_sql_query
    rw [h1, h2]
  · intro e e2 h1 h2
    unfold reconstruct_sql_query
    rw [h1, h2]

theorem reconstruct_never_throws_witness :
    reconstruct_sql_query (Except.ok "SELECT a FROM t WHERE x = 1")
      "SELECT a FROM t WHERE x = 1"
      [{ id := 0, field := "d", operator := "=", value := PyVal.num 3, type := "date" }] =
      "SELECT a FROM t WHERE x = 1" :=
  (reconstruct_never_throws _ _ _).2.2
    "TypeError: argument is not iterable" "TypeError: argument is not iterable"
    (by decide) (by decide)

/-! ## C4: where the primary path splits the statement -/

/-- C4 counterexample: with two WHERE keywords the primary path splits at
the last one, not the first — splitting at the first would give
`A WHERE a = 1`, the code produces `A WHERE p WHERE a = 1`. -/
theorem reconstruct_where_split_cex :
    reconstruct_sql_query (Except.ok "A WHERE p WHERE q") "A WHERE p WHERE q"
      [{ id := 0, field := "a", operator := "=", value := PyVal.str "1",
         type := "number" }] =
      "A WHERE p WHERE a = 1" ∧
    ("A WHERE p WHERE a = 1" : String) ≠ "A WHERE a = 1" := by
  constructor
  · decide
  · decide

theorem whereWinAt_lt_length {cs : List Char} {k : Nat}
    (h : whereWinAt cs k = true) : k < cs.length := by
  by_contra hk
  have hd : cs.drop k = [] := List.drop_eq_nil_of_le (Nat.le_of_not_lt hk)
  rw [whereWinAt, hd] at h
  simp [winAt] at h

theorem filter_range_getLast_eq {p : Nat → Bool} {n k : Nat} (hk : k < n)
    (hp : p k = true) (hmax : ∀ j, k < j → j < n → p j = false) :
    ((List.range n).filter p).getLast? = some k := by
  induction n with
  | zero => exact absurd hk (Nat.not_lt_zero k)
  | succ m ih =>
    rw [List.range_succ, List.filter_append]
    by_cases hkm : k = m
    · subst hkm
      simp [hp, List.getLast?_append]
    · have hklt : k < m := Nat.lt_of_le_of_ne (Nat.lt_succ_iff.mp hk) hkm
      have hpm : p m = false := hmax m hklt (Nat.lt_succ_self m)
      rw [show List.filter p [m] = [] from by simp [hpm]]
      rw [List.append_nil]
      exact ih hklt (fun j hj1 hj2 => hmax j hj1 (Nat.lt_succ_of_lt hj2))

/-- C4 (amended): the primary reconstruction path splits the formatted
statement at the **last** whitespace-delimited case-insensitive WHERE
(the regex `(?i)(.*)\s+WHERE\s+(.*)` with DOTALL has a greedy leading
group), discards everything from that point on — including any trailing
GROUP BY / ORDER BY / HAVING / LIMIT clauses — and returns the prefix,
`" WHERE "`, and the AND-join of the rendered conditions. -/
theorem reconstruct_primary_splits_last (fmt orig : String)
    (conds : List Condition) (k : Nat)
    (hk : whereWinAt fmt.toList k = true)
    (hmax : ∀ j < fmt.toList.length, k < j → whereWinAt fmt.toList j = false)
    (w : String) (hw : construct_where_clause conds = Except.ok w) :
    reconstruct_sql_query (Except.ok fmt) orig conds =
      (⟨fmt.toList.take k⟩ : String) ++ " WHERE " ++ w := by
  have hsplit : whereSplitPrimary fmt.toList = some k :=
    filter_range_getLast_eq (whereWinAt_lt_length hk) hk
      (fun j hj1 hj2 => hmax j hj2 hj1)
  have h1 : primary_path (Except.ok fmt) orig conds =
      (match whereSplitPrimary fmt.toList with
       | Option.none => Except.ok orig
       | some j => Except.bind (construct_where_clause conds)
           (fun w2 => Except.ok ((⟨fmt.toList.take j⟩ : String) ++ " WHERE " ++ w2))) := rfl
  have hprimary : primary_path (Except.ok fmt) orig conds =
      Except.ok ((⟨fmt.toList.take k⟩ : String) ++ " WHERE " ++ w) := by
    rw [h1, hsplit, hw]
    rfl
  exact (reconstruct_never_throws _ _ _).1 _ hprimary

theorem reconstruct_primary_splits_last_witness :
    reconstruct_sql_query (Except.ok "SELECT a FROM t WHERE x=1 GROUP BY c")
      "SELECT a FROM t WHERE x=1 GROUP BY c"
      [{ id := 0, field := "b", operator := "IS NULL", value := PyVal.vnone,
         type := "null" }] =
      (⟨("SELECT a FROM t WHERE x=1 GROUP BY c" : String).toList.take 15⟩ : String) ++
        " WHERE " ++ "b IS NULL" :=
  reconstruct_primary_splits_last _ _ _ 15 (by decide) (by decide) _ (by decide)


/-! ## Token-level lemmas and the `to_date` idiom parse (C5) -/

/-! ## Token-level lemmas shared by the idiom and round-trip proofs -/

theorem takeWhile_append_cons {p : Char → Bool} (xs : List Char) (y : Char)
    (ys : List Char) (hxs : ∀ c ∈ xs, p c = true) (hy : p y = false) :
    (xs ++ y :: ys).takeWhile p = xs := by
  induction xs with
  | nil => simp [List.takeWhile_cons, hy]
  | cons a l ih =>
    have ha : p a = true := hxs a (List.mem_cons_self a l)
    simp only [List.cons_append, List.takeWhile_cons, ha, if_true]
    rw [ih (fun c hc => hxs c (List.mem_cons_of_mem _ hc))]

theorem dropWhile_append_cons {p : Char → Bool} (xs : List Char) (y : Char)
    (ys : List Char) (hxs : ∀ c ∈ xs, p c = true) (hy : p y = false) :
    (xs ++ y :: ys).dropWhile p = y :: ys := by
  induction xs with
  | nil => simp [List.dropWhile_cons, hy]
  | cons a l ih =>
    have ha : p a = true := hxs a (List.mem_cons_self a l)
    simp only [List.cons_append, List.dropWhile_cons, ha, if_true]
    exact ih (fun c hc => hxs c (List.mem_cons_of_mem _ hc))

theorem dropWhile_cons_of_false {p : Char → Bool} {c : Char} (cs : List Char)
    (hc : p c = false) : (c :: cs).dropWhile p = c :: cs := by
  simp [List.dropWhile_cons, hc]

theorem dropWhile_eq_self_of_all {p : Char → Bool} {cs : List Char}
    (h : ∀ c ∈ cs, p c = false) : cs.dropWhile p = cs := by
  cases cs with
  | nil => rfl
  | cons c cs => simp [List.dropWhile_cons, h c (List.mem_cons_self c cs)]

theorem pyStrip_eq_self {cs : List Char} (h : ∀ c ∈ cs, pyWs c = false) :
    pyStrip cs = cs := by
  unfold pyStrip
  rw [dropWhile_eq_self_of_all h, dropWhile_eq_self_of_all, List.reverse_reverse]
  intro c hc
  exact h c (List.mem_reverse.mp hc)

theorem dropLit_self_append (pat rest : List Char) :
    dropLit pat (pat ++ rest) = some rest := by
  induction pat with
  | nil => rfl
  | cons p ps ih => simp [dropLit, ih]

theorem isPrefixOfB_iff_prefix {pat cs : List Char} :
    isPrefixOfB pat cs = true ↔ pat <+: cs := by
  constructor
  · intro h
    simp only [isPrefixOfB] at h
    rcases hx : dropLit pat cs with _ | r
    · rw [hx] at h; simp at h
    · exact ⟨r, (dropLit_eq_append hx).symm⟩
  · rintro ⟨t, rfl⟩
    simp [isPrefixOfB, dropLit_self_append]

theorem decomp_of_containsSub {pat cs : List Char} (h : containsSub pat cs = true) :
    ∃ pre post, cs = pre ++ pat ++ post := by
  induction cs with
  | nil => simp [containsSub] at h
  | cons a cs ih =>
    simp only [containsSub, Bool.or_eq_true] at h
    rcases h with h | h
    · rcases isPrefixOfB_iff_prefix.mp h with ⟨t, ht⟩
      exact ⟨[], t, by simp [← ht]⟩
    · rcases ih h with ⟨pre, post, hh⟩
      exact ⟨a :: pre, post, by simp [hh]⟩

theorem containsSub_of_decomp {pat : List Char} (hne : pat ≠ []) :
    ∀ {cs pre post : List Char}, cs = pre ++ pat ++ post → containsSub pat cs = true := by
  intro cs
  induction cs with
  | nil =>
    intro pre post h
    rcases pat with _ | ⟨p, ps⟩
    · exact absurd rfl hne
    · exact absurd h.symm (by simp)
  | cons a cs ih =>
    intro pre post h
    simp only [containsSub, Bool.or_eq_true]
    cases pre with
    | nil =>
      left
      refine isPrefixOfB_iff_prefix.mpr ⟨post, ?_⟩
      simpa using h.symm
    | cons b pre =>
      right
      simp only [List.cons_append] at h
      exact ih (List.tail_eq_of_cons_eq h)

theorem removeAllGo_no_occurrence {pat : List Char} :
    ∀ (fuel : Nat) (cs : List Char), containsSub pat cs = false →
      removeAllGo pat fuel cs = cs := by
  intro fuel
  induction fuel with
  | zero => intro cs h; rfl
  | succ fuel ih =>
    intro cs h
    cases cs with
    | nil => rfl
    | cons c cs =>
      simp only [containsSub, Bool.or_eq_false_iff] at h
      simp only [removeAllGo]
      rcases hx : dropLit pat (c :: cs) with _ | r
      · rw [ih cs h.2]
      · exfalso
        have : isPrefixOfB pat (c :: cs) = true := by simp [isPrefixOfB, hx]
        rw [h.1] at this
        exact absurd this (by simp)

theorem lenDropWhile_le (p : Char → Bool) (l : List Char) :
    (l.dropWhile p).length ≤ l.length :=
  (List.dropWhile_sublist p).length_le

theorem dropLit_length_le {pat cs r : List Char} (h : dropLit pat cs = some r) :
    r.length ≤ cs.length := by
  rw [dropLit_eq_append h]
  simp

theorem dropLitCI_length_le {pat cs r : List Char} (h : dropLitCI pat cs = some r) :
    r.length ≤ cs.length := by
  induction pat generalizing cs with
  | nil =>
    simp only [dropLitCI] at h
    simp [← Option.some_inj.mp h]
  | cons p ps ih =>
    cases cs with
    | nil => simp [dropLitCI] at h
    | cons c cs =>
      simp only [dropLitCI] at h
      split at h
      · exact Nat.le_trans (ih h) (by simp)
      · exact absurd h (by simp)

theorem parseWsPlus_length_lt {cs r : List Char} (h : parseWsPlus cs = some r) :
    r.length < cs.length := by
  cases cs with
  | nil => simp [parseWsPlus] at h
  | cons c cs =>
    simp only [parseWsPlus] at h
    split at h
    · have : r = cs.dropWhile pyWs := by
        have := Option.some_inj.mp h
        exact this.symm
      rw [this]
      exact Nat.lt_succ_of_le (lenDropWhile_le pyWs cs)
    · exact absurd h (by simp)

theorem matchToDateCall_length_le {cs p f r : List Char}
    (h : matchToDateCall cs = some (p, f, r)) : r.length ≤ cs.length := by
  simp only [matchToDateCall] at h
  split at h
  · exact absurd h (by simp)
  next r1 h1 =>
  split at h
  · exact absurd h (by simp)
  next r2 h2 =>
  split at h
  · exact absurd h (by simp)
  split at h
  · exact absurd h (by simp)
  next r4 h4 =>
  split at h
  · exact absurd h (by simp)
  next r5 h5 =>
  split at h
  · exact absurd h (by simp)
  split at h
  · exact absurd h (by simp)
  next r6 h6 =>
  split at h
  · exact absurd h (by simp)
  next r7 h7 =>
  simp only [Option.some_inj, Prod.mk.injEq] at h
  obtain ⟨-, -, hr⟩ := h
  subst hr
  calc r7.length ≤ (r6.dropWhile pyWs).length := dropLit_length_le h7
    _ ≤ r6.length := lenDropWhile_le _ _
    _ ≤ r5.length := Nat.le_trans (dropLit_length_le h6) (lenDropWhile_le _ _)
    _ ≤ r4.length := Nat.le_trans (dropLit_length_le h5) (lenDropWhile_le _ _)
    _ ≤ r2.length :=
      Nat.le_trans (dropLit_length_le h4)
        (Nat.le_trans (lenDropWhile_le _ _) (lenDropWhile_le _ _))
    _ ≤ r1.length := Nat.le_trans (dropLit_length_le h2) (lenDropWhile_le _ _)
    _ ≤ cs.length := dropLitCI_length_le h1

theorem matchToDateAt_matched {cs : List Char} {m : ToDateMatch}
    (h : matchToDateAt cs = some m) : m.matched ≠ [] ∧ m.matched <+: cs := by
  simp only [matchToDateAt] at h
  split at h
  · exact absurd h (by simp)
  next hfe =>
  split at h
  · exact absurd h (by simp)
  next r1 h1 =>
  split at h
  · exact absurd h (by simp)
  next r3 h3 =>
  split at h
  · exact absurd h (by simp)
  next r4 h4 =>
  split at h
  · exact absurd h (by simp)
  next p1 f1 r5 h5 =>
  split at h
  · exact absurd h (by simp)
  next r6 h6 =>
  split at h
  · exact absurd h (by simp)
  next r7 h7 =>
  split at h
  · exact absurd h (by simp)
  next r8 h8 =>
  split at h
  · exact absurd h (by simp)
  next p2 f2 r9 h9 =>
  have hm : m.matched = cs.take (cs.length - r9.length) := by
    rw [← Option.some_inj.mp h]
  have hwsne : cs ≠ [] := by
    intro hnil
    rw [hnil] at hfe
    simp [List.takeWhile] at hfe
  have hr1 : r1.length < cs.length :=
    Nat.lt_of_lt_of_le (parseWsPlus_length_lt h1) (lenDropWhile_le _ _)
  have hr2 : (match dropLitCI ['n','o','t'] r1 with
      | some rn => (match parseWsPlus rn with | some rn2 => rn2 | Option.none => r1)
      | Option.none => r1).length ≤ r1.length := by
    split
    · next rn hrn =>
      split
      · next rn2 hrn2 =>
        exact Nat.le_trans (Nat.le_of_lt (parseWsPlus_length_lt hrn2))
          (dropLitCI_length_le hrn)
      · exact Nat.le_refl _
    · exact Nat.le_refl _
  have hr9 : r9.length < cs.length := by
    have c1 : r9.length ≤ r8.length := matchToDateCall_length_le h9
    have c2 : r8.length < r7.length := parseWsPlus_length_lt h8
    have c3 : r7.length ≤ r6.length := dropLitCI_length_le h7
    have c4 : r6.length < r5.length := parseWsPlus_length_lt h6
    have c5 : r5.length ≤ r4.length := matchToDateCall_length_le h5
    have c6 : r4.length < r3.length := parseWsPlus_length_lt h4
    have c7 : r3.length ≤ r1.length := by
      have := dropLitCI_length_le h3
      exact Nat.le_trans this hr2
    omega
  constructor
  · rw [hm]
    intro hnil
    rcases List.take_eq_nil_iff.mp hnil with h0 | h0
    · omega
    · exact hwsne h0
  · rw [hm]
    exact List.take_prefix _ _

theorem searchToDate_matched {cs : List Char} {m : ToDateMatch}
    (h : searchToDate cs = some m) :
    m.matched ≠ [] ∧ containsSub m.matched cs = true := by
  induction cs with
  | nil => simp [searchToDate] at h
  | cons c cs ih =>
    simp only [searchToDate] at h
    split at h
    · next m0 hm0 =>
      rcases Option.some_inj.mp h with rfl
      rcases matchToDateAt_matched hm0 with ⟨hne, hpre⟩
      rcases hpre with ⟨t, ht⟩
      exact ⟨hne, @containsSub_of_decomp _ hne _ [] t (by simp [ht])⟩
    · rcases ih h with ⟨hne, hsub⟩
      refine ⟨hne, ?_⟩
      simp only [containsSub, Bool.or_eq_true]
      exact Or.inr hsub

theorem removeAllGo_length_le (pat : List Char) :
    ∀ (fuel : Nat) (cs : List Char), (removeAllGo pat fuel cs).length ≤ cs.length := by
  intro fuel
  induction fuel with
  | zero => intro cs; exact Nat.le_refl _
  | succ fuel ih =>
    intro cs
    cases cs with
    | nil => simp [removeAllGo]
    | cons c cs =>
      simp only [removeAllGo]
      split
      · next rest hrest =>
        exact Nat.le_trans (ih rest) (dropLit_length_le hrest)
      · simpa using ih cs

theorem removeAllGo_length_lt {pat : List Char} (hne : pat ≠ []) :
    ∀ (fuel : Nat) (cs : List Char), cs.length ≤ fuel →
      containsSub pat cs = true → (removeAllGo pat fuel cs).length < cs.length := by
  intro fuel
  induction fuel with
  | zero =>
    intro cs hlen hc
    have : cs = [] := List.length_eq_zero.mp (Nat.le_zero.mp hlen)
    rw [this] at hc
    simp [containsSub] at hc
  | succ fuel ih =>
    intro cs hlen hc
    cases cs with
    | nil => simp [containsSub] at hc
    | cons c cs =>
      simp only [removeAllGo]
      split
      · next rest hrest =>
        have h1 : (removeAllGo pat fuel rest).length ≤ rest.length :=
          removeAllGo_length_le pat fuel rest
        have h2 : (c :: cs).length = pat.length + rest.length := by
          rw [dropLit_eq_append hrest]
          simp
        have h3 : 1 ≤ pat.length := by
          cases pat with
          | nil => exact absurd rfl hne
          | cons p ps => simp
        omega
      · next hno =>
        simp only [containsSub, Bool.or_eq_true] at hc
        rcases hc with hc | hc
        · exfalso
          simp only [isPrefixOfB] at hc
          rw [hno] at hc
          simp at hc
        · have := ih cs (by simpa using Nat.le_of_succ_le_succ hlen) hc
          simpa using Nat.succ_lt_succ this

theorem pyStrip_length_le (cs : List Char) : (pyStrip cs).length ≤ cs.length := by
  unfold pyStrip
  calc ((cs.dropWhile pyWs).reverse.dropWhile pyWs).reverse.length
      = ((cs.dropWhile pyWs).reverse.dropWhile pyWs).length := List.length_reverse _
    _ ≤ (cs.dropWhile pyWs).reverse.length := lenDropWhile_le _ _
    _ = (cs.dropWhile pyWs).length := List.length_reverse _
    _ ≤ cs.length := lenDropWhile_le _ _

theorem stripWherePrefix_length_le (cs : List Char) :
    (stripWherePrefix cs).length ≤ cs.length := by
  simp only [stripWherePrefix]
  split
  · next c r2 hdrop =>
    split
    · calc (r2.dropWhile pyWs).length
          ≤ r2.length := lenDropWhile_le _ _
        _ ≤ (c :: r2).length := by simp
        _ ≤ (cs.dropWhile pyWs).length := by
            have := dropLitCI_length_le hdrop
            exact this
        _ ≤ cs.length := lenDropWhile_le _ _
    · exact Nat.le_refl _
  · exact Nat.le_refl _

theorem extractGo_fuel_irrel :
    ∀ (n f1 f2 : Nat) (cs : List Char), cs.length ≤ n →
      cs.length < f1 → cs.length < f2 → extractGo f1 cs = extractGo f2 cs := by
  intro n
  induction n with
  | zero =>
    intro f1 f2 cs hn h1 h2
    have hcs : cs = [] := List.length_eq_zero.mp (Nat.le_zero.mp hn)
    subst hcs
    cases f1 with
    | zero => omega
    | succ a =>
      cases f2 with
      | zero => omega
      | succ b => rfl
  | succ n ih =>
    intro f1 f2 cs hn h1 h2
    cases f1 with
    | zero => omega
    | succ a =>
      cases f2 with
      | zero => omega
      | succ b =>
        simp only [extractGo]
        cases hs : searchToDate (stripWherePrefix cs) with
        | none => rfl
        | some m =>
          rcases searchToDate_matched hs with ⟨hmne, hmsub⟩
          have hrem : (removeAll m.matched (stripWherePrefix cs)).length < cs.length := by
            have := removeAllGo_length_lt hmne
              ((stripWherePrefix cs).length + 1) (stripWherePrefix cs)
              (Nat.le_succ _) hmsub
            have hsl := stripWherePrefix_length_le cs
            simp only [removeAll]
            omega
          have hrem2 :
              (if isPrefixOfB ['A','N','D',' ']
                  (pyStrip (removeAll m.matched (stripWherePrefix cs))) then
                (pyStrip (removeAll m.matched (stripWherePrefix cs))).drop 4
              else if isPrefixOfB ['O','R',' ']
                  (pyStrip (removeAll m.matched (stripWherePrefix cs))) then
                (pyStrip (removeAll m.matched (stripWherePrefix cs))).drop 3
              else removeAll m.matched (stripWherePrefix cs)).length < cs.length := by
            have hps := pyStrip_length_le (removeAll m.matched (stripWherePrefix cs))
            split
            · have := List.length_drop 4
                (pyStrip (removeAll m.matched (stripWherePrefix cs)))
              omega
            · split
              · have := List.length_drop 3
                  (pyStrip (removeAll m.matched (stripWherePrefix cs)))
                omega
              · exact hrem
          have hrec :
              extractGo a
                (if isPrefixOfB ['A','N','D',' ']
                    (pyStrip (removeAll m.matched (stripWherePrefix cs))) then
                  (pyStrip (removeAll m.matched (stripWherePrefix cs))).drop 4
                else if isPrefixOfB ['O','R',' ']
                    (pyStrip (removeAll m.matched (stripWherePrefix cs))) then
                  (pyStrip (removeAll m.matched (stripWherePrefix cs))).drop 3
                else removeAll m.matched (stripWherePrefix cs)) =
              extractGo b
                (if isPrefixOfB ['A','N','D',' ']
                    (pyStrip (removeAll m.matched (stripWherePrefix cs))) then
                  (pyStrip (removeAll m.matched (stripWherePrefix cs))).drop 4
                else if isPrefixOfB ['O','R',' ']
                    (pyStrip (removeAll m.matched (stripWherePrefix cs))) then
                  (pyStrip (removeAll m.matched (stripWherePrefix cs))).drop 3
                else removeAll m.matched (stripWherePrefix cs)) :=
            ih a b _ (by omega) (by omega) (by omega)
          simp only [hrec]

theorem matchToDateCall_render {p f rest : List Char} (hp : p ≠ [])
    (hpc : ∀ c ∈ p, pyWs c = false ∧ c ≠ ',' ∧ c ≠ ')')
    (hf : f ≠ []) (hfc : ∀ c ∈ f, c ≠ '\'') :
    matchToDateCall
      ('t':: 'o':: '_':: 'd':: 'a':: 't':: 'e':: '('::
        (p ++ ',' :: ' ' :: '\'' :: (f ++ '\'' :: ')' :: rest))) =
      some (p, f, rest) := by
  rcases p with _ | ⟨c, p'⟩
  · exact absurd rfl hp
  rcases f with _ | ⟨d, f'⟩
  · exact absurd rfl hf
  have hpred : ∀ x ∈ c :: p', (decide (x ≠ ',') && decide (x ≠ ')')) = true := by
    intro x hx
    rcases hpc x hx with ⟨-, h1, h2⟩
    simp [h1, h2]
  have h1 : dropLitCI ['t','o','_','d','a','t','e']
      ('t':: 'o':: '_':: 'd':: 'a':: 't':: 'e':: '('::
        ((c :: p') ++ ',' :: ' ' :: '\'' :: ((d :: f') ++ '\'' :: ')' :: rest))) =
      some ('('::((c :: p') ++ ',' :: ' ' :: '\'' :: ((d :: f') ++ '\'' :: ')' :: rest))) :=
    rfl
  have h2 : (('('::((c :: p') ++ ',' :: ' ' :: '\'' ::
      ((d :: f') ++ '\'' :: ')' :: rest))).dropWhile pyWs) =
      '('::((c :: p') ++ ',' :: ' ' :: '\'' :: ((d :: f') ++ '\'' :: ')' :: rest)) := rfl
  have h3 : dropLit ['(']
      ('('::((c :: p') ++ ',' :: ' ' :: '\'' :: ((d :: f') ++ '\'' :: ')' :: rest))) =
      some ((c :: p') ++ ',' :: ' ' :: '\'' :: ((d :: f') ++ '\'' :: ')' :: rest)) := rfl
  have h4 : (((c :: p') ++ ',' :: ' ' :: '\'' ::
      ((d :: f') ++ '\'' :: ')' :: rest)).dropWhile pyWs) =
      (c :: p') ++ ',' :: ' ' :: '\'' :: ((d :: f') ++ '\'' :: ')' :: rest) := by
    rw [List.cons_append]
    exact dropWhile_cons_of_false _ (hpc c (List.mem_cons_self c p')).1
  have h5 : (((c :: p') ++ ',' :: ' ' :: '\'' ::
      ((d :: f') ++ '\'' :: ')' :: rest)).takeWhile
        (fun x => decide (x ≠ ',') && decide (x ≠ ')'))) = c :: p' :=
    takeWhile_append_cons _ _ _ hpred (by simp)
  have h6 : (((c :: p') ++ ',' :: ' ' :: '\'' ::
      ((d :: f') ++ '\'' :: ')' :: rest)).dropWhile
        (fun x => decide (x ≠ ',') && decide (x ≠ ')'))) =
      ',' :: ' ' :: '\'' :: ((d :: f') ++ '\'' :: ')' :: rest) :=
    dropWhile_append_cons _ _ _ hpred (by simp)
  have h7 : ((d :: f') ++ '\'' :: ')' :: rest).takeWhile (fun x => decide (x ≠ '\'')) =
      d :: f' :=
    takeWhile_append_cons _ _ _ (fun x hx => by simp [hfc x hx]) (by simp)
  have h8 : ((d :: f') ++ '\'' :: ')' :: rest).dropWhile (fun x => decide (x ≠ '\'')) =
      '\'' :: ')' :: rest :=
    dropWhile_append_cons _ _ _ (fun x hx => by simp [hfc x hx]) (by simp)
  have h6b : dropLit [','] (',' :: ' ' :: '\'' :: ((d :: f') ++ '\'' :: ')' :: rest)) =
      some (' ' :: '\'' :: ((d :: f') ++ '\'' :: ')' :: rest)) := rfl
  have h6c : (' ' :: '\'' :: ((d :: f') ++ '\'' :: ')' :: rest)).dropWhile pyWs =
      '\'' :: ((d :: f') ++ '\'' :: ')' :: rest) := rfl
  have h6d : dropLit ['\''] ('\'' :: ((d :: f') ++ '\'' :: ')' :: rest)) =
      some ((d :: f') ++ '\'' :: ')' :: rest) := rfl
  have h9 : dropLit ['\''] ('\'' :: ')' :: rest) = some (')' :: rest) := rfl
  have h10 : (')' :: rest).dropWhile pyWs = ')' :: rest := rfl
  have h11 : dropLit [')'] (')' :: rest) = some rest := rfl
  have hE1 : (c :: p').isEmpty = false := rfl
  have hE2 : (d :: f').isEmpty = false := rfl
  simp only [matchToDateCall, h1, h2, h3, h4, h5, h6, h6b, h6c, h6d, h7, h8, h9, h10,
    h11, hE1, hE2, Bool.false_eq_true, if_false]

theorem renderToDate_readable (field p1 f1 p2 f2 : List Char) :
    renderToDate false field p1 f1 p2 f2 =
      field ++ " BETWEEN to_date(".toList ++ p1 ++ ", '".toList ++ f1 ++
        "') AND to_date(".toList ++ p2 ++ ", '".toList ++ f2 ++ "')".toList ∧
    renderToDate true field p1 f1 p2 f2 =
      field ++ " NOT BETWEEN to_date(".toList ++ p1 ++ ", '".toList ++ f1 ++
        "') AND to_date(".toList ++ p2 ++ ", '".toList ++ f2 ++ "')".toList := by
  constructor <;> simp [renderToDate, renderToDateT, toDateCall]

theorem renderToDateT_append (neg : Bool) (field p1 f1 p2 f2 tail : List Char) :
    renderToDateT neg field p1 f1 p2 f2 tail =
      renderToDate neg field p1 f1 p2 f2 ++ tail := by
  simp [renderToDate, renderToDateT, toDateCall]

theorem matchToDateAt_render (neg : Bool) {field p1 f1 p2 f2 tail : List Char}
    (hfne : field ≠ []) (hfws : ∀ c ∈ field, pyWs c = false)
    (hp1 : p1 ≠ []) (hp1c : ∀ c ∈ p1, pyWs c = false ∧ c ≠ ',' ∧ c ≠ ')')
    (hf1 : f1 ≠ []) (hf1c : ∀ c ∈ f1, c ≠ '\'')
    (hp2 : p2 ≠ []) (hp2c : ∀ c ∈ p2, pyWs c = false ∧ c ≠ ',' ∧ c ≠ ')')
    (hf2 : f2 ≠ []) (hf2c : ∀ c ∈ f2, c ≠ '\'') :
    matchToDateAt (renderToDateT neg field p1 f1 p2 f2 tail) =
      some { matched := renderToDate neg field p1 f1 p2 f2,
             field := field, p1 := p1, f1 := f1, p2 := p2, f2 := f2 } := by
  rcases hfield : field with _ | ⟨a, field'⟩
  · exact absurd hfield hfne
  subst hfield
  have hmatched :
      (renderToDateT neg (a :: field') p1 f1 p2 f2 tail).take
        ((renderToDateT neg (a :: field') p1 f1 p2 f2 tail).length - tail.length) =
      renderToDate neg (a :: field') p1 f1 p2 f2 := by
    rw [renderToDateT_append]
    have : (renderToDate neg (a :: field') p1 f1 p2 f2 ++ tail).length - tail.length =
        (renderToDate neg (a :: field') p1 f1 p2 f2).length := by
      simp
    rw [this, List.take_left]
  have hnotws : ∀ c ∈ (a :: field'), notWs c = true := by
    intro c hc
    simp [notWs, hfws c hc]
  cases neg with
  | false =>
    have hA : (renderToDateT false (a :: field') p1 f1 p2 f2 tail).takeWhile notWs =
        a :: field' := takeWhile_append_cons _ _ _ hnotws (by simp [notWs, pyWs])
    have hB : (renderToDateT false (a :: field') p1 f1 p2 f2 tail).dropWhile notWs =
        ' ' :: ('B':: 'E':: 'T':: 'W':: 'E':: 'E':: 'N':: ' '::
          toDateCall p1 f1 (' ':: 'A':: 'N':: 'D':: ' ':: toDateCall p2 f2 tail)) := by
      have := dropWhile_append_cons (p := notWs) (a :: field')
        ' ' (('B':: 'E':: 'T':: 'W':: 'E':: 'E':: 'N':: ' '::
          toDateCall p1 f1 (' ':: 'A':: 'N':: 'D':: ' ':: toDateCall p2 f2 tail)))
        hnotws (by simp [notWs, pyWs])
      simpa [renderToDateT] using this
    have hC : parseWsPlus (' ' :: ('B':: 'E':: 'T':: 'W':: 'E':: 'E':: 'N':: ' '::
        toDateCall p1 f1 (' ':: 'A':: 'N':: 'D':: ' ':: toDateCall p2 f2 tail))) =
        some ('B':: 'E':: 'T':: 'W':: 'E':: 'E':: 'N':: ' '::
          toDateCall p1 f1 (' ':: 'A':: 'N':: 'D':: ' ':: toDateCall p2 f2 tail)) := rfl
    have hE : dropLitCI ['n','o','t'] ('B':: 'E':: 'T':: 'W':: 'E':: 'E':: 'N':: ' '::
        toDateCall p1 f1 (' ':: 'A':: 'N':: 'D':: ' ':: toDateCall p2 f2 tail)) =
        Option.none := rfl
    have hF : dropLitCI ['b','e','t','w','e','e','n']
        ('B':: 'E':: 'T':: 'W':: 'E':: 'E':: 'N':: ' '::
          toDateCall p1 f1 (' ':: 'A':: 'N':: 'D':: ' ':: toDateCall p2 f2 tail)) =
        some (' ' :: toDateCall p1 f1 (' ':: 'A':: 'N':: 'D':: ' ':: toDateCall p2 f2 tail)) :=
      rfl
    have hG : parseWsPlus (' ' :: toDateCall p1 f1
        (' ':: 'A':: 'N':: 'D':: ' ':: toDateCall p2 f2 tail)) =
        some (toDateCall p1 f1 (' ':: 'A':: 'N':: 'D':: ' ':: toDateCall p2 f2 tail)) := rfl
    have hH : matchToDateCall (toDateCall p1 f1
        (' ':: 'A':: 'N':: 'D':: ' ':: toDateCall p2 f2 tail)) =
        some (p1, f1, ' ':: 'A':: 'N':: 'D':: ' ':: toDateCall p2 f2 tail) :=
      matchToDateCall_render hp1 hp1c hf1 hf1c
    have hI : parseWsPlus (' ':: 'A':: 'N':: 'D':: ' ':: toDateCall p2 f2 tail) =
        some ('A':: 'N':: 'D':: ' ':: toDateCall p2 f2 tail) := rfl
    have hJ : dropLitCI ['a','n','d'] ('A':: 'N':: 'D':: ' ':: toDateCall p2 f2 tail) =
        some (' ' :: toDateCall p2 f2 tail) := rfl
    have hK : parseWsPlus (' ' :: toDateCall p2 f2 tail) =
        some (toDateCall p2 f2 tail) := rfl
    have hL : matchToDateCall (toDateCall p2 f2 tail) = some (p2, f2, tail) :=
      matchToDateCall_render hp2 hp2c hf2 hf2c
    have hEm : (a :: field').isEmpty = false := rfl
    simp only [matchToDateAt, hA, hB, hC, hE, hF, hG, hH, hI, hJ, hK, hL, hEm,
      Bool.false_eq_true, if_false, hmatched]
  | true =>
    have hA : (renderToDateT true (a :: field') p1 f1 p2 f2 tail).takeWhile notWs =
        a :: field' := takeWhile_append_cons _ _ _ hnotws (by simp [notWs, pyWs])
    have hB : (renderToDateT true (a :: field') p1 f1 p2 f2 tail).dropWhile notWs =
        ' ' :: ('N':: 'O':: 'T':: ' ':: 'B':: 'E':: 'T':: 'W':: 'E':: 'E':: 'N':: ' '::
          toDateCall p1 f1 (' ':: 'A':: 'N':: 'D':: ' ':: toDateCall p2 f2 tail)) := by
      have := dropWhile_append_cons (p := notWs) (a :: field')
        ' ' (('N':: 'O':: 'T':: ' ':: 'B':: 'E':: 'T':: 'W':: 'E':: 'E':: 'N':: ' '::
          toDateCall p1 f1 (' ':: 'A':: 'N':: 'D':: ' ':: toDateCall p2 f2 tail)))
        hnotws (by simp [notWs, pyWs])
      simpa [renderToDateT] using this
    have hC : parseWsPlus (' ' :: ('N':: 'O':: 'T':: ' ':: 'B':: 'E':: 'T':: 'W':: 'E':: 'E':: 'N':: ' '::
        toDateCall p1 f1 (' ':: 'A':: 'N':: 'D':: ' ':: toDateCall p2 f2 tail))) =
        some ('N':: 'O':: 'T':: ' ':: 'B':: 'E':: 'T':: 'W':: 'E':: 'E':: 'N':: ' '::
          toDateCall p1 f1 (' ':: 'A':: 'N':: 'D':: ' ':: toDateCall p2 f2 tail)) := rfl
    have hE : dropLitCI ['n','o','t'] ('N':: 'O':: 'T':: ' ':: 'B':: 'E':: 'T':: 'W':: 'E':: 'E':: 'N':: ' '::
        toDateCall p1 f1 (' ':: 'A':: 'N':: 'D':: ' ':: toDateCall p2 f2 tail)) =
        some (' ':: 'B':: 'E':: 'T':: 'W':: 'E':: 'E':: 'N':: ' '::
          toDateCall p1 f1 (' ':: 'A':: 'N':: 'D':: ' ':: toDateCall p2 f2 tail)) := rfl
    have hE2 : parseWsPlus (' ':: 'B':: 'E':: 'T':: 'W':: 'E':: 'E':: 'N':: ' '::
        toDateCall p1 f1 (' ':: 'A':: 'N':: 'D':: ' ':: toDateCall p2 f2 tail)) =
        some ('B':: 'E':: 'T':: 'W':: 'E':: 'E':: 'N':: ' '::
          toDateCall p1 f1 (' ':: 'A':: 'N':: 'D':: ' ':: toDateCall p2 f2 tail)) := rfl
    have hF : dropLitCI ['b','e','t','w','e','e','n']
        ('B':: 'E':: 'T':: 'W':: 'E':: 'E':: 'N':: ' '::
          toDateCall p1 f1 (' ':: 'A':: 'N':: 'D':: ' ':: toDateCall p2 f2 tail)) =
        some (' ' :: toDateCall p1 f1 (' ':: 'A':: 'N':: 'D':: ' ':: toDateCall p2 f2 tail)) :=
      rfl
    have hG : parseWsPlus (' ' :: toDateCall p1 f1
        (' ':: 'A':: 'N':: 'D':: ' ':: toDateCall p2 f2 tail)) =
        some (toDateCall p1 f1 (' ':: 'A':: 'N':: 'D':: ' ':: toDateCall p2 f2 tail)) := rfl
    have hH : matchToDateCall (toDateCall p1 f1
        (' ':: 'A':: 'N':: 'D':: ' ':: toDateCall p2 f2 tail)) =
        some (p1, f1, ' ':: 'A':: 'N':: 'D':: ' ':: toDateCall p2 f2 tail) :=
      matchToDateCall_render hp1 hp1c hf1 hf1c
    have hI : parseWsPlus (' ':: 'A':: 'N':: 'D':: ' ':: toDateCall p2 f2 tail) =
        some ('A':: 'N':: 'D':: ' ':: toDateCall p2 f2 tail) := rfl
    have hJ : dropLitCI ['a','n','d'] ('A':: 'N':: 'D':: ' ':: toDateCall p2 f2 tail) =
        some (' ' :: toDateCall p2 f2 tail) := rfl
    have hK : parseWsPlus (' ' :: toDateCall p2 f2 tail) =
        some (toDateCall p2 f2 tail) := rfl
    have hL : matchToDateCall (toDateCall p2 f2 tail) = some (p2, f2, tail) :=
      matchToDateCall_render hp2 hp2c hf2 hf2c
    have hEm : (a :: field').isEmpty = false := rfl
    simp only [matchToDateAt, hA, hB, hC, hE, hE2, hF, hG, hH, hI, hJ, hK, hL, hEm,
      Bool.false_eq_true, if_false, hmatched]

theorem searchToDate_of_matchAt {cs : List Char} {m : ToDateMatch}
    (hne : cs ≠ []) (h : matchToDateAt cs = some m) : searchToDate cs = some m := by
  cases cs with
  | nil => exact absurd rfl hne
  | cons c cs => simp [searchToDate, h]

theorem lcChar_ws {c : Char} : pyWs (lcChar c) = pyWs c := by
  unfold lcChar
  split <;> rfl

theorem ciEq_ws {p c : Char} (h : ciEq p c = true) : pyWs p = pyWs c := by
  have hl := ciEq_lc h
  rw [← lcChar_ws (c := p), ← lcChar_ws (c := c), hl]

theorem dropLitCI_wsfree_append {pat : List Char} (hpat : ∀ c ∈ pat, pyWs c = false) :
    ∀ {field rest r : List Char}, (∀ c ∈ field, pyWs c = false) →
      dropLitCI pat (field ++ ' ' :: rest) = some r →
      (r = [] ∨ pyWs r.headI = false) ∨ lcStr field = lcStr pat := by
  induction pat with
  | nil =>
    intro field rest r hf h
    simp only [dropLitCI, Option.some_inj] at h
    subst h
    cases field with
    | nil => exact Or.inr rfl
    | cons c cf => exact Or.inl (Or.inr (by simpa using hf c (List.mem_cons_self c cf)))
  | cons p ps ih =>
    intro field rest r hf h
    cases field with
    | nil =>
      simp only [List.nil_append, dropLitCI] at h
      split at h
      · next hci =>
        exfalso
        have := ciEq_ws hci
        have hp := hpat p (List.mem_cons_self p ps)
        rw [hp] at this
        simp [pyWs] at this
      · exact absurd h (by simp)
    | cons c cf =>
      simp only [List.cons_append, dropLitCI] at h
      split at h
      · next hci =>
        rcases ih (fun x hx => hpat x (List.mem_cons_of_mem _ hx))
            (fun x hx => hf x (List.mem_cons_of_mem _ hx)) h with hr | hr
        · exact Or.inl hr
        · refine Or.inr ?_
          simp only [lcStr] at hr ⊢
          simp only [List.map_cons]
          rw [hr, ciEq_lc hci]
      · exact absurd h (by simp)

theorem stripWherePrefix_eq_self {field rest : List Char} (hne : field ≠ [])
    (hf : ∀ c ∈ field, pyWs c = false) (hw : lcStr field ≠ ['w','h','e','r','e']) :
    stripWherePrefix (field ++ ' ' :: rest) = field ++ ' ' :: rest := by
  have hdrop : (field ++ ' ' :: rest).dropWhile pyWs = field ++ ' ' :: rest := by
    cases field with
    | nil => exact absurd rfl hne
    | cons c cf =>
      rw [List.cons_append]
      exact dropWhile_cons_of_false _ (hf c (List.mem_cons_self c cf))
  simp only [stripWherePrefix, hdrop]
  split
  · next c r2 hlit =>
    rcases dropLitCI_wsfree_append (by decide) hf hlit with hr | hr
    · rcases hr with hr | hr
      · simp at hr
      · simp only [List.headI] at hr
        rw [hr]
        simp
    · exact absurd (by simpa using hr) hw
  · rfl

theorem isPrefixOfB_append_space {pat : List Char} (hsp : (' ' : Char) ∉ pat) :
    ∀ {x z : List Char}, x.length < pat.length →
      isPrefixOfB pat (x ++ ' ' :: z) = false := by
  induction pat with
  | nil => intro x z h; simp at h
  | cons p ps ih =>
    intro x z h
    cases x with
    | nil =>
      simp only [List.nil_append, isPrefixOfB, dropLit]
      have : p ≠ ' ' := fun hh => hsp (hh ▸ List.mem_cons_self p ps)
      simp [this]
    | cons c cx =>
      simp only [List.cons_append, isPrefixOfB, dropLit]
      split
      · have := ih (x := cx) (z := z)
          (fun hh => hsp (List.mem_cons_of_mem _ hh)) (by simpa using h)
        simpa [isPrefixOfB] using this
      · simp

theorem isPrefixOfB_append_long {pat : List Char} :
    ∀ {x y : List Char}, pat.length ≤ x.length →
      isPrefixOfB pat (x ++ y) = isPrefixOfB pat x := by
  induction pat with
  | nil => intro x y h; simp [isPrefixOfB, dropLit]
  | cons p ps ih =>
    intro x y h
    cases x with
    | nil => simp at h
    | cons c cx =>
      simp only [List.cons_append, isPrefixOfB, dropLit]
      split
      · have := ih (x := cx) (y := y) (by simpa using h)
        simpa [isPrefixOfB] using this
      · simp

theorem isPrefixOfB_append_space_of_not_contains {pat x z : List Char}
    (hne : pat ≠ []) (hsp : (' ' : Char) ∉ pat) (hx : containsSub pat x = false) :
    isPrefixOfB pat (x ++ ' ' :: z) = false := by
  by_cases hlen : pat.length ≤ x.length
  · rw [isPrefixOfB_append_long hlen]
    by_contra hc
    have hpre : pat <+: x := isPrefixOfB_iff_prefix.mp (by
      cases hb : isPrefixOfB pat x
      · exact absurd hb hc
      · rfl)
    rcases hpre with ⟨t, ht⟩
    rw [@containsSub_of_decomp _ hne _ [] t (by simp [ht])] at hx
    exact absurd hx (by simp)
  · exact isPrefixOfB_append_space hsp (by omega)

theorem containsSub_append_space {pat : List Char} (hne : pat ≠ [])
    (hsp : (' ' : Char) ∉ pat) :
    ∀ {x z : List Char}, containsSub pat x = false →
      containsSub pat (' ' :: z) = false → containsSub pat (x ++ ' ' :: z) = false := by
  intro x
  induction x with
  | nil => intro z _ hz; simpa using hz
  | cons c cx ih =>
    intro z hx hz
    simp only [containsSub, Bool.or_eq_false_iff] at hx
    simp only [List.cons_append, containsSub, Bool.or_eq_false_iff]
    constructor
    · have := isPrefixOfB_append_space_of_not_contains (x := c :: cx) (z := z) hne hsp
        (by simp [containsSub, hx.1, hx.2])
      simpa using this
    · exact ih hx.2 hz

theorem takeBeforeLit_append_space {pat : List Char} (hne : pat ≠ [])
    (hsp : (' ' : Char) ∉ pat) :
    ∀ {x z : List Char}, containsSub pat x = false →
      takeBeforeLit pat (x ++ ' ' :: z) = x ++ takeBeforeLit pat (' ' :: z) := by
  intro x
  induction x with
  | nil => intro z _; rfl
  | cons c cx ih =>
    intro z hx
    simp only [containsSub, Bool.or_eq_false_iff] at hx
    simp only [List.cons_append, takeBeforeLit, List.append_eq]
    have hpre := isPrefixOfB_append_space_of_not_contains hne hsp
      (x := c :: cx) (z := z) (by simp [containsSub, hx.1, hx.2])
    rw [List.cons_append] at hpre
    rw [hpre]
    simp only [Bool.false_eq_true, if_false]
    rw [ih hx.2]
    rfl

theorem notBeforeBetween_render (neg : Bool) {field p1 f1 p2 f2 : List Char}
    (hfnot : containsSub ['N','O','T'] (ucStr field) = false)
    (hfbet : containsSub ['B','E','T','W','E','E','N'] (ucStr field) = false) :
    notBeforeBetween (renderToDate neg field p1 f1 p2 f2) = neg := by
  cases neg with
  | false =>
    have hr : renderToDate false field p1 f1 p2 f2 =
        field ++ ' ' :: ('B':: 'E':: 'T':: 'W':: 'E':: 'E':: 'N':: ' '::
          toDateCall p1 f1 (' ':: 'A':: 'N':: 'D':: ' ':: toDateCall p2 f2 [])) := by
      simp [renderToDate, renderToDateT]
    have hsplit : ucStr (field ++ ' ' :: ('B':: 'E':: 'T':: 'W':: 'E':: 'E':: 'N':: ' '::
        toDateCall p1 f1 (' ':: 'A':: 'N':: 'D':: ' ':: toDateCall p2 f2 []))) =
        ucStr field ++ ' ' :: ucStr ('B':: 'E':: 'T':: 'W':: 'E':: 'E':: 'N':: ' '::
          toDateCall p1 f1 (' ':: 'A':: 'N':: 'D':: ' ':: toDateCall p2 f2 [])) := by
      simp only [ucStr, List.map_append, List.map_cons]
      rfl
    have h2 : takeBeforeLit ['B','E','T','W','E','E','N']
        (ucStr field ++ ' ' :: ucStr ('B':: 'E':: 'T':: 'W':: 'E':: 'E':: 'N':: ' '::
          toDateCall p1 f1 (' ':: 'A':: 'N':: 'D':: ' ':: toDateCall p2 f2 []))) =
        ucStr field ++ takeBeforeLit ['B','E','T','W','E','E','N']
          (' ' :: ucStr ('B':: 'E':: 'T':: 'W':: 'E':: 'E':: 'N':: ' '::
            toDateCall p1 f1 (' ':: 'A':: 'N':: 'D':: ' ':: toDateCall p2 f2 []))) :=
      takeBeforeLit_append_space (by decide) (by decide) hfbet
    have h3 : takeBeforeLit ['B','E','T','W','E','E','N']
        (' ' :: ucStr ('B':: 'E':: 'T':: 'W':: 'E':: 'E':: 'N':: ' '::
          toDateCall p1 f1 (' ':: 'A':: 'N':: 'D':: ' ':: toDateCall p2 f2 []))) = [' '] := rfl
    have h4 : containsSub ['N','O','T'] (ucStr field ++ ' ' :: ([] : List Char)) = false :=
      containsSub_append_space (by decide) (by decide) hfnot (by decide)
    unfold notBeforeBetween
    rw [hr, hsplit, h2, h3]
    simpa using h4
  | true =>
    have hr : renderToDate true field p1 f1 p2 f2 =
        field ++ ' ' :: ('N':: 'O':: 'T':: ' ':: 'B':: 'E':: 'T':: 'W':: 'E':: 'E':: 'N':: ' '::
          toDateCall p1 f1 (' ':: 'A':: 'N':: 'D':: ' ':: toDateCall p2 f2 [])) := by
      simp [renderToDate, renderToDateT]
    have hsplit : ucStr (field ++ ' ' :: ('N':: 'O':: 'T':: ' ':: 'B':: 'E':: 'T':: 'W':: 'E':: 'E':: 'N':: ' '::
        toDateCall p1 f1 (' ':: 'A':: 'N':: 'D':: ' ':: toDateCall p2 f2 []))) =
        ucStr field ++ ' ' :: ucStr ('N':: 'O':: 'T':: ' ':: 'B':: 'E':: 'T':: 'W':: 'E':: 'E':: 'N':: ' '::
          toDateCall p1 f1 (' ':: 'A':: 'N':: 'D':: ' ':: toDateCall p2 f2 [])) := by
      simp only [ucStr, List.map_append, List.map_cons]
      rfl
    have h2 : takeBeforeLit ['B','E','T','W','E','E','N']
        (ucStr field ++ ' ' :: ucStr ('N':: 'O':: 'T':: ' ':: 'B':: 'E':: 'T':: 'W':: 'E':: 'E':: 'N':: ' '::
          toDateCall p1 f1 (' ':: 'A':: 'N':: 'D':: ' ':: toDateCall p2 f2 []))) =
        ucStr field ++ takeBeforeLit ['B','E','T','W','E','E','N']
          (' ' :: ucStr ('N':: 'O':: 'T':: ' ':: 'B':: 'E':: 'T':: 'W':: 'E':: 'E':: 'N':: ' '::
            toDateCall p1 f1 (' ':: 'A':: 'N':: 'D':: ' ':: toDateCall p2 f2 []))) :=
      takeBeforeLit_append_space (by decide) (by decide) hfbet
    have h3 : takeBeforeLit ['B','E','T','W','E','E','N']
        (' ' :: ucStr ('N':: 'O':: 'T':: ' ':: 'B':: 'E':: 'T':: 'W':: 'E':: 'E':: 'N':: ' '::
          toDateCall p1 f1 (' ':: 'A':: 'N':: 'D':: ' ':: toDateCall p2 f2 []))) =
        [' ','N','O','T',' '] := rfl
    have h4 : containsSub ['N','O','T'] (ucStr field ++ [' ','N','O','T',' ']) = true :=
      @containsSub_of_decomp _ (by decide) _ (ucStr field ++ [' ']) [' '] (by simp)
    unfold notBeforeBetween
    rw [hr, hsplit, h2, h3, h4]

theorem removeAll_self_append {pat tail : List Char} (hp : pat ≠ [])
    (ht : containsSub pat tail = false) : removeAll pat (pat ++ tail) = tail := by
  cases pat with
  | nil => exact absurd rfl hp
  | cons p ps =>
    have hd : dropLit (p :: ps) (p :: (ps ++ tail)) = some tail := by
      have := dropLit_self_append (p :: ps) tail
      simpa using this
    simp only [removeAll, List.cons_append, List.length_cons, List.append_eq, removeAllGo, hd]
    exact removeAllGo_no_occurrence _ _ ht

theorem toDateCondition_render (cid : Nat) (neg : Bool) {field p1 f1 p2 f2 : List Char}
    (hfws : ∀ c ∈ field, pyWs c = false)
    (hp1c : ∀ c ∈ p1, pyWs c = false) (hf1c : ∀ c ∈ f1, pyWs c = false)
    (hp2c : ∀ c ∈ p2, pyWs c = false) (hf2c : ∀ c ∈ f2, pyWs c = false) :
    toDateCondition cid neg
      { matched := renderToDate neg field p1 f1 p2 f2,
        field := field, p1 := p1, f1 := f1, p2 := p2, f2 := f2 } =
      toDateIdiomCondition cid neg field p1 f1 p2 f2 := by
  simp only [toDateCondition, toDateIdiomCondition, pyStrip_eq_self hfws,
    pyStrip_eq_self hp1c, pyStrip_eq_self hf1c, pyStrip_eq_self hp2c,
    pyStrip_eq_self hf2c]

theorem extract_toDate_alone (neg : Bool) (field p1 f1 p2 f2 : List Char) (fq : String)
    (hfne : field ≠ []) (hfws : ∀ c ∈ field, pyWs c = false)
    (hfnot : containsSub ['N','O','T'] (ucStr field) = false)
    (hfbet : containsSub ['B','E','T','W','E','E','N'] (ucStr field) = false)
    (hfwh : lcStr field ≠ ['w','h','e','r','e'])
    (hp1 : p1 ≠ []) (hp1c : ∀ c ∈ p1, pyWs c = false ∧ c ≠ ',' ∧ c ≠ ')')
    (hf1 : f1 ≠ []) (hf1c : ∀ c ∈ f1, pyWs c = false ∧ c ≠ '\'')
    (hp2 : p2 ≠ []) (hp2c : ∀ c ∈ p2, pyWs c = false ∧ c ≠ ',' ∧ c ≠ ')')
    (hf2 : f2 ≠ []) (hf2c : ∀ c ∈ f2, pyWs c = false ∧ c ≠ '\'') :
    extract_conditions ⟨renderToDate neg field p1 f1 p2 f2⟩ fq =
      [toDateIdiomCondition 0 neg field p1 f1 p2 f2] := by
  have hstart : extract_conditions ⟨renderToDate neg field p1 f1 p2 f2⟩ fq =
      extractGo ((renderToDate neg field p1 f1 p2 f2).length + 1)
        (renderToDate neg field p1 f1 p2 f2) := rfl
  have hshape : renderToDate neg field p1 f1 p2 f2 =
      field ++ ' ' :: ((if neg then ['N','O','T',' '] else []) ++
        ('B':: 'E':: 'T':: 'W':: 'E':: 'E':: 'N':: ' '::
          toDateCall p1 f1 (' ':: 'A':: 'N':: 'D':: ' ':: toDateCall p2 f2 []))) := rfl
  have hstrip : stripWherePrefix (renderToDate neg field p1 f1 p2 f2) =
      renderToDate neg field p1 f1 p2 f2 := by
    rw [hshape]
    exact stripWherePrefix_eq_self hfne hfws hfwh
  have hmatch : matchToDateAt (renderToDate neg field p1 f1 p2 f2) =
      some { matched := renderToDate neg field p1 f1 p2 f2,
             field := field, p1 := p1, f1 := f1, p2 := p2, f2 := f2 } :=
    matchToDateAt_render neg hfne hfws hp1 hp1c hf1 (fun c hc => (hf1c c hc).2)
      hp2 hp2c hf2 (fun c hc => (hf2c c hc).2)
  have hne : renderToDate neg field p1 f1 p2 f2 ≠ [] := by
    rw [hshape]
    cases field with
    | nil => exact absurd rfl hfne
    | cons a l => simp
  have hsearch : searchToDate (renderToDate neg field p1 f1 p2 f2) =
      some { matched := renderToDate neg field p1 f1 p2 f2,
             field := field, p1 := p1, f1 := f1, p2 := p2, f2 := f2 } :=
    searchToDate_of_matchAt hne hmatch
  have hrm : removeAll (renderToDate neg field p1 f1 p2 f2)
      (renderToDate neg field p1 f1 p2 f2) = [] := by
    have := @removeAll_self_append (renderToDate neg field p1 f1 p2 f2) [] hne rfl
    simpa using this
  have hnbb : notBeforeBetween (renderToDate neg field p1 f1 p2 f2) = neg :=
    notBeforeBetween_render neg hfnot hfbet
  have hcond : toDateCondition 0 neg
      { matched := renderToDate neg field p1 f1 p2 f2,
        field := field, p1 := p1, f1 := f1, p2 := p2, f2 := f2 } =
      toDateIdiomCondition 0 neg field p1 f1 p2 f2 :=
    toDateCondition_render 0 neg hfws (fun c hc => (hp1c c hc).1)
      (fun c hc => (hf1c c hc).1) (fun c hc => (hp2c c hc).1) (fun c hc => (hf2c c hc).1)
  rw [hstart]
  simp only [extractGo, hstrip, hsearch, hrm, hnbb, hcond]
  rfl

theorem extractGo_succ (fuel : Nat) (wc0 : List Char) :
    extractGo (fuel + 1) wc0 =
      match searchToDate (stripWherePrefix wc0) with
      | some m =>
        if (pyStrip (removeAll m.matched (stripWherePrefix wc0))).isEmpty then
          [toDateCondition 0 (notBeforeBetween m.matched) m]
        else
          toDateCondition 0 (notBeforeBetween m.matched) m ::
            (extractGo fuel
              (if isPrefixOfB ['A','N','D',' ']
                  (pyStrip (removeAll m.matched (stripWherePrefix wc0))) then
                (pyStrip (removeAll m.matched (stripWherePrefix wc0))).drop 4
              else if isPrefixOfB ['O','R',' ']
                  (pyStrip (removeAll m.matched (stripWherePrefix wc0))) then
                (pyStrip (removeAll m.matched (stripWherePrefix wc0))).drop 3
              else removeAll m.matched (stripWherePrefix wc0))).mapIdx
              (fun i c => { c with id := i + 1 })
      | Option.none =>
        parseFrags ((splitTok wAND (stripWherePrefix wc0)).flatMap (splitTok wOR)) 0 := rfl

set_option maxHeartbeats 1000000 in

theorem extract_toDate_with_rest (neg : Bool) (field p1 f1 p2 f2 rest : List Char)
    (fq : String)
    (hfne : field ≠ []) (hfws : ∀ c ∈ field, pyWs c = false)
    (hfnot : containsSub ['N','O','T'] (ucStr field) = false)
    (hfbet : containsSub ['B','E','T','W','E','E','N'] (ucStr field) = false)
    (hfwh : lcStr field ≠ ['w','h','e','r','e'])
    (hp1 : p1 ≠ []) (hp1c : ∀ c ∈ p1, pyWs c = false ∧ c ≠ ',' ∧ c ≠ ')')
    (hf1 : f1 ≠ []) (hf1c : ∀ c ∈ f1, pyWs c = false ∧ c ≠ '\'')
    (hp2 : p2 ≠ []) (hp2c : ∀ c ∈ p2, pyWs c = false ∧ c ≠ ',' ∧ c ≠ ')')
    (hf2 : f2 ≠ []) (hf2c : ∀ c ∈ f2, pyWs c = false ∧ c ≠ '\'')
    (hrne : rest ≠ [])
    (hrlast : ∀ c, rest.getLast? = some c → pyWs c = false)
    (hrbet : containsSub ['B','E','T','W','E','E','N'] rest = false) :
    extract_conditions
        ⟨renderToDate neg field p1 f1 p2 f2 ++ ' ':: 'A':: 'N':: 'D':: ' ':: rest⟩ fq =
      toDateIdiomCondition 0 neg field p1 f1 p2 f2 ::
        (extract_conditions ⟨rest⟩ fq).mapIdx (fun i c => { c with id := i + 1 }) := by
  have hstart : extract_conditions
      ⟨renderToDate neg field p1 f1 p2 f2 ++ ' ':: 'A':: 'N':: 'D':: ' ':: rest⟩ fq =
      extractGo ((renderToDate neg field p1 f1 p2 f2 ++ ' ':: 'A':: 'N':: 'D':: ' ':: rest).length + 1)
        (renderToDate neg field p1 f1 p2 f2 ++ ' ':: 'A':: 'N':: 'D':: ' ':: rest) := by
    simp only [extract_conditions, String.toList]
  have hT : renderToDateT neg field p1 f1 p2 f2 (' ':: 'A':: 'N':: 'D':: ' ':: rest) =
      renderToDate neg field p1 f1 p2 f2 ++ ' ':: 'A':: 'N':: 'D':: ' ':: rest :=
    renderToDateT_append neg field p1 f1 p2 f2 _
  have hshape : renderToDateT neg field p1 f1 p2 f2 (' ':: 'A':: 'N':: 'D':: ' ':: rest) =
      field ++ ' ' :: ((if neg then ['N','O','T',' '] else []) ++
        ('B':: 'E':: 'T':: 'W':: 'E':: 'E':: 'N':: ' '::
          toDateCall p1 f1 (' ':: 'A':: 'N':: 'D':: ' '::
            toDateCall p2 f2 (' ':: 'A':: 'N':: 'D':: ' ':: rest)))) := rfl
  have hstrip : stripWherePrefix
      (renderToDate neg field p1 f1 p2 f2 ++ ' ':: 'A':: 'N':: 'D':: ' ':: rest) =
      renderToDate neg field p1 f1 p2 f2 ++ ' ':: 'A':: 'N':: 'D':: ' ':: rest := by
    rw [← hT, hshape]
    exact stripWherePrefix_eq_self hfne hfws hfwh
  have hmatch : matchToDateAt
      (renderToDate neg field p1 f1 p2 f2 ++ ' ':: 'A':: 'N':: 'D':: ' ':: rest) =
      some { matched := renderToDate neg field p1 f1 p2 f2,
             field := field, p1 := p1, f1 := f1, p2 := p2, f2 := f2 } := by
    rw [← hT]
    exact matchToDateAt_render neg hfne hfws hp1 hp1c hf1 (fun c hc => (hf1c c hc).2)
      hp2 hp2c hf2 (fun c hc => (hf2c c hc).2)
  have hneL : renderToDate neg field p1 f1 p2 f2 ++ ' ':: 'A':: 'N':: 'D':: ' ':: rest ≠ [] := by
    simp
  have hsearch : searchToDate
      (renderToDate neg field p1 f1 p2 f2 ++ ' ':: 'A':: 'N':: 'D':: ' ':: rest) =
      some { matched := renderToDate neg field p1 f1 p2 f2,
             field := field, p1 := p1, f1 := f1, p2 := p2, f2 := f2 } :=
    searchToDate_of_matchAt hneL hmatch
  have hrne2 : renderToDate neg field p1 f1 p2 f2 ≠ [] := by
    rw [show renderToDate neg field p1 f1 p2 f2 =
      field ++ ' ' :: ((if neg then ['N','O','T',' '] else []) ++
        ('B':: 'E':: 'T':: 'W':: 'E':: 'E':: 'N':: ' '::
          toDateCall p1 f1 (' ':: 'A':: 'N':: 'D':: ' ':: toDateCall p2 f2 []))) from rfl]
    simp
  have hbet_tail : containsSub ['B','E','T','W','E','E','N']
      (' ':: 'A':: 'N':: 'D':: ' ':: rest) = false := by
    have hstep : containsSub ['B','E','T','W','E','E','N']
        (' ':: 'A':: 'N':: 'D':: ' ':: rest) =
        containsSub ['B','E','T','W','E','E','N'] rest := rfl
    rw [hstep, hrbet]
  have hrender_decomp : renderToDate neg field p1 f1 p2 f2 =
      (field ++ ' ' :: (if neg then ['N','O','T',' '] else [])) ++
        ['B','E','T','W','E','E','N'] ++
        (' ' :: toDateCall p1 f1 (' ':: 'A':: 'N':: 'D':: ' ':: toDateCall p2 f2 [])) := by
    cases neg <;> simp [renderToDate, renderToDateT]
  have hnosub : containsSub (renderToDate neg field p1 f1 p2 f2)
      (' ':: 'A':: 'N':: 'D':: ' ':: rest) = false := by
    cases hcc : containsSub (renderToDate neg field p1 f1 p2 f2)
        (' ':: 'A':: 'N':: 'D':: ' ':: rest)
    · rfl
    · exfalso
      rcases decomp_of_containsSub hcc with ⟨pre, post, hdec⟩
      have hdec2 : ' ':: 'A':: 'N':: 'D':: ' ':: rest =
          (pre ++ (field ++ ' ' :: (if neg then ['N','O','T',' '] else []))) ++
            ['B','E','T','W','E','E','N'] ++
            ((' ' :: toDateCall p1 f1 (' ':: 'A':: 'N':: 'D':: ' ':: toDateCall p2 f2 [])) ++
              post) := by
        rw [hdec, hrender_decomp]
        simp
      have := @containsSub_of_decomp ['B','E','T','W','E','E','N'] (by decide) _ _ _ hdec2
      rw [hbet_tail] at this
      exact absurd this (by simp)
  have hrm : removeAll (renderToDate neg field p1 f1 p2 f2)
      (renderToDate neg field p1 f1 p2 f2 ++ ' ':: 'A':: 'N':: 'D':: ' ':: rest) =
      ' ':: 'A':: 'N':: 'D':: ' ':: rest :=
    removeAll_self_append hrne2 hnosub
  have hstrip_tail : pyStrip (' ':: 'A':: 'N':: 'D':: ' ':: rest) =
      'A':: 'N':: 'D':: ' ':: rest := by
    cases hrev : rest.reverse with
    | nil => exact absurd (by simpa using hrev) hrne
    | cons c w =>
      have hc : pyWs c = false := by
        apply hrlast
        rw [← List.head?_reverse, hrev]
        rfl
      unfold pyStrip
      have h1 : (' ':: 'A':: 'N':: 'D':: ' ':: rest).dropWhile pyWs =
          'A':: 'N':: 'D':: ' ':: rest := rfl
      rw [h1]
      have h2 : ('A':: 'N':: 'D':: ' ':: rest).reverse = c :: (w ++ [' ','D','N','A']) := by
        simp [hrev]
      rw [h2, dropWhile_cons_of_false _ hc, ← h2]
      simp
  have hnbb : notBeforeBetween (renderToDate neg field p1 f1 p2 f2) = neg :=
    notBeforeBetween_render neg hfnot hfbet
  have hcond : toDateCondition 0 neg
      { matched := renderToDate neg field p1 f1 p2 f2,
        field := field, p1 := p1, f1 := f1, p2 := p2, f2 := f2 } =
      toDateIdiomCondition 0 neg field p1 f1 p2 f2 :=
    toDateCondition_render 0 neg hfws (fun c hc => (hp1c c hc).1)
      (fun c hc => (hf1c c hc).1) (fun c hc => (hp2c c hc).1) (fun c hc => (hf2c c hc).1)
  have hfuel : extractGo
      ((renderToDate neg field p1 f1 p2 f2 ++ ' ':: 'A':: 'N':: 'D':: ' ':: rest).length) rest =
      extract_conditions ⟨rest⟩ fq := by
    have hlen : rest.length <
        (renderToDate neg field p1 f1 p2 f2 ++ ' ':: 'A':: 'N':: 'D':: ' ':: rest).length := by
      simp only [List.length_append, List.length_cons]
      omega
    exact extractGo_fuel_irrel rest.length _ _ rest (Nat.le_refl _) hlen (Nat.lt_succ_self _)
  have hEm : ('A':: 'N':: 'D':: ' ':: rest).isEmpty = false := rfl
  have hpre : isPrefixOfB ['A','N','D',' '] ('A':: 'N':: 'D':: ' ':: rest) = true := rfl
  have hdrop4 : ('A':: 'N':: 'D':: ' ':: rest).drop 4 = rest := rfl
  rw [hstart, extractGo_succ, hstrip, hsearch]
  simp only [hrm, hstrip_tail, hEm, hpre, hdrop4, hnbb, hcond, Bool.false_eq_true,
    if_false, if_true]
  rw [← hfuel]

set_option maxHeartbeats 1000000 in

theorem extract_toDate_with_rest_or (neg : Bool) (field p1 f1 p2 f2 rest : List Char)
    (fq : String)
    (hfne : field ≠ []) (hfws : ∀ c ∈ field, pyWs c = false)
    (hfnot : containsSub ['N','O','T'] (ucStr field) = false)
    (hfbet : containsSub ['B','E','T','W','E','E','N'] (ucStr field) = false)
    (hfwh : lcStr field ≠ ['w','h','e','r','e'])
    (hp1 : p1 ≠ []) (hp1c : ∀ c ∈ p1, pyWs c = false ∧ c ≠ ',' ∧ c ≠ ')')
    (hf1 : f1 ≠ []) (hf1c : ∀ c ∈ f1, pyWs c = false ∧ c ≠ '\'')
    (hp2 : p2 ≠ []) (hp2c : ∀ c ∈ p2, pyWs c = false ∧ c ≠ ',' ∧ c ≠ ')')
    (hf2 : f2 ≠ []) (hf2c : ∀ c ∈ f2, pyWs c = false ∧ c ≠ '\'')
    (hrne : rest ≠ [])
    (hrlast : ∀ c, rest.getLast? = some c → pyWs c = false)
    (hrbet : containsSub ['B','E','T','W','E','E','N'] rest = false) :
    extract_conditions
        ⟨renderToDate neg field p1 f1 p2 f2 ++ ' ':: 'O':: 'R':: ' ':: rest⟩ fq =
      toDateIdiomCondition 0 neg field p1 f1 p2 f2 ::
        (extract_conditions ⟨rest⟩ fq).mapIdx (fun i c => { c with id := i + 1 }) := by
  have hstart : extract_conditions
      ⟨renderToDate neg field p1 f1 p2 f2 ++ ' ':: 'O':: 'R':: ' ':: rest⟩ fq =
      extractGo ((renderToDate neg field p1 f1 p2 f2 ++ ' ':: 'O':: 'R':: ' ':: rest).length + 1)
        (renderToDate neg field p1 f1 p2 f2 ++ ' ':: 'O':: 'R':: ' ':: rest) := by
    simp only [extract_conditions, String.toList]
  have hT : renderToDateT neg field p1 f1 p2 f2 (' ':: 'O':: 'R':: ' ':: rest) =
      renderToDate neg field p1 f1 p2 f2 ++ ' ':: 'O':: 'R':: ' ':: rest :=
    renderToDateT_append neg field p1 f1 p2 f2 _
  have hshape : renderToDateT neg field p1 f1 p2 f2 (' ':: 'O':: 'R':: ' ':: rest) =
      field ++ ' ' :: ((if neg then ['N','O','T',' '] else []) ++
        ('B':: 'E':: 'T':: 'W':: 'E':: 'E':: 'N':: ' '::
          toDateCall p1 f1 (' ':: 'A':: 'N':: 'D':: ' '::
            toDateCall p2 f2 (' ':: 'O':: 'R':: ' ':: rest)))) := rfl
  have hstrip : stripWherePrefix
      (renderToDate neg field p1 f1 p2 f2 ++ ' ':: 'O':: 'R':: ' ':: rest) =
      renderToDate neg field p1 f1 p2 f2 ++ ' ':: 'O':: 'R':: ' ':: rest := by
    rw [← hT, hshape]
    exact stripWherePrefix_eq_self hfne hfws hfwh
  have hmatch : matchToDateAt
      (renderToDate neg field p1 f1 p2 f2 ++ ' ':: 'O':: 'R':: ' ':: rest) =
      some { matched := renderToDate neg field p1 f1 p2 f2,
             field := field, p1 := p1, f1 := f1, p2 := p2, f2 := f2 } := by
    rw [← hT]
    exact matchToDateAt_render neg hfne hfws hp1 hp1c hf1 (fun c hc => (hf1c c hc).2)
      hp2 hp2c hf2 (fun c hc => (hf2c c hc).2)
  have hneL : renderToDate neg field p1 f1 p2 f2 ++ ' ':: 'O':: 'R':: ' ':: rest ≠ [] := by
    simp
  have hsearch : searchToDate
      (renderToDate neg field p1 f1 p2 f2 ++ ' ':: 'O':: 'R':: ' ':: rest) =
      some { matched := renderToDate neg field p1 f1 p2 f2,
             field := field, p1 := p1, f1 := f1, p2 := p2, f2 := f2 } :=
    searchToDate_of_matchAt hneL hmatch
  have hrne2 : renderToDate neg field p1 f1 p2 f2 ≠ [] := by
    rw [show renderToDate neg field p1 f1 p2 f2 =
      field ++ ' ' :: ((if neg then ['N','O','T',' '] else []) ++
        ('B':: 'E':: 'T':: 'W':: 'E':: 'E':: 'N':: ' '::
          toDateCall p1 f1 (' ':: 'A':: 'N':: 'D':: ' ':: toDateCall p2 f2 []))) from rfl]
    simp
  have hbet_tail : containsSub ['B','E','T','W','E','E','N']
      (' ':: 'O':: 'R':: ' ':: rest) = false := by
    have hstep : containsSub ['B','E','T','W','E','E','N']
        (' ':: 'O':: 'R':: ' ':: rest) =
        containsSub ['B','E','T','W','E','E','N'] rest := rfl
    rw [hstep, hrbet]
  have hrender_decomp : renderToDate neg field p1 f1 p2 f2 =
      (field ++ ' ' :: (if neg then ['N','O','T',' '] else [])) ++
        ['B','E','T','W','E','E','N'] ++
        (' ' :: toDateCall p1 f1 (' ':: 'A':: 'N':: 'D':: ' ':: toDateCall p2 f2 [])) := by
    cases neg <;> simp [renderToDate, renderToDateT]
  have hnosub : containsSub (renderToDate neg field p1 f1 p2 f2)
      (' ':: 'O':: 'R':: ' ':: rest) = false := by
    cases hcc : containsSub (renderToDate neg field p1 f1 p2 f2)
        (' ':: 'O':: 'R':: ' ':: rest)
    · rfl
    · exfalso
      rcases decomp_of_containsSub hcc with ⟨pre, post, hdec⟩
      have hdec2 : ' ':: 'O':: 'R':: ' ':: rest =
          (pre ++ (field ++ ' ' :: (if neg then ['N','O','T',' '] else []))) ++
            ['B','E','T','W','E','E','N'] ++
            ((' ' :: toDateCall p1 f1 (' ':: 'A':: 'N':: 'D':: ' ':: toDateCall p2 f2 [])) ++
              post) := by
        rw [hdec, hrender_decomp]
        simp
      have := @containsSub_of_decomp ['B','E','T','W','E','E','N'] (by decide) _ _ _ hdec2
      rw [hbet_tail] at this
      exact absurd this (by simp)
  have hrm : removeAll (renderToDate neg field p1 f1 p2 f2)
      (renderToDate neg field p1 f1 p2 f2 ++ ' ':: 'O':: 'R':: ' ':: rest) =
      ' ':: 'O':: 'R':: ' ':: rest :=
    removeAll_self_append hrne2 hnosub
  have hstrip_tail : pyStrip (' ':: 'O':: 'R':: ' ':: rest) =
      'O':: 'R':: ' ':: rest := by
    cases hrev : rest.reverse with
    | nil => exact absurd (by simpa using hrev) hrne
    | cons c w =>
      have hc : pyWs c = false := by
        apply hrlast
        rw [← List.head?_reverse, hrev]
        rfl
      unfold pyStrip
      have h1 : (' ':: 'O':: 'R':: ' ':: rest).dropWhile pyWs =
          'O':: 'R':: ' ':: rest := rfl
      rw [h1]
      have h2 : ('O':: 'R':: ' ':: rest).reverse = c :: (w ++ [' ','R','O']) := by
        simp [hrev]
      rw [h2, dropWhile_cons_of_false _ hc, ← h2]
      simp
  have hnbb : notBeforeBetween (renderToDate neg field p1 f1 p2 f2) = neg :=
    notBeforeBetween_render neg hfnot hfbet
  have hcond : toDateCondition 0 neg
      { matched := renderToDate neg field p1 f1 p2 f2,
        field := field, p1 := p1, f1 := f1, p2 := p2, f2 := f2 } =
      toDateIdiomCondition 0 neg field p1 f1 p2 f2 :=
    toDateCondition_render 0 neg hfws (fun c hc => (hp1c c hc).1)
      (fun c hc => (hf1c c hc).1) (fun c hc => (hp2c c hc).1) (fun c hc => (hf2c c hc).1)
  have hfuel : extractGo
      ((renderToDate neg field p1 f1 p2 f2 ++ ' ':: 'O':: 'R':: ' ':: rest).length) rest =
      extract_conditions ⟨rest⟩ fq := by
    have hlen : rest.length <
        (renderToDate neg field p1 f1 p2 f2 ++ ' ':: 'O':: 'R':: ' ':: rest).length := by
      simp only [List.length_append, List.length_cons]
      omega
    exact extractGo_fuel_irrel rest.length _ _ rest (Nat.le_refl _) hlen (Nat.lt_succ_self _)
  have hEm : ('O':: 'R':: ' ':: rest).isEmpty = false := rfl
  have hpre : isPrefixOfB ['A','N','D',' '] ('O':: 'R':: ' ':: rest) = false := rfl
  have hpre2 : isPrefixOfB ['O','R',' '] ('O':: 'R':: ' ':: rest) = true := rfl
  have hdrop3 : ('O':: 'R':: ' ':: rest).drop 3 = rest := rfl
  rw [hstart, extractGo_succ, hstrip, hsearch]
  simp only [hrm, hstrip_tail, hEm, hpre, hpre2, hdrop3, hnbb, hcond, Bool.false_eq_true,
    if_false, if_true]
  rw [← hfuel]

/-- C5: parsing a WHERE clause of the form
`field [NOT] BETWEEN to_date(p1, 'f1') AND to_date(p2, 'f2')` yields exactly one
Condition for the idiom — operator `BETWEEN`/`NOT BETWEEN`, value the two rendered
`to_date(...)` call strings, `original_value` the two bare parameter strings, type
`date`, `is_function` true, `function_name` `to_date`, and `format` the first
format string `f1` even when `f2` differs — and any remaining clause text after
one leading `AND`/`OR` connector is parsed recursively with its condition ids
renumbered to continue the sequence from 1. -/

theorem to_date_idiom_parse (neg : Bool) (field p1 f1 p2 f2 : List Char) (fq : String)
    (hfne : field ≠ []) (hfws : ∀ c ∈ field, pyWs c = false)
    (hfnot : containsSub ['N','O','T'] (ucStr field) = false)
    (hfbet : containsSub ['B','E','T','W','E','E','N'] (ucStr field) = false)
    (hfwh : lcStr field ≠ ['w','h','e','r','e'])
    (hp1 : p1 ≠ []) (hp1c : ∀ c ∈ p1, pyWs c = false ∧ c ≠ ',' ∧ c ≠ ')')
    (hf1 : f1 ≠ []) (hf1c : ∀ c ∈ f1, pyWs c = false ∧ c ≠ '\'')
    (hp2 : p2 ≠ []) (hp2c : ∀ c ∈ p2, pyWs c = false ∧ c ≠ ',' ∧ c ≠ ')')
    (hf2 : f2 ≠ []) (hf2c : ∀ c ∈ f2, pyWs c = false ∧ c ≠ '\'') :
    extract_conditions ⟨renderToDate neg field p1 f1 p2 f2⟩ fq =
      [toDateIdiomCondition 0 neg field p1 f1 p2 f2] ∧
    (∀ rest : List Char, rest ≠ [] →
      (∀ c, rest.getLast? = some c → pyWs c = false) →
      containsSub ['B','E','T','W','E','E','N'] rest = false →
      extract_conditions ⟨renderToDate neg field p1 f1 p2 f2 ++ (" AND ".toList ++ rest)⟩ fq =
        toDateIdiomCondition 0 neg field p1 f1 p2 f2 ::
          (extract_conditions ⟨rest⟩ fq).mapIdx (fun i c => { c with id := i + 1 })) ∧
    (∀ rest : List Char, rest ≠ [] →
      (∀ c, rest.getLast? = some c → pyWs c = false) →
      containsSub ['B','E','T','W','E','E','N'] rest = false →
      extract_conditions ⟨renderToDate neg field p1 f1 p2 f2 ++ (" OR ".toList ++ rest)⟩ fq =
        toDateIdiomCondition 0 neg field p1 f1 p2 f2 ::
          (extract_conditions ⟨rest⟩ fq).mapIdx (fun i c => { c with id := i + 1 })) :=
  ⟨extract_toDate_alone neg field p1 f1 p2 f2 fq hfne hfws hfnot hfbet hfwh
      hp1 hp1c hf1 hf1c hp2 hp2c hf2 hf2c,
   fun rest hrne hrlast hrbet =>
     extract_toDate_with_rest neg field p1 f1 p2 f2 rest fq hfne hfws hfnot hfbet hfwh
       hp1 hp1c hf1 hf1c hp2 hp2c hf2 hf2c hrne hrlast hrbet,
   fun rest hrne hrlast hrbet =>
     extract_toDate_with_rest_or neg field p1 f1 p2 f2 rest fq hfne hfws hfnot hfbet hfwh
       hp1 hp1c hf1 hf1c hp2 hp2c hf2 hf2c hrne hrlast hrbet⟩

theorem to_date_idiom_parse_witness :
    extract_conditions
        ⟨renderToDate false ['c','o','l'] [':','a'] "YYYY-MM-DD".toList
          [':','b'] "DD/MM/YYYY".toList⟩ "q" =
      [toDateIdiomCondition 0 false ['c','o','l'] [':','a'] "YYYY-MM-DD".toList
        [':','b'] "DD/MM/YYYY".toList] ∧
    extract_conditions
        ⟨renderToDate false ['c','o','l'] [':','a'] "YYYY-MM-DD".toList
          [':','b'] "DD/MM/YYYY".toList ++ (" AND ".toList ++ "b = 1".toList)⟩ "q" =
      toDateIdiomCondition 0 false ['c','o','l'] [':','a'] "YYYY-MM-DD".toList
          [':','b'] "DD/MM/YYYY".toList ::
        (extract_conditions ⟨"b = 1".toList⟩ "q").mapIdx
          (fun i c => { c with id := i + 1 }) := by
  have h := to_date_idiom_parse false ['c','o','l'] [':','a'] "YYYY-MM-DD".toList
    [':','b'] "DD/MM/YYYY".toList "q"
    (by decide) (by decide) (by decide) (by decide) (by decide)
    (by decide) (by decide) (by decide) (by decide)
    (by decide) (by decide) (by decide) (by decide)
  refine ⟨h.1, h.2.1 "b = 1".toList (by decide) ?_ (by decide)⟩
  intro c hc
  have hgl : "b = 1".toList.getLast? = some '1' := by decide
  rw [hgl] at hc
  cases hc
  decide


/-! ## Boundary lemmas for substring freedom across join characters -/

theorem isPrefixOfB_append_brk {pat : List Char} {b : Char} (hb : b ∉ pat) :
    ∀ {x z : List Char}, x.length < pat.length →
      isPrefixOfB pat (x ++ b :: z) = false := by
  induction pat with
  | nil => intro x z h; simp at h
  | cons p ps ih =>
    intro x z h
    cases x with
    | nil =>
      simp only [List.nil_append, isPrefixOfB, dropLit]
      have : p ≠ b := fun hh => hb (hh ▸ List.mem_cons_self p ps)
      simp [this]
    | cons c cx =>
      simp only [List.cons_append, isPrefixOfB, dropLit]
      split
      · have := ih (x := cx) (z := z)
          (fun hh => hb (List.mem_cons_of_mem _ hh)) (by simpa using h)
        simpa [isPrefixOfB] using this
      · simp

theorem isPrefixOfB_append_brk_of_not_contains {pat x z : List Char} {b : Char}
    (hne : pat ≠ []) (hb : b ∉ pat) (hx : containsSub pat x = false) :
    isPrefixOfB pat (x ++ b :: z) = false := by
  by_cases hlen : pat.length ≤ x.length
  · rw [isPrefixOfB_append_long hlen]
    by_contra hc
    have hpre : pat <+: x := isPrefixOfB_iff_prefix.mp (by
      cases hbx : isPrefixOfB pat x
      · exact absurd hbx hc
      · rfl)
    rcases hpre with ⟨t, ht⟩
    rw [@containsSub_of_decomp _ hne _ [] t (by simp [ht])] at hx
    exact absurd hx (by simp)
  · exact isPrefixOfB_append_brk hb (by omega)

theorem containsSub_append_brk {pat : List Char} {b : Char} (hne : pat ≠ [])
    (hb : b ∉ pat) :
    ∀ {x z : List Char}, containsSub pat x = false →
      containsSub pat (b :: z) = false → containsSub pat (x ++ b :: z) = false := by
  intro x
  induction x with
  | nil => intro z _ hz; simpa using hz
  | cons c cx ih =>
    intro z hx hz
    simp only [containsSub, Bool.or_eq_false_iff] at hx
    simp only [List.cons_append, containsSub, Bool.or_eq_false_iff]
    constructor
    · have := isPrefixOfB_append_brk_of_not_contains (x := c :: cx) (z := z) hne hb
        (by simp [containsSub, hx.1, hx.2])
      simpa using this
    · exact ih hx.2 hz

theorem containsSub_cons_head_ne {p c : Char} {ps cs : List Char} (h : p ≠ c) :
    containsSub (p :: ps) (c :: cs) = containsSub (p :: ps) cs := by
  simp only [containsSub, isPrefixOfB, dropLit]
  rw [if_neg h]
  simp [containsSub]

theorem containsSub_tail {pat : List Char} {c : Char} {cs : List Char}
    (h : containsSub pat (c :: cs) = false) : containsSub pat cs = false := by
  simp only [containsSub, Bool.or_eq_false_iff] at h
  exact h.2

theorem takeWhile_eq_self_of_all {p : Char → Bool} {cs : List Char}
    (h : ∀ c ∈ cs, p c = true) : cs.takeWhile p = cs := by
  induction cs with
  | nil => rfl
  | cons c cx ih =>
    simp only [List.takeWhile_cons, h c (List.mem_cons_self c cx), if_true]
    rw [ih (fun x hx => h x (List.mem_cons_of_mem _ hx))]

/-! ## `searchToDate` fails on BETWEEN-free text -/

theorem dropLitCI_decomp {pat : List Char} :
    ∀ {cs r : List Char}, dropLitCI pat cs = some r →
      ∃ xs, cs = xs ++ r ∧ lcStr xs = lcStr pat := by
  induction pat with
  | nil =>
    intro cs r h
    simp only [dropLitCI, Option.some_inj] at h
    exact ⟨[], by simp [h], rfl⟩
  | cons p ps ih =>
    intro cs r h
    cases cs with
    | nil => simp [dropLitCI] at h
    | cons c cx =>
      simp only [dropLitCI] at h
      split at h
      · next hci =>
        rcases ih h with ⟨xs, hxs, hlc⟩
        exact ⟨c :: xs, by simp [hxs], by
          simp only [lcStr, List.map_cons]
          simp only [lcStr] at hlc
          rw [hlc, ciEq_lc hci]⟩
      · exact absurd h (by simp)

theorem dropWhile_suffix_chars {p : Char → Bool} (cs : List Char) :
    ∃ xs, cs = xs ++ cs.dropWhile p := by
  induction cs with
  | nil => exact ⟨[], rfl⟩
  | cons c cx ih =>
    by_cases hc : p c
    · rcases ih with ⟨xs, hxs⟩
      refine ⟨c :: xs, ?_⟩
      simp only [List.dropWhile_cons, hc, if_true]
      rw [List.cons_append, ← hxs]
    · exact ⟨[], by simp [List.dropWhile_cons, hc]⟩

theorem parseWsPlus_decomp {cs r : List Char} (h : parseWsPlus cs = some r) :
    ∃ xs, cs = xs ++ r := by
  cases cs with
  | nil => simp [parseWsPlus] at h
  | cons c cx =>
    simp only [parseWsPlus] at h
    split at h
    · rcases dropWhile_suffix_chars (p := pyWs) cx with ⟨xs, hxs⟩
      refine ⟨c :: xs, ?_⟩
      have hr : r = cx.dropWhile pyWs := (Option.some_inj.mp h).symm
      rw [hr, List.cons_append, ← hxs]
    · exact absurd h (by simp)

theorem containsSub_append_left {pat y : List Char} (hne : pat ≠ []) :
    ∀ (x : List Char), containsSub pat y = true → containsSub pat (x ++ y) = true := by
  intro x hy
  rcases decomp_of_containsSub hy with ⟨pre, post, hdec⟩
  exact @containsSub_of_decomp _ hne _ (x ++ pre) post (by simp [hdec])

theorem matchToDateAt_between {cs : List Char} {m : ToDateMatch}
    (h : matchToDateAt cs = some m) :
    containsSub ['b','e','t','w','e','e','n'] (lcStr cs) = true := by
  simp only [matchToDateAt] at h
  split at h
  · exact absurd h (by simp)
  split at h
  · exact absurd h (by simp)
  next r1 h1 =>
  split at h
  · exact absurd h (by simp)
  next r3 h3 =>
  rcases dropLitCI_decomp h3 with ⟨xs, hxs, hlc⟩
  rcases dropWhile_suffix_chars (p := notWs) cs with ⟨u1, hu1⟩
  rcases parseWsPlus_decomp h1 with ⟨u2, hu2⟩
  have hr2 : ∃ u, cs = u ++ (xs ++ r3) := by
    revert hxs
    split
    · next rn hrn =>
      split
      · next rn2 hrn2 =>
        intro hxs
        rcases dropLitCI_decomp hrn with ⟨u3, hu3, -⟩
        rcases parseWsPlus_decomp hrn2 with ⟨u4, hu4⟩
        refine ⟨u1 ++ u2 ++ u3 ++ u4, ?_⟩
        rw [hu1, hu2, hu3, hu4, hxs]
        simp
      · intro hxs
        exact ⟨u1 ++ u2, by rw [hu1, hu2, hxs]; simp⟩
    · intro hxs
      exact ⟨u1 ++ u2, by rw [hu1, hu2, hxs]; simp⟩
  rcases hr2 with ⟨u, hu⟩
  have : lcStr cs = lcStr u ++ (['b','e','t','w','e','e','n'] ++ lcStr r3) := by
    rw [hu]
    simp only [lcStr, List.map_append]
    have : List.map lcChar xs = ['b','e','t','w','e','e','n'] := by
      have := hlc
      simpa [lcStr] using this
    rw [this]
  exact @containsSub_of_decomp _ (by decide) _ (lcStr u) (lcStr r3)
    (by rw [this]; simp)

theorem searchToDate_none {cs : List Char}
    (h : containsSub ['b','e','t','w','e','e','n'] (lcStr cs) = false) :
    searchToDate cs = Option.none := by
  induction cs with
  | nil => rfl
  | cons c cx ih =>
    simp only [searchToDate]
    have hm : matchToDateAt (c :: cx) = Option.none := by
      cases hmm : matchToDateAt (c :: cx) with
      | none => rfl
      | some m =>
        have := matchToDateAt_between hmm
        rw [h] at this
        exact absurd this (by simp)
    rw [hm]
    apply ih
    have : lcStr (c :: cx) = lcChar c :: lcStr cx := rfl
    rw [this] at h
    exact containsSub_tail h

/-! ## Window-freedom and the behaviour of `splitTok` on rendered clauses -/

theorem winAt_nonws {w : List Char} {c : Char} {cs : List Char}
    (hc : pyWs c = false) : winAt w (c :: cs) = Option.none := by
  simp [winAt, hc]

theorem noWin_nil {w rest : List Char} : noWin w [] rest := by
  intro i hi
  simp at hi

theorem noWin_of_wsfree {w x rest : List Char} (hx : ∀ c ∈ x, pyWs c = false) :
    noWin w x rest := by
  intro i hi
  have hdrop : x.drop i ≠ [] := by
    intro hnil
    rw [List.drop_eq_nil_iff] at hnil
    omega
  cases hd : x.drop i with
  | nil => exact absurd hd hdrop
  | cons c cx =>
    have hc : c ∈ x := by
      have : c ∈ x.drop i := by rw [hd]; exact List.mem_cons_self c cx
      exact List.mem_of_mem_drop this
    exact winAt_nonws (hx c hc)

theorem noWin_append {w x y rest : List Char} (hx : noWin w x (y ++ rest))
    (hy : noWin w y rest) : noWin w (x ++ y) rest := by
  intro i hi
  by_cases hix : i < x.length
  · have h1 : (x ++ y).drop i ++ rest = x.drop i ++ (y ++ rest) := by
      rw [List.drop_append_of_le_length (Nat.le_of_lt hix)]
      simp
    rw [h1]
    exact hx i hix
  · have hj : i = x.length + (i - x.length) := by omega
    have h1 : (x ++ y).drop i = y.drop (i - x.length) := by
      rw [hj, List.drop_append]
      congr 1
      omega
    rw [h1]
    apply hy
    simp only [List.length_append] at hi
    omega

theorem noWin_cons {w : List Char} {c : Char} {y rest : List Char}
    (h0 : winAt w (c :: (y ++ rest)) = Option.none) (hy : noWin w y rest) :
    noWin w (c :: y) rest := by
  intro i hi
  cases i with
  | zero => simpa using h0
  | succ j =>
    have : (c :: y).drop (j + 1) = y.drop j := rfl
    rw [this]
    exact hy j (by simpa using hi)

theorem splitTokGo_through {w : List Char} :
    ∀ (x : List Char) (acc rest : List Char) (fuel : Nat),
      x.length ≤ fuel → noWin w x rest →
      splitTokGo w fuel acc (x ++ rest) =
        splitTokGo w (fuel - x.length) (x.reverse ++ acc) rest := by
  intro x
  induction x with
  | nil => intro acc rest fuel hf hw; simp
  | cons c cx ih =>
    intro acc rest fuel hf hw
    cases fuel with
    | zero => simp at hf
    | succ g =>
      have h0 : winAt w (c :: (cx ++ rest)) = Option.none := by
        have := hw 0 (by simp)
        simpa using this
      simp only [List.cons_append, splitTokGo, List.append_eq, h0]
      have hrec := ih (c :: acc) rest g (by simpa using hf)
        (fun i hi => by
          have := hw (i + 1) (by simpa using Nat.succ_lt_succ hi)
          simpa using this)
      rw [hrec]
      have e1 : g - cx.length = g + 1 - (cx.length + 1) := by omega
      have e2 : cx.reverse ++ c :: acc = cx.reverse ++ ([c] ++ acc) := by simp
      rw [e1, e2]
      simp

theorem splitTokGo_nowin {w : List Char} :
    ∀ (cs : List Char) (acc : List Char) (fuel : Nat),
      cs.length < fuel → (∀ i, i < cs.length → winAt w (cs.drop i) = Option.none) →
      splitTokGo w fuel acc cs = [acc.reverse ++ cs] := by
  intro cs
  induction cs with
  | nil =>
    intro acc fuel hf _
    cases fuel with
    | zero => simp at hf
    | succ g => simp [splitTokGo]
  | cons c cx ih =>
    intro acc fuel hf hw
    cases fuel with
    | zero => simp at hf
    | succ g =>
      have h0 : winAt w (c :: cx) = Option.none := by
        have := hw 0 (by simp)
        simpa using this
      simp only [splitTokGo, h0]
      rw [ih (c :: acc) g (by simpa using hf)
        (fun i hi => by
          have := hw (i + 1) (by simpa using Nat.succ_lt_succ hi)
          simpa using this)]
      simp

theorem splitTok_nowin {w cs : List Char}
    (hw : ∀ i, i < cs.length → winAt w (cs.drop i) = Option.none) :
    splitTok w cs = [cs] := by
  unfold splitTok
  rw [splitTokGo_nowin cs [] (cs.length + 1) (Nat.lt_succ_self _) hw]
  simp

theorem winAt_token_none {word T rest : List Char}
    (hT : ∀ c ∈ T, pyWs c = false)
    (hrh : rest = [] ∨ lcChar rest.headI ∉ lcStr word)
    (hban : lcStr T ≠ lcStr word ∨ rest = [] ∨ pyWs rest.headI = false) :
    winAt word (' ' :: (T ++ rest)) = Option.none := by
  simp only [winAt]
  rw [if_pos (by decide : pyWs ' ' = true)]
  cases hd : dropLitCI word (T ++ rest) with
  | none => rfl
  | some r =>
    cases r with
    | nil => rfl
    | cons d r2 =>
      rcases dropLitCI_decomp hd with ⟨xs, hxs, hlc⟩
      rcases Nat.lt_trichotomy xs.length T.length with hlen | hlen | hlen
      · have hdmem : d ∈ T := by
          have h1 : (T ++ rest).drop xs.length = d :: r2 := by
            rw [hxs]
            simp
          have h2 : (T ++ rest).drop xs.length = T.drop xs.length ++ rest :=
            List.drop_append_of_le_length (Nat.le_of_lt hlen)
          have h3 : T.drop xs.length ++ rest = d :: r2 := by rw [← h2, h1]
          have h4 : T.drop xs.length ≠ [] := by
            intro hnil
            rw [List.drop_eq_nil_iff] at hnil
            omega
          cases h5 : T.drop xs.length with
          | nil => exact absurd h5 h4
          | cons e es =>
            rw [h5] at h3
            have h31 : e = d := by
              have := congrArg (fun l => l.headI) h3
              simpa using this
            subst h31
            have : e ∈ T.drop xs.length := by rw [h5]; exact List.mem_cons_self e es
            exact List.mem_of_mem_drop this
        simp [hT d hdmem]
      · have := List.append_inj hxs.symm hlen
        rcases this with ⟨hxT, hrd⟩
        rcases hban with hb | hb | hb
        · exact absurd (hxT ▸ hlc) hb
        · rw [hb] at hrd
          exact absurd hrd.symm (by simp)
        · have hdw : pyWs d = false := by
            have : d = rest.headI := by rw [← hrd]; rfl
            rw [this]
            exact hb
          simp [hdw]
      · have hrne : rest ≠ [] := by
          intro hnil
          rw [hnil, List.append_nil] at hxs
          have : T.length = xs.length + (d :: r2).length := by
            rw [hxs]; simp
          simp at this
          omega
        have hxsform : xs = T ++ rest.take (xs.length - T.length) := by
          have h1 : xs = (T ++ rest).take xs.length := by
            rw [hxs]
            simp
          have h2 : xs.length = T.length + (xs.length - T.length) := by omega
          conv_lhs => rw [h1, h2, List.take_append]
        have hheadmem : rest.headI ∈ xs := by
          rw [hxsform]
          refine List.mem_append_right _ ?_
          cases hrt : rest with
          | nil => exact absurd hrt hrne
          | cons a as =>
            have hk : xs.length - T.length ≠ 0 := by omega
            cases hk2 : xs.length - T.length with
            | zero => exact absurd hk2 hk
            | succ n =>
              simp only [hrt, List.take_cons, List.headI]
              exact List.mem_cons_self a _
        have : lcChar rest.headI ∈ lcStr word := by
          rw [← hlc]
          simp only [lcStr]
          exact List.mem_map_of_mem lcChar hheadmem
        rcases hrh with hb | hb
        · exact absurd hb hrne
        · exact absurd this hb

theorem plainChar_spec {c : Char} (h : plainChar c = true) :
    pyWs c = false ∧ c ≠ '(' ∧ c ≠ ')' ∧ c ≠ ',' ∧ c ≠ '\'' ∧ c ≠ '"' := by
  simp only [plainChar, Bool.and_eq_true, Bool.not_eq_true'] at h
  rcases h with ⟨⟨⟨⟨⟨h1, h2⟩, h3⟩, h4⟩, h5⟩, h6⟩
  refine ⟨h1, ?_, ?_, ?_, ?_, ?_⟩ <;> simp_all

theorem goodTok_wsfree {t : List Char} (h : goodTok t) : ∀ c ∈ t, pyWs c = false :=
  fun c hc => (plainChar_spec (h.2.1 c hc)).1

theorem lcStr_cons_ne_head {c : Char} {cx : List Char} {d : Char} {dx : List Char}
    (h : lcChar c ≠ d) : lcStr (c :: cx) ≠ d :: dx := by
  intro hh
  simp only [lcStr, List.map_cons] at hh
  exact h (List.head_eq_of_cons_eq hh)

theorem goodLit_tok {l : SLit} (h : goodLit l) : goodTok (litVal l) := by
  cases l with
  | num v => exact h.1
  | txt v => exact h.1

theorem goodLit_wsfree {l : SLit} (h : goodLit l) :
    ∀ c ∈ renderLit l, pyWs c = false := by
  cases l with
  | num v =>
    intro c hc
    exact goodTok_wsfree h.1 c hc
  | txt v =>
    intro c hc
    simp only [renderLit, List.mem_cons, List.mem_append, List.mem_singleton] at hc
    rcases hc with (rfl | hc) | (rfl | hx)
    · rfl
    · exact goodTok_wsfree h.1 c hc
    · rfl
    · exact absurd hx (by simp)

/-- The window test fails at the whitespace before a literal followed by a
boundary (or nothing): `wAND`/`wOR` instances. -/
theorem winAt_lit_none {word : List Char} {l : SLit} {rest : List Char}
    (hban : lcStr (litVal l) ≠ lcStr word)
    (hwsl : ∀ c ∈ litVal l, pyWs c = false)
    (hq : '\'' ∉ word)
    (hrh : rest = [] ∨ lcChar rest.headI ∉ lcStr word) :
    winAt word (' ' :: (renderLit l ++ rest)) = Option.none := by
  cases l with
  | num v =>
    exact winAt_token_none hwsl hrh (Or.inl hban)
  | txt v =>
    have hshape : renderLit (SLit.txt v) ++ rest = ('\'' :: v ++ ['\'']) ++ rest := rfl
    rw [hshape]
    have h2 : ('\'' :: v ++ ['\'']) ++ rest = ('\'' :: v) ++ ('\'' :: rest) := by simp
    rw [h2]
    refine winAt_token_none ?_ ?_ (Or.inr (Or.inr rfl))
    · intro c hc
      rcases List.mem_cons.mp hc with rfl | hc2
      · rfl
      · exact hwsl c hc2
    · right
      show lcChar (('\'' :: rest).headI) ∉ lcStr word
      intro hmem
      have hh : ('\'' : Char) ∈ List.map lcChar word := by
        have e : lcChar (('\'' :: rest).headI) = '\'' := rfl
        rw [e] at hmem
        simpa [lcStr] using hmem
      rcases List.mem_map.mp hh with ⟨a, ha, hla⟩
      have haq : a = '\'' := by
        unfold lcChar at hla
        split at hla <;> simp_all
      exact hq (haq ▸ ha)

theorem wordFacts_and : WordFacts wAND := by
  constructor <;> try decide
  intro op h
  cases op <;> first | decide | exact absurd rfl h

theorem wordFacts_or : WordFacts wOR := by
  constructor <;> try decide
  intro op h
  cases op <;> first | decide | exact absurd rfl h

theorem goodTok_ban_and {t : List Char} (h : goodTok t) : lcStr t ≠ lcStr wAND := by
  have : lcStr wAND = ['a','n','d'] := rfl
  rw [this]
  exact h.2.2.1

theorem goodTok_ban_or {t : List Char} (h : goodTok t) : lcStr t ≠ lcStr wOR := by
  have : lcStr wOR = ['o','r'] := rfl
  rw [this]
  exact h.2.2.2.1

theorem hrh_of_sep {word rest : List Char} (hsp : lcChar ' ' ∉ lcStr word)
    (hrh : rest = [] ∨ rest.headI = ' ') :
    rest = [] ∨ lcChar rest.headI ∉ lcStr word := by
  rcases hrh with h | h
  · exact Or.inl h
  · right
    rw [h]
    exact hsp

/-- Window-freedom of `' ' :: (T ++ ' ' :: lit)` followed by `rest`, for a
whitespace-free banned token `T`. -/
theorem noWin_ws_tok_lit {word T rest : List Char} {l : SLit} (wf : WordFacts word)
    (hT : ∀ c ∈ T, pyWs c = false) (hbT : lcStr T ≠ lcStr word)
    (hl : goodLit l) (hbl : lcStr (litVal l) ≠ lcStr word)
    (hrh : rest = [] ∨ rest.headI = ' ') :
    noWin word (' ' :: (T ++ ' ' :: renderLit l)) rest := by
  apply noWin_cons
  · have h1 : (T ++ ' ' :: renderLit l) ++ rest = T ++ ' ' :: (renderLit l ++ rest) := by
      simp
    rw [h1]
    exact winAt_token_none hT (Or.inr wf.sp) (Or.inl hbT)
  · apply noWin_append (x := T) (y := ' ' :: renderLit l)
    · exact noWin_of_wsfree hT
    · apply noWin_cons
      · exact winAt_lit_none hbl (goodTok_wsfree (goodLit_tok hl)) wf.quo
          (hrh_of_sep wf.sp hrh)
      · exact noWin_of_wsfree (goodLit_wsfree hl)

/-- Window-freedom of a rendered `cmp` fragment. -/
theorem noWin_cmp {word : List Char} (wf : WordFacts word)
    (hbanTok : ∀ t, goodTok t → lcStr t ≠ lcStr word)
    {f : List Char} {op : SOp} {v : SLit} {rest : List Char}
    (hg : goodFrag (SFrag.cmp f op v))
    (hrh : rest = [] ∨ rest.headI = ' ') :
    noWin word (renderFrag (SFrag.cmp f op v)) rest := by
  rcases hg with ⟨hf, hv⟩
  have hbl : lcStr (litVal v) ≠ lcStr word := by
    apply hbanTok
    cases v with
    | num w => exact hv.1
    | txt w => exact hv.1
  apply noWin_append (x := f)
  · exact noWin_of_wsfree (goodTok_wsfree hf)
  · cases hop : op
    case notLike =>
      have hshape : ' ' :: (renderOp SOp.notLike ++ ' ' :: renderLit v) =
          ' ' :: (['N','O','T'] ++ ' ' :: (['L','I','K','E'] ++ ' ' :: renderLit v)) := by
        simp [renderOp]
      rw [hshape]
      apply noWin_cons
      · have h1 : (['N','O','T'] ++ ' ' :: (['L','I','K','E'] ++ ' ' :: renderLit v)) ++ rest =
            ['N','O','T'] ++ ' ' :: ((['L','I','K','E'] ++ ' ' :: renderLit v) ++ rest) := by
          simp
        rw [h1]
        exact winAt_token_none (by decide) (Or.inr wf.sp) (Or.inl wf.bnot)
      · apply noWin_append (x := ['N','O','T'])
        · exact noWin_of_wsfree (by decide)
        · exact noWin_ws_tok_lit wf (by decide) wf.blike hv hbl hrh
    all_goals
      exact noWin_ws_tok_lit wf (by decide) (wf.bop _ (by simp)) hv hbl hrh

theorem renderLit_wsfree_of_tok {l : SLit} (h : goodTok (litVal l)) :
    ∀ c ∈ renderLit l, pyWs c = false := by
  cases l with
  | num v => exact goodTok_wsfree h
  | txt v =>
    intro c hc
    simp only [renderLit, List.mem_cons, List.mem_append, List.mem_singleton] at hc
    rcases hc with (rfl | hc) | (rfl | hx)
    · rfl
    · exact goodTok_wsfree h c hc
    · rfl
    · exact absurd hx (by simp)

/-- Window-freedom of a rendered `IS [NOT] NULL` fragment. -/
theorem noWin_isNull {word : List Char} (wf : WordFacts word)
    (hbanTok : ∀ t, goodTok t → lcStr t ≠ lcStr word)
    {f : List Char} {neg : Bool} {rest : List Char}
    (hg : goodFrag (SFrag.isNull f neg))
    (hrh : rest = [] ∨ rest.headI = ' ') :
    noWin word (renderFrag (SFrag.isNull f neg)) rest := by
  have hf : goodTok f := hg
  apply noWin_append (x := f)
  · exact noWin_of_wsfree (goodTok_wsfree hf)
  · cases neg with
    | false =>
      rw [show (if (false : Bool) then ['I','S',' ','N','O','T',' ','N','U','L','L']
          else ['I','S',' ','N','U','L','L']) = ['I','S'] ++ ' ' :: ['N','U','L','L'] from rfl]
      apply noWin_cons
      · have h1 : (['I','S'] ++ ' ' :: ['N','U','L','L']) ++ rest =
            ['I','S'] ++ ' ' :: (['N','U','L','L'] ++ rest) := by simp
        rw [h1]
        exact winAt_token_none (by decide) (Or.inr wf.sp) (Or.inl wf.bis)
      · apply noWin_append (x := ['I','S'])
        · exact noWin_of_wsfree (by decide)
        · apply noWin_cons
          · exact winAt_token_none (by decide) (hrh_of_sep wf.sp hrh) (Or.inl wf.bnull)
          · exact noWin_of_wsfree (by decide)
    | true =>
      rw [show (if (true : Bool) then ['I','S',' ','N','O','T',' ','N','U','L','L']
          else ['I','S',' ','N','U','L','L']) =
          ['I','S'] ++ ' ' :: (['N','O','T'] ++ ' ' :: ['N','U','L','L']) from rfl]
      apply noWin_cons
      · have h1 : (['I','S'] ++ ' ' :: (['N','O','T'] ++ ' ' :: ['N','U','L','L'])) ++ rest =
            ['I','S'] ++ ' ' :: ((['N','O','T'] ++ ' ' :: ['N','U','L','L']) ++ rest) := by
          simp
        rw [h1]
        exact winAt_token_none (by decide) (Or.inr wf.sp) (Or.inl wf.bis)
      · apply noWin_append (x := ['I','S'])
        · exact noWin_of_wsfree (by decide)
        · apply noWin_cons
          · have h1 : (['N','O','T'] ++ ' ' :: ['N','U','L','L']) ++ rest =
                ['N','O','T'] ++ ' ' :: (['N','U','L','L'] ++ rest) := by simp
            rw [h1]
            exact winAt_token_none (by decide) (Or.inr wf.sp) (Or.inl wf.bnot)
          · apply noWin_append (x := ['N','O','T'])
            · exact noWin_of_wsfree (by decide)
            · apply noWin_cons
              · exact winAt_token_none (by decide) (hrh_of_sep wf.sp hrh)
                  (Or.inl wf.bnull)
              · exact noWin_of_wsfree (by decide)

/-- Elements of a well-formed IN list are good tokens. -/
theorem inList_elems_tok {f : List Char} {neg : Bool} {v0 : SLit} {vrest : List SLit}
    (hg : goodFrag (SFrag.inList f neg v0 vrest)) :
    ∀ l ∈ vrest, goodTok (litVal l) := by
  intro l hl
  rcases hg with ⟨-, hv0, hnum, htxt⟩
  cases h0 : v0 with
  | num w =>
    rcases hnum ⟨w, h0⟩ l hl with ⟨w2, rfl, hw2, -⟩
    exact hw2
  | txt w =>
    rcases htxt ⟨w, h0⟩ l hl with ⟨w2, rfl, hw2⟩
    exact hw2

theorem noWin_inner {word : List Char} (wf : WordFacts word)
    (hbanTok : ∀ t, goodTok t → lcStr t ≠ lcStr word) :
    ∀ (vrest : List SLit) (rest : List Char),
      (∀ l ∈ vrest, goodTok (litVal l)) → (rest = [] ∨ rest.headI = ' ') →
      noWin word ((vrest.flatMap (fun l => ',' :: ' ' :: renderLit l)) ++ [')']) rest := by
  intro vrest
  induction vrest with
  | nil =>
    intro rest _ _
    exact noWin_of_wsfree (by decide)
  | cons l ls ih =>
    intro rest hels hrh
    have hsh : ((l :: ls).flatMap (fun l => ',' :: ' ' :: renderLit l)) ++ [')'] =
        ',' :: ' ' :: (renderLit l ++
          ((ls.flatMap (fun l => ',' :: ' ' :: renderLit l)) ++ [')'])) := by
      simp
    rw [hsh]
    apply noWin_cons
    · exact winAt_nonws (by decide)
    · apply noWin_cons
      · have hhead : (ls.flatMap (fun l => ',' :: ' ' :: renderLit l)) ++ [')'] ++ rest = [] ∨
            lcChar ((ls.flatMap (fun l => ',' :: ' ' :: renderLit l)) ++ [')'] ++ rest).headI ∉
              lcStr word := by
          right
          cases ls with
          | nil =>
            have : ((([] : List SLit).flatMap (fun l => ',' :: ' ' :: renderLit l)) ++ [')'] ++
                rest).headI = ')' := rfl
            rw [this]
            exact wf.par
          | cons l2 ls2 =>
            have : (((l2 :: ls2).flatMap (fun l => ',' :: ' ' :: renderLit l)) ++ [')'] ++
                rest).headI = ',' := rfl
            rw [this]
            exact wf.comma
        have h1 : (renderLit l ++
              ((ls.flatMap (fun l => ',' :: ' ' :: renderLit l)) ++ [')'])) ++ rest =
            renderLit l ++ ((ls.flatMap (fun l => ',' :: ' ' :: renderLit l)) ++ [')'] ++ rest) := by
          simp
        rw [h1]
        have htok : goodTok (litVal l) := hels l (List.mem_cons_self l ls)
        exact winAt_lit_none (hbanTok _ htok) (goodTok_wsfree htok) wf.quo hhead
      · apply noWin_append (x := renderLit l)
        · exact noWin_of_wsfree (renderLit_wsfree_of_tok
            (hels l (List.mem_cons_self l ls)))
        · exact ih rest (fun x hx => hels x (List.mem_cons_of_mem _ hx)) hrh

theorem bound_head_cases {word : List Char} (wf : WordFacts word)
    (vrest : List SLit) (rest : List Char) :
    lcChar ((vrest.flatMap (fun l => ',' :: ' ' :: renderLit l)) ++ [')'] ++ rest).headI ∉
        lcStr word ∧
    pyWs ((vrest.flatMap (fun l => ',' :: ' ' :: renderLit l)) ++ [')'] ++ rest).headI =
        false := by
  cases vrest with
  | nil =>
    have e : ((([] : List SLit).flatMap (fun l => ',' :: ' ' :: renderLit l)) ++ [')'] ++
        rest).headI = ')' := rfl
    rw [e]
    exact ⟨wf.par, rfl⟩
  | cons l2 ls2 =>
    have e : (((l2 :: ls2).flatMap (fun l => ',' :: ' ' :: renderLit l)) ++ [')'] ++
        rest).headI = ',' := rfl
    rw [e]
    exact ⟨wf.comma, rfl⟩

theorem winAt_INpart_none {word : List Char} (wf : WordFacts word)
    {v0 : SLit} {vrest : List SLit} {rest : List Char}
    (hv0tok : goodTok (litVal v0)) :
    winAt word (' ' :: (('I':: 'N':: ' ':: '('::(renderInner v0 vrest ++ [')'])) ++ rest)) =
      Option.none := by
  have h1 : ('I':: 'N':: ' ':: '('::(renderInner v0 vrest ++ [')'])) ++ rest =
      ['I','N'] ++ ' ' :: ('('::(renderInner v0 vrest ++ [')']) ++ rest) := by simp
  rw [h1]
  exact winAt_token_none (by decide) (Or.inr wf.sp) (Or.inl wf.bin)

theorem noWin_INpart {word : List Char} (wf : WordFacts word)
    (hbanTok : ∀ t, goodTok t → lcStr t ≠ lcStr word)
    {v0 : SLit} {vrest : List SLit} {rest : List Char}
    (hv0tok : goodTok (litVal v0)) (hels : ∀ l ∈ vrest, goodTok (litVal l))
    (hrh : rest = [] ∨ rest.headI = ' ') :
    noWin word ('I':: 'N':: ' ':: '('::(renderInner v0 vrest ++ [')'])) rest := by
  have hflat : renderInner v0 vrest ++ [')'] =
      renderLit v0 ++ ((vrest.flatMap (fun l => ',' :: ' ' :: renderLit l)) ++ [')']) := by
    simp [renderInner]
  show noWin word ('I' :: ('N':: ' ':: '('::(renderInner v0 vrest ++ [')']))) rest
  apply noWin_cons (winAt_nonws (by decide))
  apply noWin_cons (winAt_nonws (by decide))
  apply noWin_cons
  · have h2 : ('('::(renderInner v0 vrest ++ [')'])) ++ rest =
        ('(' :: renderLit v0) ++
          ((vrest.flatMap (fun l => ',' :: ' ' :: renderLit l)) ++ [')'] ++ rest) := by
      simp [renderInner]
    rw [h2]
    refine winAt_token_none ?_ (Or.inr (bound_head_cases wf vrest rest).1)
      (Or.inr (Or.inr (bound_head_cases wf vrest rest).2))
    intro c hc
    rcases List.mem_cons.mp hc with rfl | hc2
    · rfl
    · exact renderLit_wsfree_of_tok hv0tok c hc2
  apply noWin_cons (winAt_nonws (by decide))
  rw [hflat]
  apply noWin_append (x := renderLit v0)
  · exact noWin_of_wsfree (renderLit_wsfree_of_tok hv0tok)
  · exact noWin_inner wf hbanTok vrest rest hels hrh

/-- Window-freedom of a rendered `IN` fragment. -/
theorem noWin_inList {word : List Char} (wf : WordFacts word)
    (hbanTok : ∀ t, goodTok t → lcStr t ≠ lcStr word)
    {f : List Char} {neg : Bool} {v0 : SLit} {vrest : List SLit} {rest : List Char}
    (hg : goodFrag (SFrag.inList f neg v0 vrest))
    (hrh : rest = [] ∨ rest.headI = ' ') :
    noWin word (renderFrag (SFrag.inList f neg v0 vrest)) rest := by
  have hf : goodTok f := hg.1
  have hv0tok : goodTok (litVal v0) := goodLit_tok hg.2.1
  have hels := inList_elems_tok hg
  apply noWin_append (x := f)
  · exact noWin_of_wsfree (goodTok_wsfree hf)
  · cases neg with
    | false =>
      rw [show ((if (false : Bool) then ['N','O','T',' '] else []) ++
          'I':: 'N':: ' ':: '(':: (renderInner v0 vrest ++ [')'])) =
          'I':: 'N':: ' ':: '(':: (renderInner v0 vrest ++ [')']) from rfl]
      apply noWin_cons
      · exact winAt_INpart_none wf hv0tok
      · exact noWin_INpart wf hbanTok hv0tok hels hrh
    | true =>
      rw [show ((if (true : Bool) then ['N','O','T',' '] else []) ++
          'I':: 'N':: ' ':: '(':: (renderInner v0 vrest ++ [')'])) =
          ['N','O','T'] ++ ' ' :: ('I':: 'N':: ' ':: '(':: (renderInner v0 vrest ++ [')']))
          from rfl]
      apply noWin_cons
      · have h1 : (['N','O','T'] ++ ' ' ::
            ('I':: 'N':: ' ':: '(':: (renderInner v0 vrest ++ [')']))) ++ rest =
            ['N','O','T'] ++ ' ' ::
              (('I':: 'N':: ' ':: '(':: (renderInner v0 vrest ++ [')'])) ++ rest) := by
          simp
        rw [h1]
        exact winAt_token_none (by decide) (Or.inr wf.sp) (Or.inl wf.bnot)
      · apply noWin_append (x := ['N','O','T'])
        · exact noWin_of_wsfree (by decide)
        · apply noWin_cons
          · exact winAt_INpart_none wf hv0tok
          · exact noWin_INpart wf hbanTok hv0tok hels hrh

/-- Window-freedom of any rendered fragment. -/
theorem noWin_frag {word : List Char} (wf : WordFacts word)
    (hbanTok : ∀ t, goodTok t → lcStr t ≠ lcStr word)
    {fr : SFrag} {rest : List Char} (hg : goodFrag fr)
    (hrh : rest = [] ∨ rest.headI = ' ') :
    noWin word (renderFrag fr) rest := by
  cases fr with
  | cmp f op v => exact noWin_cmp wf hbanTok hg hrh
  | isNull f neg => exact noWin_isNull wf hbanTok hg hrh
  | inList f neg v0 vrest => exact noWin_inList wf hbanTok hg hrh

theorem renderFrag_decomp (fr : SFrag) :
    renderFrag fr = fragField fr ++ ' ' :: fragTail fr := by
  cases fr <;> rfl

theorem fragField_good {fr : SFrag} (hg : goodFrag fr) : goodTok (fragField fr) := by
  cases fr with
  | cmp f op v => exact hg.1
  | isNull f neg => exact hg
  | inList f neg v0 vrest => exact hg.1

theorem winAt_fragStart_none {word : List Char} (wf : WordFacts word)
    (hbanTok : ∀ t, goodTok t → lcStr t ≠ lcStr word)
    {fr : SFrag} {REST : List Char} (hg : goodFrag fr) :
    winAt word (' ' :: (renderFrag fr ++ REST)) = Option.none := by
  rw [renderFrag_decomp]
  have h1 : (fragField fr ++ ' ' :: fragTail fr) ++ REST =
      fragField fr ++ ' ' :: (fragTail fr ++ REST) := by simp
  rw [h1]
  exact winAt_token_none (goodTok_wsfree (fragField_good hg)) (Or.inr wf.sp)
    (Or.inl (hbanTok _ (fragField_good hg)))

theorem renderClause_cons_cons (fr fr2 : SFrag) (frs : List SFrag) :
    renderClause (fr :: fr2 :: frs) =
      renderFrag fr ++ ' ':: 'A':: 'N':: 'D':: ' ':: renderClause (fr2 :: frs) := rfl

theorem splitTokGo_and_clause (hbanTok : ∀ t, goodTok t → lcStr t ≠ lcStr wAND) :
    ∀ (frags : List SFrag) (fuel : Nat) (acc : List Char),
      (∀ fr ∈ frags, goodFrag fr) → (renderClause frags).length < fuel →
      splitTokGo wAND fuel acc (renderClause frags) =
        match frags with
        | [] => [acc.reverse]
        | fr :: frs => (acc.reverse ++ renderFrag fr) :: frs.map renderFrag := by
  intro frags
  induction frags with
  | nil =>
    intro fuel acc _ hf
    cases fuel with
    | zero => simp at hf
    | succ g => rfl
  | cons fr frs ih =>
    intro fuel acc hg hf
    cases frs with
    | nil =>
      have hnw : ∀ i, i < (renderClause [fr]).length →
          winAt wAND ((renderClause [fr]).drop i) = Option.none := by
        intro i hi
        have := noWin_frag wordFacts_and hbanTok
          (hg fr (List.mem_cons_self fr [])) (Or.inl rfl) i (by
            simpa [renderClause] using hi)
        simpa [renderClause] using this
      rw [splitTokGo_nowin (renderClause [fr]) acc fuel hf hnw]
      simp [renderClause]
    | cons fr2 frs2 =>
      rw [renderClause_cons_cons]
      have hlen : (renderFrag fr).length + 5 + (renderClause (fr2 :: frs2)).length < fuel := by
        have : (renderFrag fr ++ ' ':: 'A':: 'N':: 'D':: ' ':: renderClause (fr2 :: frs2)).length =
            (renderFrag fr).length + 5 + (renderClause (fr2 :: frs2)).length := by
          simp
          omega
        rw [renderClause_cons_cons] at hf
        omega
      have hthrough := splitTokGo_through (w := wAND) (renderFrag fr) acc
        (' ':: 'A':: 'N':: 'D':: ' ':: renderClause (fr2 :: frs2)) fuel
        (by omega)
        (noWin_frag wordFacts_and hbanTok (hg fr (List.mem_cons_self fr _))
          (Or.inr rfl))
      rw [hthrough]
      have hg2 : fuel - (renderFrag fr).length = (fuel - (renderFrag fr).length - 1) + 1 := by
        omega
      rw [hg2]
      have hwin : winAt wAND (' ':: 'A':: 'N':: 'D':: ' ':: renderClause (fr2 :: frs2)) =
          some (renderClause (fr2 :: frs2)) := rfl
      simp only [splitTokGo, hwin]
      rw [ih (fuel - (renderFrag fr).length - 1) []
        (fun x hx => hg x (List.mem_cons_of_mem _ hx)) (by omega)]
      simp

theorem winAt_clauseStart_none {word : List Char} (wf : WordFacts word)
    (hbanTok : ∀ t, goodTok t → lcStr t ≠ lcStr word)
    {fr : SFrag} {frs : List SFrag} (hg : goodFrag fr) :
    winAt word (' ' :: renderClause (fr :: frs)) = Option.none := by
  cases frs with
  | nil =>
    have h1 : renderClause [fr] = renderFrag fr ++ [] := by simp [renderClause]
    rw [h1]
    exact winAt_fragStart_none wf hbanTok hg
  | cons fr2 frs2 =>
    rw [renderClause_cons_cons]
    exact winAt_fragStart_none wf hbanTok hg

theorem splitTok_and_ws_clause (hbanTok : ∀ t, goodTok t → lcStr t ≠ lcStr wAND)
    (fr : SFrag) (frs : List SFrag) (hg : ∀ x ∈ fr :: frs, goodFrag x) :
    splitTok wAND (' ' :: renderClause (fr :: frs)) =
      (' ' :: renderFrag fr) :: frs.map renderFrag := by
  unfold splitTok
  have hstep : splitTokGo wAND ((' ' :: renderClause (fr :: frs)).length + 1) []
      (' ' :: renderClause (fr :: frs)) =
      splitTokGo wAND ((renderClause (fr :: frs)).length + 1) [' ']
        (renderClause (fr :: frs)) := by
    have hw := @winAt_clauseStart_none wAND wordFacts_and hbanTok fr frs (hg fr (List.mem_cons_self fr _))
    simp only [List.length_cons, splitTokGo, hw]
  rw [hstep]
  rw [splitTokGo_and_clause hbanTok (fr :: frs) _ [' '] hg (Nat.lt_succ_self _)]
  rfl

theorem splitTok_or_frag (hbanTok : ∀ t, goodTok t → lcStr t ≠ lcStr wOR)
    {fr : SFrag} (hg : goodFrag fr) :
    splitTok wOR (renderFrag fr) = [renderFrag fr] := by
  apply splitTok_nowin
  intro i hi
  have := noWin_frag wordFacts_or hbanTok hg (Or.inl rfl) i hi
  simpa using this

theorem splitTok_or_ws_frag (hbanTok : ∀ t, goodTok t → lcStr t ≠ lcStr wOR)
    {fr : SFrag} (hg : goodFrag fr) :
    splitTok wOR (' ' :: renderFrag fr) = [' ' :: renderFrag fr] := by
  apply splitTok_nowin
  intro i hi
  cases i with
  | zero =>
    have h1 : renderFrag fr = renderFrag fr ++ [] := by simp
    have := @winAt_fragStart_none wOR wordFacts_or hbanTok fr [] hg
    rw [← h1] at this
    simpa using this
  | succ j =>
    have hj : j < (renderFrag fr).length := by simpa using hi
    have := noWin_frag wordFacts_or hbanTok hg (Or.inl rfl) j hj
    simpa using this

theorem flatMap_or_split (hbanTok : ∀ t, goodTok t → lcStr t ≠ lcStr wOR)
    (fr : SFrag) (frs : List SFrag) (hg : ∀ x ∈ fr :: frs, goodFrag x) :
    ((' ' :: renderFrag fr) :: frs.map renderFrag).flatMap (splitTok wOR) =
      (' ' :: renderFrag fr) :: frs.map renderFrag := by
  have htail : ∀ (fs : List SFrag), (∀ x ∈ fs, goodFrag x) →
      (fs.map renderFrag).flatMap (splitTok wOR) = fs.map renderFrag := by
    intro fs
    induction fs with
    | nil => intro _; rfl
    | cons a as iha =>
      intro has
      simp only [List.map_cons, List.flatMap_cons]
      rw [splitTok_or_frag hbanTok (has a (List.mem_cons_self a as)),
        iha (fun x hx => has x (List.mem_cons_of_mem _ hx))]
      rfl
  simp only [List.flatMap_cons]
  rw [splitTok_or_ws_frag hbanTok (hg fr (List.mem_cons_self fr _)),
    htail frs (fun x hx => hg x (List.mem_cons_of_mem _ hx))]
  rfl

/-! ## Letter-sequence freedom of rendered text -/

theorem containsSub_cons_of_prefix_false {pat : List Char} {c : Char} {cs : List Char}
    (h : isPrefixOfB pat (c :: cs) = false) :
    containsSub pat (c :: cs) = containsSub pat cs := by
  simp [containsSub, h]

theorem containsSub_append_no_head {p : Char} {ps : List Char} :
    ∀ {x rest : List Char}, p ∉ x →
      containsSub (p :: ps) (x ++ rest) = containsSub (p :: ps) rest := by
  intro x
  induction x with
  | nil => intro rest _; rfl
  | cons c cx ih =>
    intro rest hx
    have hc : p ≠ c := fun hh => hx (hh ▸ List.mem_cons_self c cx)
    rw [List.cons_append, containsSub_cons_head_ne hc]
    exact ih (fun hh => hx (List.mem_cons_of_mem _ hh))

theorem goodTok_noBet {t : List Char} (h : goodTok t) :
    containsSub ['b','e','t','w','e','e','n'] (lcStr t) = false := h.2.2.2.2.2.2

theorem goodTok_noNot {t : List Char} (h : goodTok t) :
    containsSub ['N','O','T'] (ucStr t) = false := h.2.2.2.2.2.1

theorem lcStr_append (x y : List Char) : lcStr (x ++ y) = lcStr x ++ lcStr y := by
  simp [lcStr]

theorem ucStr_append (x y : List Char) : ucStr (x ++ y) = ucStr x ++ ucStr y := by
  simp [ucStr]

theorem noBet_tok_bound {t rest : List Char} (ht : goodTok t)
    (hrest : containsSub ['b','e','t','w','e','e','n'] rest = false)
    (hb : rest = [] ∨ boundCh rest.headI) :
    containsSub ['b','e','t','w','e','e','n'] (lcStr t ++ rest) = false := by
  cases rest with
  | nil =>
    rw [List.append_nil]
    exact goodTok_noBet ht
  | cons b z =>
    have hbz : b ∉ ['b','e','t','w','e','e','n'] := by
      rcases hb with hb | hb
      · exact absurd hb (by simp)
      · have hbb : b = ' ' ∨ b = ',' ∨ b = ')' := hb
        rcases hbb with rfl | rfl | rfl <;> decide
    exact containsSub_append_brk (by decide) hbz (goodTok_noBet ht) hrest

theorem noBet_lit {l : SLit} {rest : List Char} (ht : goodTok (litVal l))
    (hrest : containsSub ['b','e','t','w','e','e','n'] rest = false)
    (hb : rest = [] ∨ boundCh rest.headI) :
    containsSub ['b','e','t','w','e','e','n'] (lcStr (renderLit l) ++ rest) = false := by
  cases l with
  | num v => exact noBet_tok_bound ht hrest hb
  | txt v =>
    have hsh : lcStr (renderLit (SLit.txt v)) ++ rest =
        '\'' :: (lcStr v ++ ('\'' :: rest)) := by
      simp [renderLit, lcStr]
      rfl
    rw [hsh, containsSub_cons_head_ne (by decide)]
    refine containsSub_append_brk (by decide) (by decide) (goodTok_noBet ht) ?_
    rw [containsSub_cons_head_ne (by decide)]
    exact hrest

theorem noBet_inner :
    ∀ (vrest : List SLit) (v0 : SLit), goodTok (litVal v0) →
      (∀ l ∈ vrest, goodTok (litVal l)) →
      ∀ {rest : List Char}, containsSub ['b','e','t','w','e','e','n'] rest = false →
        (rest = [] ∨ boundCh rest.headI) →
        containsSub ['b','e','t','w','e','e','n']
          (lcStr (renderInner v0 vrest) ++ rest) = false := by
  intro vrest
  induction vrest with
  | nil =>
    intro v0 h0 _ rest hrest hb
    have : renderInner v0 [] = renderLit v0 := by simp [renderInner]
    rw [this]
    exact noBet_lit h0 hrest hb
  | cons l ls ih =>
    intro v0 h0 hels rest hrest hb
    have hsh : lcStr (renderInner v0 (l :: ls)) ++ rest =
        lcStr (renderLit v0) ++ (',' :: ' ' ::
          (lcStr (renderInner l ls) ++ rest)) := by
      simp only [renderInner, List.flatMap_cons, lcStr, List.map_append, List.map_cons]
      simp
      exact ⟨rfl, rfl⟩
    rw [hsh]
    refine noBet_lit h0 ?_ (Or.inr (Or.inr (Or.inl rfl)))
    rw [containsSub_cons_head_ne (by decide), containsSub_cons_head_ne (by decide)]
    exact ih l (hels l (List.mem_cons_self l ls))
      (fun x hx => hels x (List.mem_cons_of_mem _ hx)) hrest hb

theorem noBet_frag {fr : SFrag} (hg : goodFrag fr) :
    ∀ {rest : List Char}, containsSub ['b','e','t','w','e','e','n'] rest = false →
      (rest = [] ∨ boundCh rest.headI) →
      containsSub ['b','e','t','w','e','e','n'] (lcStr (renderFrag fr) ++ rest) = false := by
  intro rest hrest hb
  cases fr with
  | cmp f op v =>
    have hsh : lcStr (renderFrag (SFrag.cmp f op v)) ++ rest =
        lcStr f ++ (' ' :: (lcStr (renderOp op) ++ (' ' :: (lcStr (renderLit v) ++ rest)))) := by
      simp only [renderFrag, lcStr, List.map_append, List.map_cons]
      simp
      rfl
    rw [hsh]
    refine noBet_tok_bound hg.1 ?_ (Or.inr (Or.inl rfl))
    rw [containsSub_cons_head_ne (by decide)]
    have hop : ('b' : Char) ∉ lcStr (renderOp op) ++ [' '] := by
      cases op <;> decide
    have hre : lcStr (renderOp op) ++ (' ' :: (lcStr (renderLit v) ++ rest)) =
        (lcStr (renderOp op) ++ [' ']) ++ (lcStr (renderLit v) ++ rest) := by simp
    rw [hre, containsSub_append_no_head hop]
    exact noBet_lit (goodLit_tok hg.2) hrest hb
  | isNull f neg =>
    cases neg with
    | false =>
      have hsh : lcStr (renderFrag (SFrag.isNull f false)) ++ rest =
          lcStr f ++ (' ' :: ('i':: 's':: ' ':: 'n':: 'u':: 'l':: 'l':: rest)) := by
        simp only [renderFrag, lcStr, List.map_append, List.map_cons]
        simp
        decide
      rw [hsh]
      refine noBet_tok_bound hg ?_ (Or.inr (Or.inl rfl))
      have hx : ('b' : Char) ∉ [' ','i','s',' ','n','u','l','l'] := by decide
      have :  (' ' :: ('i':: 's':: ' ':: 'n':: 'u':: 'l':: 'l':: rest)) =
          [' ','i','s',' ','n','u','l','l'] ++ rest := rfl
      rw [this, containsSub_append_no_head hx]
      exact hrest
    | true =>
      have hsh : lcStr (renderFrag (SFrag.isNull f true)) ++ rest =
          lcStr f ++ (' ' :: ('i':: 's':: ' ':: 'n':: 'o':: 't':: ' ':: 'n':: 'u':: 'l':: 'l':: rest)) := by
        simp only [renderFrag, lcStr, List.map_append, List.map_cons]
        simp
        decide
      rw [hsh]
      refine noBet_tok_bound hg ?_ (Or.inr (Or.inl rfl))
      have hx : ('b' : Char) ∉ [' ','i','s',' ','n','o','t',' ','n','u','l','l'] := by decide
      have : (' ' :: ('i':: 's':: ' ':: 'n':: 'o':: 't':: ' ':: 'n':: 'u':: 'l':: 'l':: rest)) =
          [' ','i','s',' ','n','o','t',' ','n','u','l','l'] ++ rest := rfl
      rw [this, containsSub_append_no_head hx]
      exact hrest
  | inList f neg v0 vrest =>
    have hsh : lcStr (renderFrag (SFrag.inList f neg v0 vrest)) ++ rest =
        lcStr f ++ (' ' :: ((if neg then ['n','o','t',' '] else []) ++
          ('i':: 'n':: ' ':: '(':: (lcStr (renderInner v0 vrest) ++ (')' :: rest))))) := by
      cases neg <;>
        (simp only [renderFrag, lcStr, List.map_append, List.map_cons, List.map_nil]
         simp
         decide)
    rw [hsh]
    refine noBet_tok_bound hg.1 ?_ (Or.inr (Or.inl rfl))
    have hcat : (' ' :: ((if neg then ['n','o','t',' '] else []) ++
        ('i':: 'n':: ' ':: '(':: (lcStr (renderInner v0 vrest) ++ (')' :: rest))))) =
        (' ' :: ((if neg then ['n','o','t',' '] else []) ++ ['i','n',' ','('])) ++
          (lcStr (renderInner v0 vrest) ++ (')' :: rest)) := by
      cases neg <;> simp
    have hx : ('b' : Char) ∉ (' ' :: ((if neg then ['n','o','t',' '] else []) ++
        ['i','n',' ','('])) := by
      cases neg <;> decide
    rw [hcat, containsSub_append_no_head hx]
    refine noBet_inner vrest v0 (goodLit_tok hg.2.1) (inList_elems_tok hg) ?_
      (Or.inr (Or.inr (Or.inr rfl)))
    rw [containsSub_cons_head_ne (by decide)]
    exact hrest

theorem noBet_clause : ∀ {frags : List SFrag}, (∀ fr ∈ frags, goodFrag fr) →
    containsSub ['b','e','t','w','e','e','n'] (lcStr (renderClause frags)) = false := by
  intro frags
  induction frags with
  | nil => intro _; rfl
  | cons fr frs ih =>
    intro hg
    cases frs with
    | nil =>
      have h1 : lcStr (renderClause [fr]) = lcStr (renderFrag fr) ++ [] := by
        simp [renderClause]
      rw [h1]
      exact noBet_frag (hg fr (List.mem_cons_self fr _)) rfl (Or.inl rfl)
    | cons fr2 frs2 =>
      rw [renderClause_cons_cons]
      have h1 : lcStr (renderFrag fr ++ ' ':: 'A':: 'N':: 'D':: ' ':: renderClause (fr2 :: frs2)) =
          lcStr (renderFrag fr) ++ (' ':: 'a':: 'n':: 'd':: ' ':: lcStr (renderClause (fr2 :: frs2))) := by
        simp only [lcStr, List.map_append, List.map_cons]
        rfl
      rw [h1]
      refine noBet_frag (hg fr (List.mem_cons_self fr _)) ?_ (Or.inr (Or.inl rfl))
      have hx : ('b' : Char) ∉ [' ','a','n','d',' '] := by decide
      have h2 : (' ':: 'a':: 'n':: 'd':: ' ':: lcStr (renderClause (fr2 :: frs2))) =
          [' ','a','n','d',' '] ++ lcStr (renderClause (fr2 :: frs2)) := rfl
      rw [h2, containsSub_append_no_head hx]
      exact ih (fun x hx2 => hg x (List.mem_cons_of_mem _ hx2))

theorem noNot_tok_bound {t rest : List Char} (ht : goodTok t)
    (hrest : containsSub ['N','O','T'] rest = false)
    (hb : rest = [] ∨ boundCh rest.headI) :
    containsSub ['N','O','T'] (ucStr t ++ rest) = false := by
  cases rest with
  | nil =>
    rw [List.append_nil]
    exact goodTok_noNot ht
  | cons b z =>
    have hbz : b ∉ ['N','O','T'] := by
      rcases hb with hb | hb
      · exact absurd hb (by simp)
      · have hbb : b = ' ' ∨ b = ',' ∨ b = ')' := hb
        rcases hbb with rfl | rfl | rfl <;> decide
    exact containsSub_append_brk (by decide) hbz (goodTok_noNot ht) hrest

theorem noNot_lit {l : SLit} {rest : List Char} (ht : goodTok (litVal l))
    (hrest : containsSub ['N','O','T'] rest = false)
    (hb : rest = [] ∨ boundCh rest.headI) :
    containsSub ['N','O','T'] (ucStr (renderLit l) ++ rest) = false := by
  cases l with
  | num v => exact noNot_tok_bound ht hrest hb
  | txt v =>
    have hsh : ucStr (renderLit (SLit.txt v)) ++ rest =
        '\'' :: (ucStr v ++ ('\'' :: rest)) := by
      simp [renderLit, ucStr]
      rfl
    rw [hsh, containsSub_cons_head_ne (by decide)]
    refine containsSub_append_brk (by decide) (by decide) (goodTok_noNot ht) ?_
    rw [containsSub_cons_head_ne (by decide)]
    exact hrest

theorem noNot_inner :
    ∀ (vrest : List SLit) (v0 : SLit), goodTok (litVal v0) →
      (∀ l ∈ vrest, goodTok (litVal l)) →
      ∀ {rest : List Char}, containsSub ['N','O','T'] rest = false →
        (rest = [] ∨ boundCh rest.headI) →
        containsSub ['N','O','T'] (ucStr (renderInner v0 vrest) ++ rest) = false := by
  intro vrest
  induction vrest with
  | nil =>
    intro v0 h0 _ rest hrest hb
    have : renderInner v0 [] = renderLit v0 := by simp [renderInner]
    rw [this]
    exact noNot_lit h0 hrest hb
  | cons l ls ih =>
    intro v0 h0 hels rest hrest hb
    have hsh : ucStr (renderInner v0 (l :: ls)) ++ rest =
        ucStr (renderLit v0) ++ (',' :: ' ' ::
          (ucStr (renderInner l ls) ++ rest)) := by
      simp only [renderInner, List.flatMap_cons, ucStr, List.map_append, List.map_cons]
      simp
      decide
    rw [hsh]
    refine noNot_lit h0 ?_ (Or.inr (Or.inr (Or.inl rfl)))
    rw [containsSub_cons_head_ne (by decide), containsSub_cons_head_ne (by decide)]
    exact ih l (hels l (List.mem_cons_self l ls))
      (fun x hx => hels x (List.mem_cons_of_mem _ hx)) hrest hb

theorem notSniff_isNull {f : List Char} (hf : goodTok f) (neg : Bool) :
    containsSub ['N','O','T'] (ucStr (renderFrag (SFrag.isNull f neg))) =
      neg := by
  cases neg with
  | false =>
    have hsh : ucStr (renderFrag (SFrag.isNull f false)) =
        ucStr f ++ (' ' :: ['I','S',' ','N','U','L','L']) := by
      simp only [renderFrag, ucStr, List.map_append, List.map_cons]
      simp
      decide
    rw [hsh]
    exact noNot_tok_bound hf (by decide) (Or.inr (Or.inl rfl))
  | true =>
    have hsh : ucStr (renderFrag (SFrag.isNull f true)) =
        (ucStr f ++ [' ','I','S',' ']) ++ ['N','O','T'] ++ [' ','N','U','L','L'] := by
      simp only [renderFrag, ucStr, List.map_append, List.map_cons]
      simp
      decide
    rw [hsh]
    exact containsSub_of_decomp (by decide) rfl

theorem notSniff_inList {f : List Char} (hf : goodTok f) (neg : Bool)
    {v0 : SLit} {vrest : List SLit} (h0 : goodTok (litVal v0))
    (hels : ∀ l ∈ vrest, goodTok (litVal l)) :
    containsSub ['N','O','T'] (ucStr (renderFrag (SFrag.inList f neg v0 vrest))) =
      neg := by
  cases neg with
  | false =>
    have hsh : ucStr (renderFrag (SFrag.inList f false v0 vrest)) =
        ucStr f ++ (' ' :: ('I':: 'N':: ' ':: '(':: (ucStr (renderInner v0 vrest) ++ [')']))) := by
      simp only [renderFrag, ucStr, List.map_append, List.map_cons, List.map_nil]
      simp
      decide
    rw [hsh]
    refine noNot_tok_bound hf ?_ (Or.inr (Or.inl rfl))
    rw [containsSub_cons_head_ne (by decide), containsSub_cons_head_ne (by decide),
      containsSub_cons_of_prefix_false (by rfl), containsSub_cons_head_ne (by decide),
      containsSub_cons_head_ne (by decide)]
    exact noNot_inner vrest v0 h0 hels (by decide) (Or.inr (Or.inr (Or.inr rfl)))
  | true =>
    have hsh : ucStr (renderFrag (SFrag.inList f true v0 vrest)) =
        (ucStr f ++ [' ']) ++ ['N','O','T'] ++
          (' ':: 'I':: 'N':: ' ':: '(':: (ucStr (renderInner v0 vrest) ++ [')'])) := by
      simp only [renderFrag, ucStr, List.map_append, List.map_cons, List.map_nil]
      simp
      decide
    rw [hsh]
    exact containsSub_of_decomp (by decide) rfl

/-! ## Quote stripping and string-level glue -/

theorem string_mk_append (a b : List Char) :
    (⟨a⟩ : String) ++ (⟨b⟩ : String) = (⟨a ++ b⟩ : String) := rfl

theorem stripQuotes_eq_self {cs : List Char}
    (h : ∀ c ∈ cs, (c = '\'' || c = '"') = false) : stripQuotes cs = cs := by
  simp only [stripQuotes]
  rw [dropWhile_eq_self_of_all h, dropWhile_eq_self_of_all, List.reverse_reverse]
  intro c hc
  exact h c (List.mem_reverse.mp hc)

theorem stripQuotes_quoted {v : List Char} (hne : v ≠ [])
    (h : ∀ c ∈ v, (c = '\'' || c = '"') = false) :
    stripQuotes ('\'' :: v ++ ['\'']) = v := by
  rcases v with _ | ⟨d, v'⟩
  · exact absurd rfl hne
  simp only [stripQuotes]
  have h1 : List.dropWhile (fun c => decide (c = '\'') || decide (c = '"'))
      ('\'' :: d :: v' ++ ['\'']) = d :: v' ++ ['\''] := by
    simp [List.dropWhile_cons, h d (List.mem_cons_self d v')]
  rw [h1]
  have h2 : (d :: v' ++ ['\'']).reverse = '\'' :: (d :: v').reverse := by simp
  rw [h2]
  have h4 := @dropWhile_eq_self_of_all
    (fun c => decide (c = '\'') || decide (c = '"'))
    ((d :: v').reverse) (by intro c hc; exact h c (List.mem_reverse.mp hc))
  have h3 : List.dropWhile (fun c => decide (c = '\'') || decide (c = '"'))
      ('\'' :: (d :: v').reverse) = (d :: v').reverse := by
    rw [List.dropWhile_cons, if_pos (by decide)]
    exact h4
  rw [h3, List.reverse_reverse]

/-! ## Anchored matcher failures on the non-idiom shapes -/

theorem matchToDateAt_noneA {f TAIL : List Char} (hfne : f ≠ [])
    (hfws : ∀ c ∈ f, pyWs c = false) (hTd : TAIL.dropWhile pyWs = TAIL)
    (hnot : dropLitCI ['n','o','t'] TAIL = Option.none)
    (hbet : dropLitCI ['b','e','t','w','e','e','n'] TAIL = Option.none) :
    matchToDateAt (f ++ ' ' :: TAIL) = Option.none := by
  rcases f with _ | ⟨a, f'⟩
  · exact absurd rfl hfne
  have hnws : ∀ c ∈ a :: f', notWs c = true := by
    intro c hc
    simp [notWs, hfws c hc]
  have hA : ((a :: f') ++ ' ' :: TAIL).takeWhile notWs = a :: f' :=
    takeWhile_append_cons _ _ _ hnws (by decide)
  have hB : ((a :: f') ++ ' ' :: TAIL).dropWhile notWs = ' ' :: TAIL :=
    dropWhile_append_cons _ _ _ hnws (by decide)
  have hC : parseWsPlus (' ' :: TAIL) = some (TAIL.dropWhile pyWs) := rfl
  have hEm : (a :: f').isEmpty = false := rfl
  simp only [matchToDateAt, hA, hB, hC, hTd, hEm, Bool.false_eq_true, if_false,
    hnot, hbet]

theorem matchToDateAt_noneB {f TAIL rn rn2 : List Char} (hfne : f ≠ [])
    (hfws : ∀ c ∈ f, pyWs c = false) (hTd : TAIL.dropWhile pyWs = TAIL)
    (hnot : dropLitCI ['n','o','t'] TAIL = some rn)
    (hpw : parseWsPlus rn = some rn2)
    (hbet : dropLitCI ['b','e','t','w','e','e','n'] rn2 = Option.none) :
    matchToDateAt (f ++ ' ' :: TAIL) = Option.none := by
  rcases f with _ | ⟨a, f'⟩
  · exact absurd rfl hfne
  have hnws : ∀ c ∈ a :: f', notWs c = true := by
    intro c hc
    simp [notWs, hfws c hc]
  have hA : ((a :: f') ++ ' ' :: TAIL).takeWhile notWs = a :: f' :=
    takeWhile_append_cons _ _ _ hnws (by decide)
  have hB : ((a :: f') ++ ' ' :: TAIL).dropWhile notWs = ' ' :: TAIL :=
    dropWhile_append_cons _ _ _ hnws (by decide)
  have hC : parseWsPlus (' ' :: TAIL) = some (TAIL.dropWhile pyWs) := rfl
  have hEm : (a :: f').isEmpty = false := rfl
  simp only [matchToDateAt, hA, hB, hC, hTd, hEm, Bool.false_eq_true, if_false,
    hnot, hpw, hbet]

theorem matchBetweenPat_noneA {f TAIL : List Char} (hfne : f ≠ [])
    (hfws : ∀ c ∈ f, pyWs c = false) (hTd : TAIL.dropWhile pyWs = TAIL)
    (hnot : dropLit ['N','O','T'] TAIL = Option.none)
    (hbet : dropLit ['B','E','T','W','E','E','N'] TAIL = Option.none) :
    matchBetweenPat (f ++ ' ' :: TAIL) = Option.none := by
  rcases f with _ | ⟨a, f'⟩
  · exact absurd rfl hfne
  have hnws : ∀ c ∈ a :: f', notWs c = true := by
    intro c hc
    simp [notWs, hfws c hc]
  have hA : ((a :: f') ++ ' ' :: TAIL).takeWhile notWs = a :: f' :=
    takeWhile_append_cons _ _ _ hnws (by decide)
  have hB : ((a :: f') ++ ' ' :: TAIL).dropWhile notWs = ' ' :: TAIL :=
    dropWhile_append_cons _ _ _ hnws (by decide)
  have hC : parseWsPlus (' ' :: TAIL) = some (TAIL.dropWhile pyWs) := rfl
  have hEm : (a :: f').isEmpty = false := rfl
  simp only [matchBetweenPat, hA, hB, hC, hTd, hEm, Bool.false_eq_true, if_false,
    hnot, hbet]

theorem matchBetweenPat_noneB {f TAIL rn rn2 : List Char} (hfne : f ≠ [])
    (hfws : ∀ c ∈ f, pyWs c = false) (hTd : TAIL.dropWhile pyWs = TAIL)
    (hnot : dropLit ['N','O','T'] TAIL = some rn)
    (hpw : parseWsPlus rn = some rn2)
    (hbet : dropLit ['B','E','T','W','E','E','N'] rn2 = Option.none) :
    matchBetweenPat (f ++ ' ' :: TAIL) = Option.none := by
  rcases f with _ | ⟨a, f'⟩
  · exact absurd rfl hfne
  have hnws : ∀ c ∈ a :: f', notWs c = true := by
    intro c hc
    simp [notWs, hfws c hc]
  have hA : ((a :: f') ++ ' ' :: TAIL).takeWhile notWs = a :: f' :=
    takeWhile_append_cons _ _ _ hnws (by decide)
  have hB : ((a :: f') ++ ' ' :: TAIL).dropWhile notWs = ' ' :: TAIL :=
    dropWhile_append_cons _ _ _ hnws (by decide)
  have hC : parseWsPlus (' ' :: TAIL) = some (TAIL.dropWhile pyWs) := rfl
  have hEm : (a :: f').isEmpty = false := rfl
  simp only [matchBetweenPat, hA, hB, hC, hTd, hEm, Bool.false_eq_true, if_false,
    hnot, hpw, hbet]

theorem matchInPat_noneA {f TAIL : List Char} (hfne : f ≠ [])
    (hfws : ∀ c ∈ f, pyWs c = false) (hTd : TAIL.dropWhile pyWs = TAIL)
    (hnot : dropLit ['N','O','T'] TAIL = Option.none)
    (hin : dropLit ['I','N'] TAIL = Option.none) :
    matchInPat (f ++ ' ' :: TAIL) = Option.none := by
  rcases f with _ | ⟨a, f'⟩
  · exact absurd rfl hfne
  have hnws : ∀ c ∈ a :: f', notWs c = true := by
    intro c hc
    simp [notWs, hfws c hc]
  have hA : ((a :: f') ++ ' ' :: TAIL).takeWhile notWs = a :: f' :=
    takeWhile_append_cons _ _ _ hnws (by decide)
  have hB : ((a :: f') ++ ' ' :: TAIL).dropWhile notWs = ' ' :: TAIL :=
    dropWhile_append_cons _ _ _ hnws (by decide)
  have hC : parseWsPlus (' ' :: TAIL) = some (TAIL.dropWhile pyWs) := rfl
  have hEm : (a :: f').isEmpty = false := rfl
  simp only [matchInPat, hA, hB, hC, hTd, hEm, Bool.false_eq_true, if_false,
    hnot, hin]

theorem matchInPat_noneB {f TAIL rn rn2 : List Char} (hfne : f ≠ [])
    (hfws : ∀ c ∈ f, pyWs c = false) (hTd : TAIL.dropWhile pyWs = TAIL)
    (hnot : dropLit ['N','O','T'] TAIL = some rn)
    (hpw : parseWsPlus rn = some rn2)
    (hin : dropLit ['I','N'] rn2 = Option.none) :
    matchInPat (f ++ ' ' :: TAIL) = Option.none := by
  rcases f with _ | ⟨a, f'⟩
  · exact absurd rfl hfne
  have hnws : ∀ c ∈ a :: f', notWs c = true := by
    intro c hc
    simp [notWs, hfws c hc]
  have hA : ((a :: f') ++ ' ' :: TAIL).takeWhile notWs = a :: f' :=
    takeWhile_append_cons _ _ _ hnws (by decide)
  have hB : ((a :: f') ++ ' ' :: TAIL).dropWhile notWs = ' ' :: TAIL :=
    dropWhile_append_cons _ _ _ hnws (by decide)
  have hC : parseWsPlus (' ' :: TAIL) = some (TAIL.dropWhile pyWs) := rfl
  have hEm : (a :: f').isEmpty = false := rfl
  simp only [matchInPat, hA, hB, hC, hTd, hEm, Bool.false_eq_true, if_false,
    hnot, hpw, hin]

theorem matchIsNullPat_noneH {f TAIL : List Char} (hfne : f ≠ [])
    (hfws : ∀ c ∈ f, pyWs c = false) (hTd : TAIL.dropWhile pyWs = TAIL)
    (his : dropLit ['I','S'] TAIL = Option.none) :
    matchIsNullPat (f ++ ' ' :: TAIL) = Option.none := by
  rcases f with _ | ⟨a, f'⟩
  · exact absurd rfl hfne
  have hnws : ∀ c ∈ a :: f', notWs c = true := by
    intro c hc
    simp [notWs, hfws c hc]
  have hA : ((a :: f') ++ ' ' :: TAIL).takeWhile notWs = a :: f' :=
    takeWhile_append_cons _ _ _ hnws (by decide)
  have hB : ((a :: f') ++ ' ' :: TAIL).dropWhile notWs = ' ' :: TAIL :=
    dropWhile_append_cons _ _ _ hnws (by decide)
  have hC : parseWsPlus (' ' :: TAIL) = some (TAIL.dropWhile pyWs) := rfl
  have hEm : (a :: f').isEmpty = false := rfl
  simp only [matchIsNullPat, hA, hB, hC, hTd, hEm, Bool.false_eq_true, if_false, his]

/-! ## Anchored matcher successes on the rendered shapes -/

theorem matchOpAlt_render (op : SOp) {v : List Char}
    (hvd : v.dropWhile pyWs = v) :
    matchOpAlt (renderOp op ++ ' ' :: v) = some (renderOp op, v) := by
  cases op with
  | eq =>
    rw [show matchOpAlt (renderOp SOp.eq ++ ' ' :: v) =
      some (['='], v.dropWhile pyWs) from rfl, hvd]
    rfl
  | ne =>
    rw [show matchOpAlt (renderOp SOp.ne ++ ' ' :: v) =
      some (['!','='], v.dropWhile pyWs) from rfl, hvd]
    rfl
  | ne2 =>
    rw [show matchOpAlt (renderOp SOp.ne2 ++ ' ' :: v) =
      some (['<','>'], v.dropWhile pyWs) from rfl, hvd]
    rfl
  | gt =>
    rw [show matchOpAlt (renderOp SOp.gt ++ ' ' :: v) =
      some (['>'], v.dropWhile pyWs) from rfl, hvd]
    rfl
  | lt =>
    rw [show matchOpAlt (renderOp SOp.lt ++ ' ' :: v) =
      some (['<'], v.dropWhile pyWs) from rfl, hvd]
    rfl
  | ge =>
    rw [show matchOpAlt (renderOp SOp.ge ++ ' ' :: v) =
      some (['>','='], v.dropWhile pyWs) from rfl, hvd]
    rfl
  | le =>
    rw [show matchOpAlt (renderOp SOp.le ++ ' ' :: v) =
      some (['<','='], v.dropWhile pyWs) from rfl, hvd]
    rfl
  | like =>
    rw [show matchOpAlt (renderOp SOp.like ++ ' ' :: v) =
      some (['L','I','K','E'], v.dropWhile pyWs) from rfl, hvd]
    rfl
  | notLike =>
    have h0 : matchOpAlt (renderOp SOp.notLike ++ ' ' :: v) =
        some ((renderOp SOp.notLike ++ ' ' :: v).take
          ((renderOp SOp.notLike ++ ' ' :: v).length - (' ' :: v).length),
          v.dropWhile pyWs) := rfl
    have h1 : (renderOp SOp.notLike ++ ' ' :: v).length - (' ' :: v).length = 8 := by
      simp [renderOp]
    rw [h0, h1, hvd]
    rfl

theorem matchOpPat_render (op : SOp) {f v : List Char} (hfne : f ≠ [])
    (hfws : ∀ c ∈ f, pyWs c = false) (hvd : v.dropWhile pyWs = v)
    (hvnl : ∀ c ∈ v, (decide (c ≠ '\n')) = true) :
    matchOpPat (f ++ ' ' :: (renderOp op ++ ' ' :: v)) =
      some (f, renderOp op, v) := by
  rcases f with _ | ⟨a, f'⟩
  · exact absurd rfl hfne
  have hnws : ∀ c ∈ a :: f', notWs c = true := by
    intro c hc
    simp [notWs, hfws c hc]
  have hA : ((a :: f') ++ ' ' :: (renderOp op ++ ' ' :: v)).takeWhile notWs =
      a :: f' := takeWhile_append_cons _ _ _ hnws (by decide)
  have hB : ((a :: f') ++ ' ' :: (renderOp op ++ ' ' :: v)).dropWhile notWs =
      ' ' :: (renderOp op ++ ' ' :: v) :=
    dropWhile_append_cons _ _ _ hnws (by decide)
  have hC : parseWsPlus (' ' :: (renderOp op ++ ' ' :: v)) =
      some ((renderOp op ++ ' ' :: v).dropWhile pyWs) := rfl
  have hTd : (renderOp op ++ ' ' :: v).dropWhile pyWs = renderOp op ++ ' ' :: v := by
    cases op <;> rfl
  have hAlt := matchOpAlt_render op hvd
  have hTk : v.takeWhile (fun c => decide (c ≠ '\n')) = v :=
    takeWhile_eq_self_of_all hvnl
  have hEm : (a :: f').isEmpty = false := rfl
  simp only [matchOpPat, hA, hB, hC, hTd, hAlt, hEm, Bool.false_eq_true, if_false,
    hTk]

theorem matchIsNullPat_render_false {f : List Char} (hfne : f ≠ [])
    (hfws : ∀ c ∈ f, pyWs c = false) :
    matchIsNullPat (f ++ ' ' :: ['I','S',' ','N','U','L','L']) =
      some (f ++ ' ' :: ['I','S',' ','N','U','L','L'], f) := by
  rcases f with _ | ⟨a, f'⟩
  · exact absurd rfl hfne
  have hnws : ∀ c ∈ a :: f', notWs c = true := by
    intro c hc
    simp [notWs, hfws c hc]
  have hA : ((a :: f') ++ ' ' :: ['I','S',' ','N','U','L','L']).takeWhile notWs =
      a :: f' := takeWhile_append_cons _ _ _ hnws (by decide)
  have hB : ((a :: f') ++ ' ' :: ['I','S',' ','N','U','L','L']).dropWhile notWs =
      ' ' :: ['I','S',' ','N','U','L','L'] :=
    dropWhile_append_cons _ _ _ hnws (by decide)
  have hC : parseWsPlus (' ' :: ['I','S',' ','N','U','L','L']) =
      some ['I','S',' ','N','U','L','L'] := rfl
  have hIS : dropLit ['I','S'] ['I','S',' ','N','U','L','L'] =
      some [' ','N','U','L','L'] := rfl
  have hW2 : parseWsPlus [' ','N','U','L','L'] = some ['N','U','L','L'] := rfl
  have hNT : dropLit ['N','O','T'] ['N','U','L','L'] = Option.none := rfl
  have hNL : dropLit ['N','U','L','L'] ['N','U','L','L'] = some [] := rfl
  have hEm : (a :: f').isEmpty = false := rfl
  simp only [matchIsNullPat, hA, hB, hC, hIS, hW2, hNT, hNL, hEm,
    Bool.false_eq_true, if_false, List.length_nil, Nat.sub_zero, List.take_length]

theorem matchIsNullPat_render_true {f : List Char} (hfne : f ≠ [])
    (hfws : ∀ c ∈ f, pyWs c = false) :
    matchIsNullPat (f ++ ' ' :: ['I','S',' ','N','O','T',' ','N','U','L','L']) =
      some (f ++ ' ' :: ['I','S',' ','N','O','T',' ','N','U','L','L'], f) := by
  rcases f with _ | ⟨a, f'⟩
  · exact absurd rfl hfne
  have hnws : ∀ c ∈ a :: f', notWs c = true := by
    intro c hc
    simp [notWs, hfws c hc]
  have hA : ((a :: f') ++ ' ' ::
      ['I','S',' ','N','O','T',' ','N','U','L','L']).takeWhile notWs =
      a :: f' := takeWhile_append_cons _ _ _ hnws (by decide)
  have hB : ((a :: f') ++ ' ' ::
      ['I','S',' ','N','O','T',' ','N','U','L','L']).dropWhile notWs =
      ' ' :: ['I','S',' ','N','O','T',' ','N','U','L','L'] :=
    dropWhile_append_cons _ _ _ hnws (by decide)
  have hC : parseWsPlus (' ' :: ['I','S',' ','N','O','T',' ','N','U','L','L']) =
      some ['I','S',' ','N','O','T',' ','N','U','L','L'] := rfl
  have hIS : dropLit ['I','S'] ['I','S',' ','N','O','T',' ','N','U','L','L'] =
      some [' ','N','O','T',' ','N','U','L','L'] := rfl
  have hW2 : parseWsPlus [' ','N','O','T',' ','N','U','L','L'] =
      some ['N','O','T',' ','N','U','L','L'] := rfl
  have hNT : dropLit ['N','O','T'] ['N','O','T',' ','N','U','L','L'] =
      some [' ','N','U','L','L'] := rfl
  have hW3 : parseWsPlus [' ','N','U','L','L'] = some ['N','U','L','L'] := rfl
  have hNL : dropLit ['N','U','L','L'] ['N','U','L','L'] = some [] := rfl
  have hEm : (a :: f').isEmpty = false := rfl
  simp only [matchIsNullPat, hA, hB, hC, hIS, hW2, hNT, hW3, hNL, hEm,
    Bool.false_eq_true, if_false, List.length_nil, Nat.sub_zero, List.take_length]

theorem matchInPat_render_false {f inner : List Char} (hfne : f ≠ [])
    (hfws : ∀ c ∈ f, pyWs c = false)
    (hnl : ∀ c ∈ inner, (decide (c ≠ '\n')) = true) :
    matchInPat (f ++ ' ' :: ('I':: 'N':: ' ':: '(':: (inner ++ [')']))) =
      some (f ++ ' ' :: ('I':: 'N':: ' ':: '(':: (inner ++ [')'])), f, inner) := by
  rcases f with _ | ⟨a, f'⟩
  · exact absurd rfl hfne
  have hnws : ∀ c ∈ a :: f', notWs c = true := by
    intro c hc
    simp [notWs, hfws c hc]
  have hA : ((a :: f') ++ ' ' :: ('I':: 'N':: ' ':: '(':: (inner ++ [')']))).takeWhile
      notWs = a :: f' := takeWhile_append_cons _ _ _ hnws (by decide)
  have hB : ((a :: f') ++ ' ' :: ('I':: 'N':: ' ':: '(':: (inner ++ [')']))).dropWhile
      notWs = ' ' :: ('I':: 'N':: ' ':: '(':: (inner ++ [')'])) :=
    dropWhile_append_cons _ _ _ hnws (by decide)
  have hC : parseWsPlus (' ' :: ('I':: 'N':: ' ':: '(':: (inner ++ [')']))) =
      some ('I':: 'N':: ' ':: '(':: (inner ++ [')'])) := rfl
  have hNT : dropLit ['N','O','T'] ('I':: 'N':: ' ':: '(':: (inner ++ [')'])) =
      Option.none := rfl
  have hIN : dropLit ['I','N'] ('I':: 'N':: ' ':: '(':: (inner ++ [')'])) =
      some (' ':: '(':: (inner ++ [')'])) := rfl
  have hDW : (' ':: '(':: (inner ++ [')'])).dropWhile pyWs =
      '(':: (inner ++ [')']) := rfl
  have hPA : dropLit ['('] ('(':: (inner ++ [')'])) = some (inner ++ [')']) := rfl
  have hLine : (inner ++ [')']).takeWhile (fun c => decide (c ≠ '\n')) =
      inner ++ [')'] := by
    apply takeWhile_eq_self_of_all
    intro c hc
    rcases List.mem_append.mp hc with hc | hc
    · exact hnl c hc
    · rw [List.mem_singleton.mp hc]
      decide
  have hRev : (inner ++ [')']).reverse = ')' :: inner.reverse := by simp
  have hFind : (')' :: inner.reverse).findIdx? (fun c => decide (c = ')')) =
      some 0 := rfl
  have hTake : (inner ++ [')']).take ((inner ++ [')']).length - 1 - 0) = inner := by
    have h1 : (inner ++ [')']).length - 1 - 0 = inner.length := by simp
    rw [h1, List.take_left]
  have hEm : (a :: f').isEmpty = false := rfl
  have hCons : ((a :: f') ++ ' ' :: ('I':: 'N':: ' ':: '(':: (inner ++ [')']))).length -
      (inner ++ [')']).length + ((inner ++ [')']).length - 0) =
      ((a :: f') ++ ' ' :: ('I':: 'N':: ' ':: '(':: (inner ++ [')']))).length := by
    simp only [List.length_append, List.length_cons, List.length_nil, Nat.sub_zero]
    omega
  simp only [matchInPat, hA, hB, hC, hNT, hIN, hDW, hPA, hLine, hRev, hFind,
    hTake, hEm, Bool.false_eq_true, if_false, hCons, List.take_length]

theorem matchInPat_render_true {f inner : List Char} (hfne : f ≠ [])
    (hfws : ∀ c ∈ f, pyWs c = false)
    (hnl : ∀ c ∈ inner, (decide (c ≠ '\n')) = true) :
    matchInPat (f ++ ' ' :: ('N':: 'O':: 'T':: ' ':: 'I':: 'N':: ' ':: '(':: (inner ++ [')']))) =
      some (f ++ ' ' :: ('N':: 'O':: 'T':: ' ':: 'I':: 'N':: ' ':: '(':: (inner ++ [')'])),
        f, inner) := by
  rcases f with _ | ⟨a, f'⟩
  · exact absurd rfl hfne
  have hnws : ∀ c ∈ a :: f', notWs c = true := by
    intro c hc
    simp [notWs, hfws c hc]
  have hA : ((a :: f') ++ ' ' ::
      ('N':: 'O':: 'T':: ' ':: 'I':: 'N':: ' ':: '(':: (inner ++ [')']))).takeWhile
      notWs = a :: f' := takeWhile_append_cons _ _ _ hnws (by decide)
  have hB : ((a :: f') ++ ' ' ::
      ('N':: 'O':: 'T':: ' ':: 'I':: 'N':: ' ':: '(':: (inner ++ [')']))).dropWhile
      notWs = ' ' :: ('N':: 'O':: 'T':: ' ':: 'I':: 'N':: ' ':: '(':: (inner ++ [')'])) :=
    dropWhile_append_cons _ _ _ hnws (by decide)
  have hC : parseWsPlus (' ' :: ('N':: 'O':: 'T':: ' ':: 'I':: 'N':: ' ':: '('::
      (inner ++ [')']))) =
      some ('N':: 'O':: 'T':: ' ':: 'I':: 'N':: ' ':: '(':: (inner ++ [')'])) := rfl
  have hNT : dropLit ['N','O','T']
      ('N':: 'O':: 'T':: ' ':: 'I':: 'N':: ' ':: '(':: (inner ++ [')'])) =
      some (' ':: 'I':: 'N':: ' ':: '(':: (inner ++ [')'])) := rfl
  have hW2 : parseWsPlus (' ':: 'I':: 'N':: ' ':: '(':: (inner ++ [')'])) =
      some ('I':: 'N':: ' ':: '(':: (inner ++ [')'])) := rfl
  have hIN : dropLit ['I','N'] ('I':: 'N':: ' ':: '(':: (inner ++ [')'])) =
      some (' ':: '(':: (inner ++ [')'])) := rfl
  have hDW : (' ':: '(':: (inner ++ [')'])).dropWhile pyWs =
      '(':: (inner ++ [')']) := rfl
  have hPA : dropLit ['('] ('(':: (inner ++ [')'])) = some (inner ++ [')']) := rfl
  have hLine : (inner ++ [')']).takeWhile (fun c => decide (c ≠ '\n')) =
      inner ++ [')'] := by
    apply takeWhile_eq_self_of_all
    intro c hc
    rcases List.mem_append.mp hc with hc | hc
    · exact hnl c hc
    · rw [List.mem_singleton.mp hc]
      decide
  have hRev : (inner ++ [')']).reverse = ')' :: inner.reverse := by simp
  have hFind : (')' :: inner.reverse).findIdx? (fun c => decide (c = ')')) =
      some 0 := rfl
  have hTake : (inner ++ [')']).take ((inner ++ [')']).length - 1 - 0) = inner := by
    have h1 : (inner ++ [')']).length - 1 - 0 = inner.length := by simp
    rw [h1, List.take_left]
  have hEm : (a :: f').isEmpty = false := rfl
  have hCons : ((a :: f') ++ ' ' ::
      ('N':: 'O':: 'T':: ' ':: 'I':: 'N':: ' ':: '(':: (inner ++ [')']))).length -
      (inner ++ [')']).length + ((inner ++ [')']).length - 0) =
      ((a :: f') ++ ' ' ::
        ('N':: 'O':: 'T':: ' ':: 'I':: 'N':: ' ':: '(':: (inner ++ [')']))).length := by
    simp only [List.length_append, List.length_cons, List.length_nil, Nat.sub_zero]
    omega
  simp only [matchInPat, hA, hB, hC, hNT, hW2, hIN, hDW, hPA, hLine, hRev, hFind,
    hTake, hEm, Bool.false_eq_true, if_false, hCons, List.take_length]

/-! ## Cleaning rendered literals back to their tokens -/

theorem pyWs_nl : pyWs '\n' = true := rfl

theorem not_nl_of_ws_false {c : Char} (h : pyWs c = false) :
    (decide (c ≠ '\n')) = true := by
  rcases hc : decide (c ≠ '\n') with _ | _
  · exfalso
    have : c = '\n' := by simpa using hc
    rw [this] at h
    exact absurd h (by decide)
  · rfl

theorem goodTok_quotefree {t : List Char} (h : goodTok t) :
    ∀ c ∈ t, (c = '\'' || c = '"') = false := by
  intro c hc
  rcases plainChar_spec (h.2.1 c hc) with ⟨-, -, -, -, h5, h6⟩
  simp [h5, h6]

theorem goodTok_nlfree {t : List Char} (h : goodTok t) :
    ∀ c ∈ t, (decide (c ≠ '\n')) = true :=
  fun c hc => not_nl_of_ws_false (goodTok_wsfree h c hc)

theorem renderLit_nlfree {l : SLit} (h : goodTok (litVal l)) :
    ∀ c ∈ renderLit l, (decide (c ≠ '\n')) = true :=
  fun c hc => not_nl_of_ws_false (renderLit_wsfree_of_tok h c hc)

theorem renderLit_dropWhile {l : SLit} (h : goodTok (litVal l)) :
    (renderLit l).dropWhile pyWs = renderLit l :=
  dropWhile_eq_self_of_all (renderLit_wsfree_of_tok h)

theorem clean_renderLit {l : SLit} (h : goodTok (litVal l)) :
    stripQuotes (pyStrip (renderLit l)) = litVal l := by
  rw [pyStrip_eq_self (renderLit_wsfree_of_tok h)]
  cases l with
  | num v => exact stripQuotes_eq_self (goodTok_quotefree h)
  | txt v => exact stripQuotes_quoted h.1 (goodTok_quotefree h)

theorem renderInner_nlfree {v0 : SLit} {vrest : List SLit}
    (h0 : goodTok (litVal v0)) (hels : ∀ l ∈ vrest, goodTok (litVal l)) :
    ∀ c ∈ renderInner v0 vrest, (decide (c ≠ '\n')) = true := by
  intro c hc
  rcases List.mem_append.mp hc with hc | hc
  · exact renderLit_nlfree h0 c hc
  · rcases List.mem_flatMap.mp hc with ⟨l, hl, hcl⟩
    rcases List.mem_cons.mp hcl with rfl | hcl
    · decide
    · rcases List.mem_cons.mp hcl with rfl | hcl
      · decide
      · exact renderLit_nlfree (hels l hl) c hcl

/-! ## Comma splitting of a rendered IN list -/

theorem renderLit_commafree {l : SLit} (h : goodTok (litVal l)) :
    ∀ c ∈ renderLit l, (c = ',') = false := by
  cases l with
  | num v =>
    intro c hc
    simp [(plainChar_spec (h.2.1 c hc)).2.2.2.1]
  | txt v =>
    intro c hc
    simp only [renderLit] at hc
    rcases List.mem_cons.mp hc with rfl | hc
    · simp
    · rcases List.mem_append.mp hc with hc | hc
      · simp [(plainChar_spec (h.2.1 c hc)).2.2.2.1]
      · rw [List.mem_singleton.mp hc]
        simp

theorem splitComma_nocomma {xs : List Char} (h : ∀ c ∈ xs, (c = ',') = false) :
    splitComma xs = [xs] := by
  induction xs with
  | nil => rfl
  | cons c cs ih =>
    have hc : ¬ c = ',' := by
      have hh := h c (List.mem_cons_self c cs)
      simp at hh
      exact hh
    simp only [splitComma]
    rw [if_neg hc]
    simp only [ih (fun x hx => h x (List.mem_cons_of_mem _ hx))]

theorem splitComma_append {xs rest : List Char}
    (h : ∀ c ∈ xs, (c = ',') = false) :
    splitComma (xs ++ ',' :: rest) = xs :: splitComma rest := by
  induction xs with
  | nil => simp [splitComma]
  | cons c cs ih =>
    have hc : ¬ c = ',' := by
      have hh := h c (List.mem_cons_self c cs)
      simp at hh
      exact hh
    rw [List.cons_append]
    simp only [splitComma]
    rw [if_neg hc]
    simp only [ih (fun x hx => h x (List.mem_cons_of_mem _ hx))]

theorem splitComma_renderInner :
    ∀ (vrest : List SLit) (v0 : SLit), goodTok (litVal v0) →
      (∀ l ∈ vrest, goodTok (litVal l)) →
      splitComma (renderInner v0 vrest) =
        renderLit v0 :: vrest.map (fun l => ' ' :: renderLit l) := by
  intro vrest
  induction vrest with
  | nil =>
    intro v0 h0 _
    have h1 : renderInner v0 [] = renderLit v0 := by simp [renderInner]
    rw [h1, splitComma_nocomma (renderLit_commafree h0)]
    rfl
  | cons l ls ih =>
    intro v0 h0 hels
    have hsh : renderInner v0 (l :: ls) =
        renderLit v0 ++ ',' :: (' ' :: renderInner l ls) := by
      simp [renderInner]
    rw [hsh, splitComma_append (renderLit_commafree h0)]
    have hx := ih l (hels l (List.mem_cons_self l ls))
      (fun x hx => hels x (List.mem_cons_of_mem _ hx))
    simp only [splitComma]
    rw [if_neg (by decide)]
    simp only [hx, List.map_cons]

theorem pyStrip_ws_cons (x : List Char) : pyStrip (' ' :: x) = pyStrip x := by
  simp only [pyStrip, List.dropWhile_cons]
  rw [if_pos (show pyWs ' ' = true from rfl)]

/-! ## `parse_condition` on each rendered fragment shape -/

theorem parse_condition_cmp {f : List Char} {op : SOp} {v : SLit} (cid : Nat)
    (hg : goodFrag (SFrag.cmp f op v)) :
    parse_condition ⟨renderFrag (SFrag.cmp f op v)⟩ cid =
      some (fragCondition cid (SFrag.cmp f op v)) := by
  obtain ⟨hf, hv⟩ := hg
  have hvt := goodLit_tok hv
  have hfws := goodTok_wsfree hf
  have hfne := hf.1
  have hTL : (⟨renderFrag (SFrag.cmp f op v)⟩ : String).toList =
      f ++ ' ' :: (renderOp op ++ ' ' :: renderLit v) := rfl
  have hm1 : matchToDateAt (f ++ ' ' :: (renderOp op ++ ' ' :: renderLit v)) =
      Option.none := by
    cases op <;>
      first
        | exact matchToDateAt_noneA hfne hfws rfl rfl rfl
        | exact matchToDateAt_noneB hfne hfws rfl rfl rfl rfl
  have hm2 : matchBetweenPat (f ++ ' ' :: (renderOp op ++ ' ' :: renderLit v)) =
      Option.none := by
    cases op <;>
      first
        | exact matchBetweenPat_noneA hfne hfws rfl rfl rfl
        | exact matchBetweenPat_noneB hfne hfws rfl rfl rfl rfl
  have hm3 : matchInPat (f ++ ' ' :: (renderOp op ++ ' ' :: renderLit v)) =
      Option.none := by
    cases op <;>
      first
        | exact matchInPat_noneA hfne hfws rfl rfl rfl
        | exact matchInPat_noneB hfne hfws rfl rfl rfl rfl
  have hm4 : matchIsNullPat (f ++ ' ' :: (renderOp op ++ ' ' :: renderLit v)) =
      Option.none := by
    cases op <;> exact matchIsNullPat_noneH hfne hfws rfl rfl
  have hm5 := matchOpPat_render op hfne hfws (renderLit_dropWhile hvt)
    (renderLit_nlfree hvt)
  have hops : (⟨ucStr (pyStrip (renderOp op))⟩ : String) = opStr op := by
    cases op <;> rfl
  simp only [parse_condition, hTL, hm1, hm2, hm3, hm4, hm5,
    pyStrip_eq_self hfws, clean_renderLit hvt, hops, fragCondition]

theorem parse_condition_isNull {f : List Char} (neg : Bool) (cid : Nat)
    (hg : goodFrag (SFrag.isNull f neg)) :
    parse_condition ⟨renderFrag (SFrag.isNull f neg)⟩ cid =
      some (fragCondition cid (SFrag.isNull f neg)) := by
  have hf : goodTok f := hg
  have hfws := goodTok_wsfree hf
  have hfne := hf.1
  cases neg with
  | false =>
    have hTL : (⟨renderFrag (SFrag.isNull f false)⟩ : String).toList =
        f ++ ' ' :: ['I','S',' ','N','U','L','L'] := rfl
    have hm1 : matchToDateAt (f ++ ' ' :: ['I','S',' ','N','U','L','L']) =
        Option.none := matchToDateAt_noneA hfne hfws rfl rfl rfl
    have hm2 : matchBetweenPat (f ++ ' ' :: ['I','S',' ','N','U','L','L']) =
        Option.none := matchBetweenPat_noneA hfne hfws rfl rfl rfl
    have hm3 : matchInPat (f ++ ' ' :: ['I','S',' ','N','U','L','L']) =
        Option.none := matchInPat_noneA hfne hfws rfl rfl rfl
    have hm4 := matchIsNullPat_render_false hfne hfws
    have hsn : containsSub ['N','O','T']
        (ucStr (f ++ ' ' :: ['I','S',' ','N','U','L','L'])) = false :=
      notSniff_isNull hf false
    simp only [parse_condition, hTL, hm1, hm2, hm3, hm4, hsn,
      pyStrip_eq_self hfws, fragCondition, Bool.false_eq_true, if_false]
  | true =>
    have hTL : (⟨renderFrag (SFrag.isNull f true)⟩ : String).toList =
        f ++ ' ' :: ['I','S',' ','N','O','T',' ','N','U','L','L'] := rfl
    have hm1 : matchToDateAt
        (f ++ ' ' :: ['I','S',' ','N','O','T',' ','N','U','L','L']) =
        Option.none := matchToDateAt_noneA hfne hfws rfl rfl rfl
    have hm2 : matchBetweenPat
        (f ++ ' ' :: ['I','S',' ','N','O','T',' ','N','U','L','L']) =
        Option.none := matchBetweenPat_noneA hfne hfws rfl rfl rfl
    have hm3 : matchInPat
        (f ++ ' ' :: ['I','S',' ','N','O','T',' ','N','U','L','L']) =
        Option.none := matchInPat_noneA hfne hfws rfl rfl rfl
    have hm4 := matchIsNullPat_render_true hfne hfws
    have hsn : containsSub ['N','O','T']
        (ucStr (f ++ ' ' :: ['I','S',' ','N','O','T',' ','N','U','L','L'])) = true :=
      notSniff_isNull hf true
    simp only [parse_condition, hTL, hm1, hm2, hm3, hm4, hsn,
      pyStrip_eq_self hfws, fragCondition, if_true]

theorem cleaned_parts {v0 : SLit} {vrest : List SLit} (h0 : goodTok (litVal v0))
    (hels : ∀ l ∈ vrest, goodTok (litVal l)) :
    (renderLit v0 :: vrest.map (fun l => ' ' :: renderLit l)).map
      (fun p => PyVal.str ⟨stripQuotes (pyStrip p)⟩) =
    (v0 :: vrest).map (fun l => PyVal.str ⟨litVal l⟩) := by
  simp only [List.map_cons, List.map_map, clean_renderLit h0]
  congr 1
  apply List.map_congr_left
  intro l hl
  simp only [Function.comp]
  rw [pyStrip_ws_cons, clean_renderLit (hels l hl)]

theorem parse_condition_inList {f : List Char} (neg : Bool) {v0 : SLit}
    {vrest : List SLit} (cid : Nat)
    (hg : goodFrag (SFrag.inList f neg v0 vrest)) :
    parse_condition ⟨renderFrag (SFrag.inList f neg v0 vrest)⟩ cid =
      some (fragCondition cid (SFrag.inList f neg v0 vrest)) := by
  have hels := inList_elems_tok hg
  obtain ⟨hf, hv0, -, -⟩ := hg
  have h0t := goodLit_tok hv0
  have hfws := goodTok_wsfree hf
  have hfne := hf.1
  have hnl := renderInner_nlfree h0t hels
  have hsp := splitComma_renderInner vrest v0 h0t hels
  have hcp := cleaned_parts h0t hels
  cases neg with
  | false =>
    have hTL : (⟨renderFrag (SFrag.inList f false v0 vrest)⟩ : String).toList =
        f ++ ' ' :: ('I':: 'N':: ' ':: '(':: (renderInner v0 vrest ++ [')'])) := rfl
    have hm1 : matchToDateAt
        (f ++ ' ' :: ('I':: 'N':: ' ':: '(':: (renderInner v0 vrest ++ [')']))) =
        Option.none := matchToDateAt_noneA hfne hfws rfl rfl rfl
    have hm2 : matchBetweenPat
        (f ++ ' ' :: ('I':: 'N':: ' ':: '(':: (renderInner v0 vrest ++ [')']))) =
        Option.none := matchBetweenPat_noneA hfne hfws rfl rfl rfl
    have hm3 := matchInPat_render_false hfne hfws hnl
    have hsn : containsSub ['N','O','T']
        (ucStr (f ++ ' ' :: ('I':: 'N':: ' ':: '(':: (renderInner v0 vrest ++ [')'])))) =
        false := notSniff_inList hf false h0t hels
    simp only [parse_condition, hTL, hm1, hm2, hm3, hsn, hsp, hcp,
      pyStrip_eq_self hfws, clean_renderLit h0t, fragCondition, List.headI,
      Bool.false_eq_true, if_false]
  | true =>
    have hTL : (⟨renderFrag (SFrag.inList f true v0 vrest)⟩ : String).toList =
        f ++ ' ' :: ('N':: 'O':: 'T':: ' ':: 'I':: 'N':: ' ':: '('::
          (renderInner v0 vrest ++ [')'])) := rfl
    have hm1 : matchToDateAt
        (f ++ ' ' :: ('N':: 'O':: 'T':: ' ':: 'I':: 'N':: ' ':: '('::
          (renderInner v0 vrest ++ [')']))) =
        Option.none := matchToDateAt_noneB hfne hfws rfl rfl rfl rfl
    have hm2 : matchBetweenPat
        (f ++ ' ' :: ('N':: 'O':: 'T':: ' ':: 'I':: 'N':: ' ':: '('::
          (renderInner v0 vrest ++ [')']))) =
        Option.none := matchBetweenPat_noneB hfne hfws rfl rfl rfl rfl
    have hm3 := matchInPat_render_true hfne hfws hnl
    have hsn : containsSub ['N','O','T']
        (ucStr (f ++ ' ' :: ('N':: 'O':: 'T':: ' ':: 'I':: 'N':: ' ':: '('::
          (renderInner v0 vrest ++ [')'])))) =
        true := notSniff_inList hf true h0t hels
    simp only [parse_condition, hTL, hm1, hm2, hm3, hsn, hsp, hcp,
      pyStrip_eq_self hfws, clean_renderLit h0t, fragCondition, List.headI,
      if_true]

/-! ## The Typer and Formatter on rendered tokens -/

theorem detect_some_cases (s : String) :
    detect_value_type (some s) = "number" ∨ detect_value_type (some s) = "date" ∨
      detect_value_type (some s) = "text" := by
  simp only [detect_value_type]
  split_ifs <;> simp

theorem detect_number_float {s : String}
    (h : detect_value_type (some s) = "number") : isPyFloatL s.toList = true := by
  by_cases h1 : isPyFloatL s.toList = true
  · exact h1
  · exfalso
    have h1b : isPyFloatL s.toList = false := by
      cases hx : isPyFloatL s.toList
      · rfl
      · exact absurd hx h1
    simp only [detect_value_type, h1b, Bool.false_eq_true, if_false] at h
    cases hm : matchesAnyDateFormat s.toList <;> rw [hm] at h <;> simp at h

theorem plain_quote_notmem {w : List Char} (h : ∀ c ∈ w, plainChar c = true) :
    '\'' ∉ w := by
  intro hq
  exact (plainChar_spec (h _ hq)).2.2.2.2.1 rfl

theorem containsSub_singleton_false {q : Char} {cs : List Char} (h : q ∉ cs) :
    containsSub [q] cs = false := by
  cases hc : containsSub [q] cs
  · rfl
  · exfalso
    rcases decomp_of_containsSub hc with ⟨pre, post, hh⟩
    have hm : q ∈ cs := by
      rw [hh]
      simp
    exact h hm

theorem todate_guard_false {w : List Char} (h : ∀ c ∈ w, plainChar c = true) :
    pyContains (lcStr w) ("to_date(".toList) = false := by
  have hpat : ("to_date(".toList).isEmpty = false := rfl
  simp only [pyContains, hpat, Bool.false_or]
  cases hc : containsSub ("to_date(".toList) (lcStr w)
  · rfl
  · exfalso
    rcases decomp_of_containsSub hc with ⟨pre, post, hh⟩
    have hmem : '(' ∈ lcStr w := by
      rw [hh]
      simp only [List.mem_append]
      left
      right
      decide
    rcases List.mem_map.mp hmem with ⟨c, hcw, hcl⟩
    have hcp : c = '(' := lcChar_eq_paren hcl
    subst hcp
    exact absurd (h _ hcw) (by decide)

theorem doubleSingleQuotes_id {w : List Char} (h : '\'' ∉ w) :
    doubleSingleQuotes ⟨w⟩ = (⟨w⟩ : String) := by
  have hfm : ∀ (x : List Char), '\'' ∉ x →
      (x.flatMap fun c => if c = '\'' then ['\'', '\''] else [c]) = x := by
    intro x
    induction x with
    | nil => intro _; rfl
    | cons c cx ih =>
      intro hx
      have hcq : ¬ c = '\'' := fun hh => hx (hh ▸ List.mem_cons_self c cx)
      rw [List.flatMap_cons, if_neg hcq,
        ih (fun hm => hx (List.mem_cons_of_mem _ hm))]
      rfl
  simp only [doubleSingleQuotes]
  rw [show (⟨w⟩ : String).toList = w from rfl, hfm w h]

theorem format_value_num {w : List Char} (hne : w ≠ [])
    (hpl : ∀ c ∈ w, plainChar c = true)
    (hnum : detect_value_type (some ⟨w⟩) = "number") :
    format_value (PyVal.str ⟨w⟩) "number" = Except.ok (PyVal.str ⟨w⟩) := by
  have hfl : isPyFloatL w = true := detect_number_float hnum
  have hv : ¬ (PyVal.str (⟨w⟩ : String) = PyVal.vnone) := by simp
  have h2 : ¬ (PyVal.str (⟨w⟩ : String) = PyVal.str "") := by
    intro hh
    apply hne
    have := congrArg (fun v => match v with
      | PyVal.str s => s.toList
      | _ => []) hh
    simpa using this
  have hg : pyContains (lcStr w) ['t','o','_','d','a','t','e','('] = false :=
    todate_guard_false hpl
  simp only [format_value, if_neg hv, String.toList, hg, Bool.false_eq_true,
    if_false, if_neg h2, pyFloatable, hfl, if_true, pyStrTop]

theorem format_value_quoted {w : List Char} (hne : w ≠ [])
    (hpl : ∀ c ∈ w, plainChar c = true) {t : String}
    (ht : t = "date" ∨ t = "text") :
    format_value (PyVal.str ⟨w⟩) t =
      Except.ok (PyVal.str ("'" ++ (⟨w⟩ : String) ++ "'")) := by
  have hv : ¬ (PyVal.str (⟨w⟩ : String) = PyVal.vnone) := by simp
  have h2 : ¬ (PyVal.str (⟨w⟩ : String) = PyVal.str "") := by
    intro hh
    apply hne
    have := congrArg (fun v => match v with
      | PyVal.str s => s.toList
      | _ => []) hh
    simpa using this
  have hg : pyContains (lcStr w) ['t','o','_','d','a','t','e','('] = false :=
    todate_guard_false hpl
  have hq : containsSub ['\''] w = false :=
    containsSub_singleton_false (plain_quote_notmem hpl)
  rcases ht with rfl | rfl
  · have hnd : ¬ (("date" : String) = "number") := by decide
    simp only [format_value, if_neg hv, String.toList, hg, Bool.false_eq_true,
      if_false, if_neg hnd, if_neg h2, pyQuoteNotIn, hq, Bool.not_false, if_true,
      pyStrTop]
  · have hnd : ¬ (("text" : String) = "number") := by decide
    have hnd2 : ¬ (("text" : String) = "date") := by decide
    simp only [format_value, if_neg hv, String.toList, hg, Bool.false_eq_true,
      if_false, if_neg hnd, if_neg hnd2, pyStrTop,
      doubleSingleQuotes_id (plain_quote_notmem hpl)]

/-! ## Rendering the parsed Conditions back to the fragments -/

theorem strData_append (a b : String) : (a ++ b).data = a.data ++ b.data := rfl

theorem strData_mk (a : List Char) : (⟨a⟩ : String).data = a := rfl

theorem strData_space : (" " : String).data = [' '] := rfl

theorem strData_quote : ("'" : String).data = ['\''] := rfl

theorem str_ext {a b : String} (h : a.data = b.data) : a = b := by
  cases a
  cases b
  exact congrArg String.mk h

theorem quote_wrap (w : List Char) :
    ("'" ++ (⟨w⟩ : String) ++ "'") = (⟨'\'' :: w ++ ['\'']⟩ : String) := by
  apply str_ext
  simp [strData_append, strData_mk, strData_quote]


theorem opU_not_isnull (op : SOp) :
    (decide ((⟨ucStr ((⟨renderOp op⟩ : String).toList)⟩ : String) = "IS NULL") ||
      decide ((⟨ucStr ((⟨renderOp op⟩ : String).toList)⟩ : String) = "IS NOT NULL")) =
      false := by
  cases op <;> decide

theorem renderCondition_cmp {f : List Char} {op : SOp} {v : SLit} (cid : Nat)
    (hg : goodFrag (SFrag.cmp f op v)) :
    renderCondition (fragCondition cid (SFrag.cmp f op v)) =
      Except.ok ⟨renderFrag (SFrag.cmp f op v)⟩ := by
  obtain ⟨hf, hv⟩ := hg
  simp only [renderCondition, fragCondition, opStr, opU_not_isnull, Bool.and_false,
    Bool.false_eq_true, if_false]
  cases v with
  | num w =>
    obtain ⟨hw, hd⟩ := hv
    rw [show litVal (SLit.num w) = w from rfl, hd,
      format_value_num hw.1 hw.2.1 hd]
    show Except.ok ((⟨f⟩ : String) ++ " " ++ (⟨renderOp op⟩ : String) ++ " " ++
      pyStrTop (PyVal.str ⟨w⟩)) = _
    simp only [pyStrTop]
    congr 1
    apply str_ext
    simp [strData_append, strData_mk, strData_space, renderFrag, renderLit]
  | txt w =>
    obtain ⟨hw, hd⟩ := hv
    rcases detect_some_cases ⟨w⟩ with hD | hD | hD
    · exact absurd hD hd
    all_goals
      rw [show litVal (SLit.txt w) = w from rfl, hD,
        format_value_quoted hw.1 hw.2.1 (by simp [hD])]
      show Except.ok ((⟨f⟩ : String) ++ " " ++ (⟨renderOp op⟩ : String) ++ " " ++
        pyStrTop (PyVal.str ("'" ++ (⟨w⟩ : String) ++ "'"))) = _
      simp only [pyStrTop]
      congr 1
      apply str_ext
      simp [strData_append, strData_mk, strData_space, strData_quote, renderFrag,
        renderLit]

theorem strData_isnull : ("IS NULL" : String).data = ['I','S',' ','N','U','L','L'] := rfl

theorem strData_isnotnull :
    ("IS NOT NULL" : String).data = ['I','S',' ','N','O','T',' ','N','U','L','L'] := rfl

theorem strData_in : ("IN" : String).data = ['I','N'] := rfl

theorem strData_notin : ("NOT IN" : String).data = ['N','O','T',' ','I','N'] := rfl

theorem strData_parenL : (" (" : String).data = [' ','('] := rfl

theorem strData_parenR : (")" : String).data = [')'] := rfl

theorem strData_commaSp : (", " : String).data = [',',' '] := rfl

theorem renderCondition_isNull {f : List Char} (neg : Bool) (cid : Nat) :
    renderCondition (fragCondition cid (SFrag.isNull f neg)) =
      Except.ok ⟨renderFrag (SFrag.isNull f neg)⟩ := by
  cases neg with
  | false =>
    have hc : (decide ((⟨ucStr (("IS NULL" : String)).toList⟩ : String) = "IS NULL") ||
        decide ((⟨ucStr (("IS NULL" : String)).toList⟩ : String) = "IS NOT NULL")) =
        true := by decide
    simp only [renderCondition, fragCondition, Bool.false_eq_true, if_false, hc,
      if_true]
    congr 1
    apply str_ext
    simp [strData_append, strData_mk, strData_space, strData_isnull, renderFrag]
  | true =>
    have hc : (decide ((⟨ucStr (("IS NOT NULL" : String)).toList⟩ : String) =
          "IS NULL") ||
        decide ((⟨ucStr (("IS NOT NULL" : String)).toList⟩ : String) =
          "IS NOT NULL")) = true := by decide
    simp only [renderCondition, fragCondition, if_true, hc]
    congr 1
    apply str_ext
    simp [strData_append, strData_mk, strData_space, strData_isnotnull, renderFrag]

theorem mapM_ok_of_all {α β : Type} (F : α → Except String β) (g : α → β) :
    ∀ (xs : List α), (∀ x ∈ xs, F x = Except.ok (g x)) →
      xs.mapM F = Except.ok (xs.map g) := by
  intro xs
  induction xs with
  | nil => intro _; rfl
  | cons a as ih =>
    intro h
    rw [List.mapM_cons, h a (List.mem_cons_self a as),
      ih (fun x hx => h x (List.mem_cons_of_mem _ hx))]
    rfl

theorem format_inList_elems {f : List Char} {neg : Bool} {v0 : SLit}
    {vrest : List SLit} (hg : goodFrag (SFrag.inList f neg v0 vrest)) :
    ∀ l ∈ v0 :: vrest,
      format_value (PyVal.str ⟨litVal l⟩)
        (detect_value_type (some ⟨litVal v0⟩)) =
      Except.ok (PyVal.str ⟨renderLit l⟩) := by
  obtain ⟨-, hv0, hnum, htxt⟩ := hg
  intro l hl
  cases v0 with
  | num w0 =>
    have hd0 : detect_value_type (some ⟨w0⟩) = "number" := hv0.2
    rw [show litVal (SLit.num w0) = w0 from rfl, hd0]
    rcases List.mem_cons.mp hl with rfl | hl
    · exact format_value_num hv0.1.1 hv0.1.2.1 hd0
    · rcases hnum ⟨w0, rfl⟩ l hl with ⟨w, rfl, hw, hdw⟩
      exact format_value_num hw.1 hw.2.1 hdw
  | txt w0 =>
    have hd0 : detect_value_type (some ⟨w0⟩) ≠ "number" := hv0.2
    rw [show litVal (SLit.txt w0) = w0 from rfl]
    rcases detect_some_cases ⟨w0⟩ with hD | hD | hD
    · exact absurd hD hd0
    all_goals
      rw [hD]
      rcases List.mem_cons.mp hl with rfl | hl
      · rw [show litVal (SLit.txt w0) = w0 from rfl,
          format_value_quoted hv0.1.1 hv0.1.2.1
            (by first | exact Or.inl rfl | exact Or.inr rfl), quote_wrap]
        rfl
      · rcases htxt ⟨w0, rfl⟩ l hl with ⟨w, rfl, hw⟩
        rw [show litVal (SLit.txt w) = w from rfl,
          format_value_quoted hw.1 hw.2.1
            (by first | exact Or.inl rfl | exact Or.inr rfl), quote_wrap]
        rfl

theorem joinPyStrs_render : ∀ (vrest : List SLit) (v0 : SLit),
    joinPyStrs ((v0 :: vrest).map (fun l => PyVal.str ⟨renderLit l⟩)) =
      Except.ok ⟨renderInner v0 vrest⟩ := by
  intro vrest
  induction vrest with
  | nil =>
    intro v0
    rw [show joinPyStrs ((v0 :: []).map (fun l => PyVal.str ⟨renderLit l⟩)) =
      Except.ok (⟨renderLit v0⟩ : String) from rfl]
    congr 1
    apply str_ext
    simp [strData_mk, renderInner]
  | cons l ls ih =>
    intro v0
    have hstep : joinPyStrs ((v0 :: l :: ls).map (fun x => PyVal.str ⟨renderLit x⟩)) =
        (do
          let rest ← joinPyStrs ((l :: ls).map (fun x => PyVal.str ⟨renderLit x⟩))
          Except.ok ((⟨renderLit v0⟩ : String) ++ ", " ++ rest)) := rfl
    rw [hstep, ih l]
    show Except.ok ((⟨renderLit v0⟩ : String) ++ ", " ++
      (⟨renderInner l ls⟩ : String)) = _
    congr 1
    apply str_ext
    simp [strData_append, strData_mk, strData_commaSp, renderInner]

theorem mapM_map_ok {α β γ : Type} (h : α → β) (F : β → Except String γ)
    (g : α → γ) :
    ∀ (xs : List α), (∀ x ∈ xs, F (h x) = Except.ok (g x)) →
      (xs.map h).mapM F = Except.ok (xs.map g) := by
  intro xs
  induction xs with
  | nil => intro _; rfl
  | cons a as ih =>
    intro hx
    rw [List.map_cons, List.mapM_cons, hx a (List.mem_cons_self a as),
      ih (fun x hm => hx x (List.mem_cons_of_mem _ hm)), List.map_cons]
    rfl

theorem renderCondition_inList {f : List Char} {neg : Bool} {v0 : SLit}
    {vrest : List SLit} (cid : Nat)
    (hg : goodFrag (SFrag.inList f neg v0 vrest)) :
    renderCondition (fragCondition cid (SFrag.inList f neg v0 vrest)) =
      Except.ok ⟨renderFrag (SFrag.inList f neg v0 vrest)⟩ := by
  have hmap := mapM_map_ok (fun l => PyVal.str ⟨litVal l⟩)
    (fun v => format_value v (detect_value_type (some ⟨litVal v0⟩)))
    (fun l => PyVal.str ⟨renderLit l⟩) (v0 :: vrest) (format_inList_elems hg)
  have hjoin := joinPyStrs_render vrest v0
  cases neg with
  | false =>
    have hc1 : (decide ((⟨ucStr (("IN" : String)).toList⟩ : String) = "IS NULL") ||
        decide ((⟨ucStr (("IN" : String)).toList⟩ : String) = "IS NOT NULL")) =
        false := by decide
    have hc2 : (decide ((⟨ucStr (("IN" : String)).toList⟩ : String) = "BETWEEN") ||
        decide ((⟨ucStr (("IN" : String)).toList⟩ : String) = "NOT BETWEEN")) =
        false := by decide
    have hc3 : (decide ((⟨ucStr (("IN" : String)).toList⟩ : String) = "IN") ||
        decide ((⟨ucStr (("IN" : String)).toList⟩ : String) = "NOT IN")) =
        true := by decide
    simp only [renderCondition, fragCondition, Bool.false_eq_true, if_false, hc1,
      hc2, hc3, Bool.false_and, Bool.true_and, if_true]
    rw [hmap]
    show (do
      let inner ← joinPyStrs ((v0 :: vrest).map (fun l => PyVal.str ⟨renderLit l⟩))
      Except.ok ((⟨f⟩ : String) ++ " " ++ "IN" ++ " (" ++ inner ++ ")")) = _
    rw [hjoin]
    show Except.ok ((⟨f⟩ : String) ++ " " ++ "IN" ++ " (" ++
      (⟨renderInner v0 vrest⟩ : String) ++ ")") = _
    congr 1
    apply str_ext
    simp [strData_append, strData_mk, strData_space, strData_in, strData_parenL,
      strData_parenR, renderFrag]
  | true =>
    have hc1 : (decide ((⟨ucStr (("NOT IN" : String)).toList⟩ : String) =
          "IS NULL") ||
        decide ((⟨ucStr (("NOT IN" : String)).toList⟩ : String) = "IS NOT NULL")) =
        false := by decide
    have hc2 : (decide ((⟨ucStr (("NOT IN" : String)).toList⟩ : String) =
          "BETWEEN") ||
        decide ((⟨ucStr (("NOT IN" : String)).toList⟩ : String) = "NOT BETWEEN")) =
        false := by decide
    have hc3 : (decide ((⟨ucStr (("NOT IN" : String)).toList⟩ : String) = "IN") ||
        decide ((⟨ucStr (("NOT IN" : String)).toList⟩ : String) = "NOT IN")) =
        true := by decide
    simp only [renderCondition, fragCondition, if_true, hc1, hc2, hc3,
      Bool.false_eq_true, if_false, Bool.false_and, Bool.true_and]
    rw [hmap]
    show (do
      let inner ← joinPyStrs ((v0 :: vrest).map (fun l => PyVal.str ⟨renderLit l⟩))
      Except.ok ((⟨f⟩ : String) ++ " " ++ "NOT IN" ++ " (" ++ inner ++ ")")) = _
    rw [hjoin]
    show Except.ok ((⟨f⟩ : String) ++ " " ++ "NOT IN" ++ " (" ++
      (⟨renderInner v0 vrest⟩ : String) ++ ")") = _
    congr 1
    apply str_ext
    simp [strData_append, strData_mk, strData_space, strData_notin, strData_parenL,
      strData_parenR, renderFrag]

theorem renderCondition_frag {fr : SFrag} (cid : Nat) (hg : goodFrag fr) :
    renderCondition (fragCondition cid fr) = Except.ok ⟨renderFrag fr⟩ := by
  cases fr with
  | cmp f op v => exact renderCondition_cmp cid hg
  | isNull f neg => exact renderCondition_isNull neg cid
  | inList f neg v0 vrest => exact renderCondition_inList cid hg

theorem mapM_render_fragConds :
    ∀ (frags : List SFrag) (cid : Nat), (∀ fr ∈ frags, goodFrag fr) →
      (fragConds cid frags).mapM renderCondition =
        Except.ok (frags.map (fun fr => (⟨renderFrag fr⟩ : String))) := by
  intro frags
  induction frags with
  | nil => intro _ _; rfl
  | cons fr frs ih =>
    intro cid hg
    rw [show fragConds cid (fr :: frs) =
        fragCondition cid fr :: fragConds (cid + 1) frs from rfl,
      List.mapM_cons, renderCondition_frag cid (hg fr (List.mem_cons_self fr frs)),
      ih (cid + 1) (fun x hx => hg x (List.mem_cons_of_mem _ hx)), List.map_cons]
    rfl

theorem interGo_AND : ∀ (frs : List SFrag) (acc : List Char),
    String.intercalate.go (⟨acc⟩ : String) " AND "
      (frs.map (fun fr => (⟨renderFrag fr⟩ : String))) =
      (⟨acc ++ sepAndClause frs⟩ : String) := by
  intro frs
  induction frs with
  | nil =>
    intro acc
    show (⟨acc⟩ : String) = _
    congr 1
    simp [sepAndClause]
  | cons fr frs2 ih =>
    intro acc
    rw [List.map_cons]
    show String.intercalate.go ((⟨acc⟩ : String) ++ " AND " ++ ⟨renderFrag fr⟩)
      " AND " (frs2.map (fun fr => (⟨renderFrag fr⟩ : String))) = _
    have hacc : (⟨acc⟩ : String) ++ " AND " ++ ⟨renderFrag fr⟩ =
        (⟨acc ++ (' ':: 'A':: 'N':: 'D':: ' ':: renderFrag fr)⟩ : String) := by
      apply str_ext
      simp [strData_append, strData_mk]
    rw [hacc, ih]
    congr 1
    cases frs2 with
    | nil => simp [sepAndClause, renderClause]
    | cons b bs =>
      simp only [sepAndClause, renderClause_cons_cons]
      simp

theorem construct_fragConds (cid : Nat) (fr : SFrag) (frs : List SFrag)
    (hg : ∀ x ∈ fr :: frs, goodFrag x) :
    construct_where_clause (fragConds cid (fr :: frs)) =
      Except.ok ⟨renderClause (fr :: frs)⟩ := by
  rw [show construct_where_clause (fragConds cid (fr :: frs)) =
    (do
      let parts ← (fragConds cid (fr :: frs)).mapM renderCondition
      Except.ok (String.intercalate " AND " parts)) from rfl]
  rw [mapM_render_fragConds (fr :: frs) cid hg]
  show Except.ok (String.intercalate " AND "
    ((fr :: frs).map (fun x => (⟨renderFrag x⟩ : String)))) = _
  rw [List.map_cons, show String.intercalate " AND "
      ((⟨renderFrag fr⟩ : String) :: frs.map (fun x => (⟨renderFrag x⟩ : String))) =
      String.intercalate.go ⟨renderFrag fr⟩ " AND "
        (frs.map (fun x => (⟨renderFrag x⟩ : String))) from rfl,
    interGo_AND frs (renderFrag fr)]
  congr 1
  cases frs with
  | nil => simp [sepAndClause, renderClause]
  | cons b bs => simp [sepAndClause, renderClause_cons_cons]

/-! ## Stripping and re-parsing the split fragments -/

theorem dropWhile_reverse_snoc {p : Char → Bool} (c : Char) (xs : List Char)
    {ys : List Char} (hc : p c = false) (h : ys = xs ++ [c]) :
    ys.reverse.dropWhile p = ys.reverse := by
  subst h
  rw [List.reverse_append, show ([c] : List Char).reverse = [c] from rfl,
    List.singleton_append]
  exact dropWhile_cons_of_false _ hc

theorem pyStrip_renderFrag {fr : SFrag} (hg : goodFrag fr) :
    pyStrip (renderFrag fr) = renderFrag fr := by
  have hfg := fragField_good hg
  have h1 : (renderFrag fr).dropWhile pyWs = renderFrag fr := by
    rw [renderFrag_decomp fr]
    rcases hf : fragField fr with _ | ⟨a, f'⟩
    · exact absurd hf hfg.1
    · rw [List.cons_append]
      exact dropWhile_cons_of_false _
        (goodTok_wsfree hfg a (hf ▸ List.mem_cons_self a f'))
  have h2 : (renderFrag fr).reverse.dropWhile pyWs = (renderFrag fr).reverse := by
    cases fr with
    | cmp f op v =>
      cases v with
      | num w =>
        rcases List.eq_nil_or_concat w with hw | ⟨L, d, hw⟩
        · exact absurd hw hg.2.1.1
        · have hd : d ∈ w := by
            rw [hw]
            simp
          refine dropWhile_reverse_snoc d (f ++ ' ' :: (renderOp op ++ ' ' :: L))
            (goodTok_wsfree hg.2.1 d hd) ?_
          simp [renderFrag, renderLit, hw]
      | txt w =>
        refine dropWhile_reverse_snoc '\''
          (f ++ ' ' :: (renderOp op ++ ' ' :: ('\'' :: w))) (by decide) ?_
        simp [renderFrag, renderLit]
    | isNull f neg =>
      cases neg with
      | false =>
        refine dropWhile_reverse_snoc 'L' (f ++ [' ','I','S',' ','N','U','L'])
          (by decide) ?_
        simp [renderFrag]
      | true =>
        refine dropWhile_reverse_snoc 'L'
          (f ++ [' ','I','S',' ','N','O','T',' ','N','U','L']) (by decide) ?_
        simp [renderFrag]
    | inList f neg v0 vrest =>
      refine dropWhile_reverse_snoc ')'
        (f ++ ' ' :: ((if neg then ['N','O','T',' '] else []) ++
          'I':: 'N':: ' ':: '(':: renderInner v0 vrest)) (by decide) ?_
      cases neg <;> simp [renderFrag]
  unfold pyStrip
  rw [h1, h2, List.reverse_reverse]

theorem renderFrag_isEmpty_false {fr : SFrag} (hg : goodFrag fr) :
    (renderFrag fr).isEmpty = false := by
  rw [renderFrag_decomp]
  rcases hf : fragField fr with _ | ⟨a, f'⟩
  · exact absurd hf (fragField_good hg).1
  · rfl

theorem parse_condition_frag {fr : SFrag} (cid : Nat) (hg : goodFrag fr) :
    parse_condition ⟨renderFrag fr⟩ cid = some (fragCondition cid fr) := by
  cases fr with
  | cmp f op v => exact parse_condition_cmp cid hg
  | isNull f neg => exact parse_condition_isNull neg cid hg
  | inList f neg v0 vrest => exact parse_condition_inList neg cid hg

theorem parseFrags_map_render :
    ∀ (frs : List SFrag) (cid : Nat), (∀ fr ∈ frs, goodFrag fr) →
      parseFrags (frs.map renderFrag) cid = fragConds cid frs := by
  intro frs
  induction frs with
  | nil => intro _ _; rfl
  | cons fr frs2 ih =>
    intro cid hg
    have hg1 := hg fr (List.mem_cons_self fr frs2)
    simp only [List.map_cons, parseFrags, pyStrip_renderFrag hg1,
      renderFrag_isEmpty_false hg1, Bool.false_eq_true, if_false,
      parse_condition_frag cid hg1,
      ih (cid + 1) (fun x hx => hg x (List.mem_cons_of_mem _ hx))]
    rfl

theorem parseFrags_ws_head {fr : SFrag} {frs : List SFrag} (cid : Nat)
    (hg : ∀ x ∈ fr :: frs, goodFrag x) :
    parseFrags ((' ' :: renderFrag fr) :: frs.map renderFrag) cid =
      fragConds cid (fr :: frs) := by
  have hg1 := hg fr (List.mem_cons_self fr frs)
  simp only [parseFrags, pyStrip_ws_cons, pyStrip_renderFrag hg1,
    renderFrag_isEmpty_false hg1, Bool.false_eq_true, if_false,
    parse_condition_frag cid hg1,
    parseFrags_map_render frs (cid + 1) (fun x hx => hg x (List.mem_cons_of_mem _ hx))]
  rfl

theorem renderClause_cons_decomp (fr : SFrag) (frs : List SFrag) :
    ∃ rest, renderClause (fr :: frs) = fragField fr ++ ' ' :: rest := by
  cases frs with
  | nil =>
    refine ⟨fragTail fr, ?_⟩
    rw [show renderClause [fr] = renderFrag fr from by simp [renderClause],
      renderFrag_decomp]
  | cons b bs =>
    refine ⟨fragTail fr ++ ' ':: 'A':: 'N':: 'D':: ' ':: renderClause (b :: bs), ?_⟩
    rw [renderClause_cons_cons, renderFrag_decomp]
    simp

theorem stripWherePrefix_ws_cons {field rest : List Char} (hne : field ≠ [])
    (hf : ∀ c ∈ field, pyWs c = false) (hw : lcStr field ≠ ['w','h','e','r','e']) :
    stripWherePrefix (' ' :: (field ++ ' ' :: rest)) =
      ' ' :: (field ++ ' ' :: rest) := by
  have hdrop : (' ' :: (field ++ ' ' :: rest)).dropWhile pyWs =
      field ++ ' ' :: rest := by
    rw [List.dropWhile_cons, if_pos (show pyWs ' ' = true from rfl)]
    cases field with
    | nil => exact absurd rfl hne
    | cons c cf =>
      rw [List.cons_append]
      exact dropWhile_cons_of_false _ (hf c (List.mem_cons_self c cf))
  simp only [stripWherePrefix, hdrop]
  split
  · next c r2 hlit =>
    rcases dropLitCI_wsfree_append (by decide) hf hlit with hr | hr
    · rcases hr with hr | hr
      · simp at hr
      · simp only [List.headI] at hr
        rw [hr]
        simp
    · exact absurd (by simpa using hr) hw
  · rfl

theorem lcStr_ws_cons (x : List Char) : lcStr (' ' :: x) = ' ' :: lcStr x := rfl

theorem extract_conditions_clause {fr : SFrag} {frs : List SFrag}
    (hg : ∀ x ∈ fr :: frs, goodFrag x) :
    ∀ (q : String),
      extract_conditions ⟨' ' :: renderClause (fr :: frs)⟩ q =
        fragConds 0 (fr :: frs) := by
  intro q
  have hg1 := hg fr (List.mem_cons_self fr frs)
  have hfg := fragField_good hg1
  rcases renderClause_cons_decomp fr frs with ⟨rest, hdec⟩
  have hstrip : stripWherePrefix (' ' :: renderClause (fr :: frs)) =
      ' ' :: renderClause (fr :: frs) := by
    rw [hdec]
    exact stripWherePrefix_ws_cons hfg.1 (goodTok_wsfree hfg) hfg.2.2.2.2.1
  have hsearch : searchToDate (' ' :: renderClause (fr :: frs)) = Option.none := by
    apply searchToDate_none
    rw [lcStr_ws_cons, containsSub_cons_head_ne (by decide)]
    exact noBet_clause hg
  have hsplitA := splitTok_and_ws_clause (fun t ht => goodTok_ban_and ht) fr frs hg
  have hsplitO := flatMap_or_split (fun t ht => goodTok_ban_or ht) fr frs hg
  show extractGo ((' ' :: renderClause (fr :: frs)).length + 1)
    (' ' :: renderClause (fr :: frs)) = _
  rw [show (' ' :: renderClause (fr :: frs)).length + 1 =
    (' ' :: renderClause (fr :: frs)).length + 1 from rfl]
  rw [extractGo_succ, hstrip, hsearch]
  show parseFrags (((splitTok wAND (' ' :: renderClause (fr :: frs))).flatMap
    (splitTok wOR))) 0 = _
  rw [hsplitA, hsplitO]
  exact parseFrags_ws_head 0 hg

/-! ## Locating the WHERE window of the rendered statement -/

theorem find_range_eq (p : Nat → Bool) : ∀ (n m : Nat), m < n → p m = true →
    (∀ k, k < m → p k = false) → (List.range n).find? p = some m := by
  intro n
  induction n with
  | zero => intro m hm _ _; exact absurd hm (Nat.not_lt_zero m)
  | succ n ih =>
    intro m hm hp hlt
    rw [List.range_succ, List.find?_append]
    by_cases hmn : m < n
    · rw [ih m hmn hp hlt]
      rfl
    · have hmn2 : m = n := by omega
      subst hmn2
      have h1 : (List.range m).find? p = Option.none := by
        rw [List.find?_eq_none]
        intro x hx
        have hx2 := hlt x (List.mem_range.mp hx)
        simp [hx2]
      rw [h1]
      simp [List.find?, hp]

theorem strData_where : (" WHERE " : String).data =
    [' ','W','H','E','R','E',' '] := rfl

theorem rendered_query_toList (pre : String) (CL : List Char) :
    (pre ++ " WHERE " ++ (⟨CL⟩ : String)).toList =
      (pre.toList ++ [' ','W','H','E','R','E']) ++ (' ' :: CL) := by
  show (pre ++ " WHERE " ++ (⟨CL⟩ : String)).data = _
  simp only [strData_append, strData_mk, strData_where]
  show pre.data ++ [' ','W','H','E','R','E',' '] ++ CL =
    (pre.data ++ [' ','W','H','E','R','E']) ++ (' ' :: CL)
  simp

theorem whereWinAt_rendered (pre : String) (CL : List Char) :
    whereWinAt (pre ++ " WHERE " ++ (⟨CL⟩ : String)).toList pre.toList.length =
      true := by
  rw [rendered_query_toList]
  unfold whereWinAt
  have hdrop : ((pre.toList ++ [' ','W','H','E','R','E']) ++
      (' ' :: CL)).drop pre.toList.length =
      [' ','W','H','E','R','E'] ++ (' ' :: CL) := by
    rw [List.append_assoc, List.drop_append_of_le_length (by simp)]
    simp
  rw [hdrop]
  rfl

theorem locate_where_clause_rendered (pre : String) (CL : List Char)
    (huniq : ∀ k, k < (pre ++ " WHERE " ++ (⟨CL⟩ : String)).toList.length →
      whereWinAt (pre ++ " WHERE " ++ (⟨CL⟩ : String)).toList k = true →
      k = pre.toList.length) :
    locate_where_clause (pre ++ " WHERE " ++ (⟨CL⟩ : String)) =
      some ⟨' ' :: CL⟩ := by
  have hSL := rendered_query_toList pre CL
  have hlen : pre.toList.length <
      (pre ++ " WHERE " ++ (⟨CL⟩ : String)).toList.length := by
    rw [hSL]
    simp
  have hfind : (List.range
      (pre ++ " WHERE " ++ (⟨CL⟩ : String)).toList.length).find?
      (whereWinAt (pre ++ " WHERE " ++ (⟨CL⟩ : String)).toList) =
      some pre.toList.length := by
    apply find_range_eq _ _ _ hlen (whereWinAt_rendered pre CL)
    intro k hk
    cases hw : whereWinAt (pre ++ " WHERE " ++ (⟨CL⟩ : String)).toList k
    · rfl
    · exfalso
      have := huniq k (Nat.lt_trans hk hlen) hw
      omega
  have hdrop : (pre ++ " WHERE " ++
      (⟨CL⟩ : String)).toList.drop (pre.toList.length + 6) = ' ' :: CL := by
    rw [hSL]
    have h6 : pre.toList.length + 6 =
        (pre.toList ++ [' ','W','H','E','R','E']).length := by simp
    rw [h6, List.drop_left]
  simp only [locate_where_clause, hfind, hdrop]

/-! ## C1: the round trip on the supported fragment family -/

theorem whereSplitPrimary_rendered (pre : String) (CL : List Char)
    (huniq : ∀ k, k < (pre ++ " WHERE " ++ (⟨CL⟩ : String)).toList.length →
      whereWinAt (pre ++ " WHERE " ++ (⟨CL⟩ : String)).toList k = true →
      k = pre.toList.length) :
    whereSplitPrimary (pre ++ " WHERE " ++ (⟨CL⟩ : String)).toList =
      some pre.toList.length := by
  have hSL := rendered_query_toList pre CL
  have hlen : pre.toList.length <
      (pre ++ " WHERE " ++ (⟨CL⟩ : String)).toList.length := by
    rw [hSL]
    simp
  unfold whereSplitPrimary
  apply filter_range_getLast_eq hlen (whereWinAt_rendered pre CL)
  intro j hj1 hj2
  cases hw : whereWinAt (pre ++ " WHERE " ++ (⟨CL⟩ : String)).toList j
  · rfl
  · exfalso
    have := huniq j hj2 hw
    omega

/-- C1 (counterexample): the round trip is not token-equivalent on a statement
whose WHERE clause is a single pattern-5 fragment with a quoted numeric
literal: `a = '1'` is stripped of its quotes, re-typed as a number, and
reconstructed as `a = 1`, changing the operand token. -/
theorem round_trip_token_equivalence_cex :
    parse_sql_query "T WHERE a = '1'" =
      [{ id := 0, field := "a", operator := "=", operator_desc := some "igual",
         value := PyVal.str "1", type := "number" }] ∧
    reconstruct_sql_query (Except.ok "T WHERE a = '1'") "T WHERE a = '1'"
      (parse_sql_query "T WHERE a = '1'") = "T WHERE a = 1" ∧
    ("T WHERE a = 1" : String) ≠ "T WHERE a = '1'" := by
  refine ⟨by decide, by decide, by decide⟩

/-- C1 (amended): on statements `pre WHERE clause` whose clause is the
AND-join of fragments from the supported family (plain binary
comparison/LIKE, IS [NOT] NULL, [NOT] IN lists; good tokens, literal
quoting agreeing with the detected type, and a unique WHERE window), the
parse-then-reconstruct round trip reproduces the statement exactly. -/
theorem round_trip_supported_shapes (pre : String) (fr : SFrag)
    (frs : List SFrag) (hg : ∀ x ∈ fr :: frs, goodFrag x)
    (huniq : ∀ k, k < (pre ++ " WHERE " ++
        (⟨renderClause (fr :: frs)⟩ : String)).toList.length →
      whereWinAt (pre ++ " WHERE " ++
        (⟨renderClause (fr :: frs)⟩ : String)).toList k = true →
      k = pre.toList.length) :
    reconstruct_sql_query
      (Except.ok (pre ++ " WHERE " ++ (⟨renderClause (fr :: frs)⟩ : String)))
      (pre ++ " WHERE " ++ (⟨renderClause (fr :: frs)⟩ : String))
      (parse_sql_query
        (pre ++ " WHERE " ++ (⟨renderClause (fr :: frs)⟩ : String))) =
      pre ++ " WHERE " ++ (⟨renderClause (fr :: frs)⟩ : String) := by
  have hlocate := locate_where_clause_rendered pre (renderClause (fr :: frs)) huniq
  have hparse : parse_sql_query
      (pre ++ " WHERE " ++ (⟨renderClause (fr :: frs)⟩ : String)) =
      fragConds 0 (fr :: frs) := by
    unfold parse_sql_query
    rw [hlocate]
    exact extract_conditions_clause hg _
  rw [hparse]
  have hrec := reconstruct_primary_splits_last
    (pre ++ " WHERE " ++ (⟨renderClause (fr :: frs)⟩ : String))
    (pre ++ " WHERE " ++ (⟨renderClause (fr :: frs)⟩ : String))
    (fragConds 0 (fr :: frs)) pre.toList.length
    (whereWinAt_rendered pre (renderClause (fr :: frs)))
    (fun j hj1 hj2 => by
      cases hw : whereWinAt (pre ++ " WHERE " ++
          (⟨renderClause (fr :: frs)⟩ : String)).toList j
      · rfl
      · exact absurd (huniq j hj1 hw) (by omega))
    ⟨renderClause (fr :: frs)⟩ (construct_fragConds 0 fr frs hg)
  rw [hrec]
  have htake : (pre ++ " WHERE " ++
      (⟨renderClause (fr :: frs)⟩ : String)).toList.take pre.toList.length =
      pre.toList := by
    rw [rendered_query_toList, List.append_assoc]
    exact List.take_left _ _
  rw [htake]
  rfl

/-- Witness for C1 (amended) at a concrete statement. -/
theorem round_trip_supported_shapes_witness :
    reconstruct_sql_query
      (Except.ok ("SELECT * FROM t" ++ " WHERE " ++
        (⟨renderClause [SFrag.cmp ['a'] SOp.eq (SLit.num ['1'])]⟩ : String)))
      ("SELECT * FROM t" ++ " WHERE " ++
        (⟨renderClause [SFrag.cmp ['a'] SOp.eq (SLit.num ['1'])]⟩ : String))
      (parse_sql_query
        ("SELECT * FROM t" ++ " WHERE " ++
          (⟨renderClause [SFrag.cmp ['a'] SOp.eq (SLit.num ['1'])]⟩ : String))) =
      "SELECT * FROM t" ++ " WHERE " ++
        (⟨renderClause [SFrag.cmp ['a'] SOp.eq (SLit.num ['1'])]⟩ : String) := by
  apply round_trip_supported_shapes "SELECT * FROM t"
    (SFrag.cmp ['a'] SOp.eq (SLit.num ['1'])) []
  · intro x hx
    rcases List.mem_singleton.mp hx with rfl
    simp only [goodFrag, goodLit, goodTok]
    decide
  · decide

end SqlRQ
